import Mathlib

/-!
Verification development for the chart state engine (`ChartStateService`).

The TypeScript service is shallowly embedded here:
* JS `Map<string, T>` (insertion-ordered, unique keys) is modelled as an
  association list `List (String × T)`; `Map.set` updates an existing key in
  place and appends an unknown key, `Map.forEach` iterates in list order,
  exactly as JS `Map` does.
* JS `Set<string>` is modelled as an insertion-ordered duplicate-free
  `List String`.
* JS numbers are modelled as `Rat` (the engine does exact-looking arithmetic
  on coordinates; no claim depends on floating-point rounding).
* The JS falsy-default idiom `v || d` (where `0`, `''`, `undefined` are
  falsy) is modelled by the explicit helpers `jsOr` / `strTruthy`.
* `Math.random()`-generated identifiers are modelled by an explicit id
  supply parameter.
-/

namespace Chartflow

/-- JS `v || d` for an optional number: `undefined` and `0` are falsy. -/
def jsOr (v : Option Rat) (d : Rat) : Rat :=
  match v with
  | none => d
  | some x => if x = 0 then d else x

/-- JS truthiness of a string: only `''` is falsy. -/
def strTruthy (s : String) : Bool := s ≠ ""

/-- JS truthiness of an optional string (`undefined` and `''` are falsy). -/
def optStrTruthy (s : Option String) : Bool :=
  match s with
  | none => false
  | some v => strTruthy v

/-- `Map.get`: value of the (unique) entry with the given key. -/
def mapGet (m : List (String × α)) (k : String) : Option α :=
  (m.find? (fun p => p.1 = k)).map (·.2)

/-- `Map.set`: replace the value of an existing key in place, else append. -/
def mapSet (m : List (String × α)) (k : String) (v : α) : List (String × α) :=
  if m.any (fun p => p.1 = k) then
    m.map (fun p => if p.1 = k then (k, v) else p)
  else
    m ++ [(k, v)]

/-- `Map.delete`. -/
def mapDelete (m : List (String × α)) (k : String) : List (String × α) :=
  m.filter (fun p => p.1 ≠ k)

/-- `Set.add` on an insertion-ordered set. -/
def setAdd (s : List String) (k : String) : List String :=
  if s.contains k then s else s ++ [k]

/-- `node.type` discriminant. -/
inductive NodeType
  | executive | manager | employee | note | shape | group | text
deriving DecidableEq

/-- `ChartNode` (source interface; string-enum fields kept as strings). -/
structure ChartNode where
  id : String
  name : String
  role : String
  department : Option String := none
  type : NodeType
  shapeType : Option String := none
  borderRadius : Option Rat := none
  fontSize : Option Rat := none
  fontFamily : Option String := none
  fontWeight : Option String := none
  fontStyle : Option String := none
  textDecoration : Option String := none
  textAlign : Option String := none
  avatarType : String
  avatarImage : Option String := none
  avatarIcon : Option String := none
  level : Option String := none
  children : Option (List String) := none
  backgroundColor : Option String := none
  nameColor : Option String := none
  roleColor : Option String := none
  departmentColor : Option String := none
  borderColor : Option String := none
  borderWidth : Option Rat := none
deriving DecidableEq

/-- `NodePosition`. -/
structure NodePosition where
  x : Rat
  y : Rat
  width : Option Rat := none
  height : Option Rat := none
deriving DecidableEq

/-- `Drawing`. -/
structure Drawing where
  id : String
  path : String
  color : String
  strokeWidth : Rat
deriving DecidableEq

/-- `ClipboardItem.type`. -/
inductive ClipKind | node | drawing
deriving DecidableEq

/-- `ClipboardItem`; `data` is `ChartNode | Drawing`, modelled as a sum. -/
structure ClipboardItem where
  kind : ClipKind
  nodeData : Option ChartNode := none
  drawingData : Option Drawing := none
  x : Rat
  y : Rat
  width : Rat
  height : Rat
deriving DecidableEq

/-- `HistorySnapshot` (map entries as arrays). -/
structure HistorySnapshot where
  nodes : List (String × ChartNode)
  positions : List (String × NodePosition)
  drawings : List Drawing
deriving DecidableEq

abbrev NodeMap := List (String × ChartNode)
abbrev PosMap := List (String × NodePosition)

/-- The full mutable state of `ChartStateService`. -/
structure EngineState where
  nodes : NodeMap
  nodePositions : PosMap
  drawings : List Drawing
  selectedNodeIds : List String
  selectedDrawingIds : List String
  selectedEdgeId : Option String
  zoomLevel : Rat
  panOffset : Rat × Rat
  undoStack : List HistorySnapshot
  redoStack : List HistorySnapshot
  clipboard : List ClipboardItem
deriving DecidableEq

/-- `maxHistorySize`. -/
def maxHistorySize : Nat := 50

/-- The snapshot `saveHistory` deep-copies (deep copy = the value itself in a
pure model). Also the shape of the snapshots `undo`/`redo` record. -/
def stateSnapshot (s : EngineState) : HistorySnapshot :=
  { nodes := s.nodes, positions := s.nodePositions, drawings := s.drawings }

/-- `saveHistory()`: push snapshot, trim oldest beyond the bound, clear redo. -/
def saveHistory (s : EngineState) : EngineState :=
  let pushed := s.undoStack ++ [stateSnapshot s]
  let trimmed := if pushed.length > maxHistorySize then pushed.drop 1 else pushed
  { s with undoStack := trimmed, redoStack := [] }

/-- `clearSelection()`. -/
def clearSelection (s : EngineState) : EngineState :=
  { s with selectedNodeIds := [], selectedDrawingIds := [], selectedEdgeId := none }

/-- `applySnapshot`: `new Map(entries)` on a duplicate-free entry dump
rebuilds the same map, so the entry lists are installed directly. -/
def applySnapshot (s : EngineState) (snap : HistorySnapshot) : EngineState :=
  clearSelection
    { s with nodes := snap.nodes, nodePositions := snap.positions,
             drawings := snap.drawings }

/-- `undo()` (stack top is the array end: `push`/`pop`): record the current
snapshot on the redo stack, pop the last undo entry and apply it. -/
def undo (s : EngineState) : EngineState :=
  if s.undoStack.isEmpty then s
  else
    match s.undoStack.getLast? with
    | some prev =>
      applySnapshot
        { s with redoStack := s.redoStack ++ [stateSnapshot s],
                 undoStack := s.undoStack.dropLast } prev
    | none => { s with redoStack := s.redoStack ++ [stateSnapshot s] }

/-- `redo()` (pushes onto the undo stack without clearing redo). -/
def redo (s : EngineState) : EngineState :=
  if s.redoStack.isEmpty then s
  else
    match s.redoStack.getLast? with
    | some next =>
      applySnapshot
        { s with undoStack := s.undoStack ++ [stateSnapshot s],
                 redoStack := s.redoStack.dropLast } next
    | none => { s with undoStack := s.undoStack ++ [stateSnapshot s] }

/-- `clearChart()`. -/
def clearChart (s : EngineState) : EngineState :=
  clearSelection { s with nodes := [], nodePositions := [], drawings := [] }

/-- One visit of the recurring source pattern
`map.forEach(node => { if (guard) map.set(node.id, update) })`
(`removeFromParent`, the rename propagation of `updateNode`, and the
adopt/orphan loop of `updateGroupMembership` all mutate through this
shape): read the visited key's current value, and when the guard fires
write the updated record back under the record's own id — an in-place
update when the record's id equals its key, an insertion elsewhere when
it does not. -/
def forEachSetStep (step : ChartNode → Option ChartNode) (acc : NodeMap)
    (p : String × ChartNode) : NodeMap :=
  match mapGet acc p.1 with
  | none => acc
  | some node =>
    match step node with
    | none => acc
    | some newNode => mapSet acc node.id newNode

/-- The whole `forEach` + `map.set(node.id, …)` loop: visit the map's key
sequence in insertion order with live reads.  (Entries appended during the
loop — possible only for records whose id differs from their key — carry
their own id as key and their already-updated value, so a JS revisit of
them rewrites the same value in place and changes nothing.) -/
def forEachSet (step : ChartNode → Option ChartNode) (m : NodeMap) : NodeMap :=
  m.foldl (forEachSetStep step) m

/-- `removeFromParent(map, childId)`: strip `childId` from every `children`
list that mentions it, writing each stripped record back through
`map.set(node.id, …)`. -/
def removeFromParent (m : NodeMap) (childId : String) : NodeMap :=
  forEachSet (fun node =>
    if (node.children.getD []).contains childId then
      some { node with children := some ((node.children.getD []).filter (fun c => c ≠ childId)) }
    else none) m

/-- `isDescendant(rootId, searchId)`: depth-first search through `children`.
The source recursion has no explicit bound (it terminates because the
adjacency is kept acyclic); the embedding makes the recursion depth an
explicit fuel parameter.  With `fuel` at least the number of map entries the
fueled search decides reachability on acyclic maps (proved below). -/
def isDescendant (m : NodeMap) : Nat → String → String → Bool
  | 0, _, _ => false
  | fuel + 1, rootId, searchId =>
    match mapGet m rootId with
    | none => false
    | some node =>
      (node.children.getD []).any
        (fun childId => childId = searchId || isDescendant m fuel childId searchId)

/-- The node-map rewrite of a successful `linkNodes`: detach the target
from any parent, then append it to the children of the source object read
before detaching. -/
def linkNodesMap (m : NodeMap) (sourceId targetId : String) : NodeMap :=
  match mapGet m sourceId with
  | some node =>
    mapSet (removeFromParent m targetId) sourceId
      { node with children := some (node.children.getD [] ++ [targetId]) }
  | none => m

/-- `linkNodes(sourceId, targetId)`.  No-op when source = target or the edge
exists; rejected (alert, no mutation) when the link would create a cycle;
otherwise saves history and rewrites the adjacency. -/
def linkNodes (s : EngineState) (sourceId targetId : String) : EngineState :=
  if sourceId = targetId then s
  else if (match mapGet s.nodes sourceId with
           | some source => (source.children.getD []).contains targetId
           | none => false) then s
  else if isDescendant s.nodes s.nodes.length targetId sourceId then s
  else
    let s1 := saveHistory s
    { s1 with nodes := linkNodesMap s1.nodes sourceId targetId }

/-- The node-map rewrite of `unlinkEdge`. -/
def unlinkNodes (m : NodeMap) (sourceId targetId : String) : NodeMap :=
  match mapGet m sourceId with
  | some node =>
    match node.children with
    | some cs =>
      mapSet m sourceId { node with children := some (cs.filter (fun c => c ≠ targetId)) }
    | none => m
  | none => m

/-- `unlinkEdge(sourceId, targetId)`: filter the target out of the source's
children.  Note: does NOT save history. -/
def unlinkEdge (s : EngineState) (sourceId targetId : String) : EngineState :=
  { s with nodes := unlinkNodes s.nodes sourceId targetId }

/-- Derived edge list (`edges` computed signal): one edge per
`(parent, child)` pair whose child id still resolves. -/
def edgesOf (m : NodeMap) : List (String × String) :=
  m.flatMap (fun p =>
    ((p.2.children.getD []).filter (fun c => (mapGet m c).isSome)).map
      (fun c => (p.2.id, c)))

/-- `deleteSelectedEdge()`: saves history, then unlinks the selected edge.
The edge id `a-b` is resolved against the computed edge list; the embedding
takes the resolved endpoints directly from the derived edges. -/
def deleteSelectedEdge (s : EngineState) (sourceId targetId : String) : EngineState :=
  match s.selectedEdgeId with
  | none => s
  | some _ =>
    if (edgesOf s.nodes).contains (sourceId, targetId) then
      { (unlinkEdge (saveHistory s) sourceId targetId) with selectedEdgeId := none }
    else s

/-- `updateNodePosition(id, x, y)`: spread `{ ...current, x, y }`; an absent
current position yields a record with no width/height. -/
def updateNodePosition (s : EngineState) (id : String) (x y : Rat) : EngineState :=
  let current := mapGet s.nodePositions id
  { s with nodePositions :=
      (mapSet s.nodePositions id
        { x := x, y := y, width := current.bind (·.width), height := current.bind (·.height) }) }

/-- `updateNodeDimensions(id, width, height)`. -/
def updateNodeDimensions (s : EngineState) (id : String) (width height : Rat) : EngineState :=
  { s with nodePositions :=
      (match mapGet s.nodePositions id with
      | some current =>
        if 1 < |jsOr current.width 208 - width| ∨ 1 < |jsOr current.height 100 - height| then
          mapSet s.nodePositions id { current with width := some width, height := some height }
        else s.nodePositions
      | none =>
        mapSet s.nodePositions id { x := 0, y := 0, width := some width, height := some height }) }

/-- `selectNode(id, multi)`. -/
def selectNode (s : EngineState) (id : String) (multi : Bool) : EngineState :=
  let s1 := { s with selectedEdgeId := none }
  let newSet :=
    if multi then
      if s1.selectedNodeIds.contains id then s1.selectedNodeIds.filter (fun k => k ≠ id)
      else setAdd s1.selectedNodeIds id
    else [id]
  let s2 := { s1 with selectedNodeIds := newSet }
  if multi then s2 else { s2 with selectedDrawingIds := [] }

/-- `selectDrawing(id, multi)`. -/
def selectDrawing (s : EngineState) (id : String) (multi : Bool) : EngineState :=
  let s1 := { s with selectedEdgeId := none }
  let newSet :=
    if multi then
      if s1.selectedDrawingIds.contains id then s1.selectedDrawingIds.filter (fun k => k ≠ id)
      else setAdd s1.selectedDrawingIds id
    else [id]
  let s2 := { s1 with selectedDrawingIds := newSet }
  if multi then s2 else { s2 with selectedNodeIds := [] }

/-- `selectAll()`. -/
def selectAll (s : EngineState) : EngineState :=
  { s with selectedNodeIds := s.nodes.map (·.1),
           selectedDrawingIds := s.drawings.map (·.id),
           selectedEdgeId := none }

/-- `selectEdge(id)`. -/
def selectEdge (s : EngineState) (id : String) : EngineState :=
  { s with selectedNodeIds := [], selectedDrawingIds := [], selectedEdgeId := some id }

/-- `Partial<ChartNode>` as passed to `updateNode`: a field is present
(`some`) or absent from the partial object. -/
structure PartialNode where
  name : Option String := none
  role : Option String := none
  department : Option String := none
  shapeType : Option String := none
  borderRadius : Option Rat := none
  fontSize : Option Rat := none
  fontFamily : Option String := none
  fontWeight : Option String := none
  fontStyle : Option String := none
  textDecoration : Option String := none
  textAlign : Option String := none
  avatarType : Option String := none
  avatarImage : Option String := none
  avatarIcon : Option String := none
  level : Option String := none
  children : Option (List String) := none
  backgroundColor : Option String := none
  nameColor : Option String := none
  roleColor : Option String := none
  departmentColor : Option String := none
  borderColor : Option String := none
  borderWidth : Option Rat := none
deriving DecidableEq

/-- Object spread `{ ...node, ...updatedNode }`. -/
def mergeNode (n : ChartNode) (p : PartialNode) : ChartNode :=
  { n with
    name := p.name.getD n.name
    role := p.role.getD n.role
    department := match p.department with | some d => some d | none => n.department
    shapeType := match p.shapeType with | some v => some v | none => n.shapeType
    borderRadius := match p.borderRadius with | some v => some v | none => n.borderRadius
    fontSize := match p.fontSize with | some v => some v | none => n.fontSize
    fontFamily := match p.fontFamily with | some v => some v | none => n.fontFamily
    fontWeight := match p.fontWeight with | some v => some v | none => n.fontWeight
    fontStyle := match p.fontStyle with | some v => some v | none => n.fontStyle
    textDecoration := match p.textDecoration with | some v => some v | none => n.textDecoration
    textAlign := match p.textAlign with | some v => some v | none => n.textAlign
    avatarType := p.avatarType.getD n.avatarType
    avatarImage := match p.avatarImage with | some v => some v | none => n.avatarImage
    avatarIcon := match p.avatarIcon with | some v => some v | none => n.avatarIcon
    level := match p.level with | some v => some v | none => n.level
    children := match p.children with | some v => some v | none => n.children
    backgroundColor := match p.backgroundColor with | some v => some v | none => n.backgroundColor
    nameColor := match p.nameColor with | some v => some v | none => n.nameColor
    roleColor := match p.roleColor with | some v => some v | none => n.roleColor
    departmentColor := match p.departmentColor with | some v => some v | none => n.departmentColor
    borderColor := match p.borderColor with | some v => some v | none => n.borderColor
    borderWidth := match p.borderWidth with | some v => some v | none => n.borderWidth }

/-- Group-rename propagation inside `updateNode`: every node whose
`department` equals the old group name gets the new name, written back
through `newMap.set(otherNode.id, …)`. -/
def propagateRename (m : NodeMap) (oldName newName : String) : NodeMap :=
  forEachSet (fun node =>
    if node.department = some oldName then
      some { node with department := some newName }
    else none) m

/-- One selected id of `updateNode`: read the node, run the rename
propagation when a group is being renamed, then merge the partial at the
selected id. -/
def updateNodeStep (p : PartialNode) (m : NodeMap) (id : String) : NodeMap :=
  match mapGet m id with
  | none => m
  | some node =>
    let m1 :=
      if node.type = NodeType.group ∧ p.name.isSome ∧ optStrTruthy p.name ∧
         some node.name ≠ p.name then
        propagateRename m node.name (p.name.getD "")
      else m
    mapSet m1 id (mergeNode node p)

/-- `updateNode(updatedNode)`: applies the partial to every selected node;
renaming a group first propagates the new name to members.  The node object
merged at the end is the one read before propagation. -/
def updateNode (s : EngineState) (p : PartialNode) : EngineState :=
  if s.selectedNodeIds.isEmpty then s
  else { s with nodes := s.selectedNodeIds.foldl (updateNodeStep p) s.nodes }

/-- `Math.max` on two numbers (no NaN in the model). -/
def rmax (a b : Rat) : Rat := if a < b then b else a

/-- `Math.min` on two numbers (no NaN in the model). -/
def rmin (a b : Rat) : Rat := if a < b then a else b

/-- Rectangle for overlap computations. -/
structure Rect where
  x : Rat
  y : Rat
  w : Rat
  h : Rat
deriving DecidableEq

/-- `getOverlapArea(r1, r2)`. -/
def getOverlapArea (r1 r2 : Rect) : Rat :=
  let overlapLeft := rmax r1.x r2.x
  let overlapRight := rmin (r1.x + r1.w) (r2.x + r2.w)
  let overlapTop := rmax r1.y r2.y
  let overlapBottom := rmin (r1.y + r1.h) (r2.y + r2.h)
  if overlapLeft < overlapRight ∧ overlapTop < overlapBottom then
    (overlapRight - overlapLeft) * (overlapBottom - overlapTop)
  else 0

/-- The functional node types (`['executive', 'manager', 'employee']`). -/
def functionalTypes : List NodeType := [NodeType.executive, NodeType.manager, NodeType.employee]

/-- Node rectangle with the functional-card default sizes. -/
def nodeRect (pos : NodePosition) : Rect :=
  { x := pos.x, y := pos.y, w := jsOr pos.width 208, h := jsOr pos.height 100 }

/-- Group rectangle with the group default sizes. -/
def groupRect (pos : NodePosition) : Rect :=
  { x := pos.x, y := pos.y, w := jsOr pos.width 300, h := jsOr pos.height 300 }

/-- The per-node adopt/orphan step of `updateGroupMembership` (the body of
its `forEach`): `some` exactly when the source executes a
`newMap.set(node.id, …)`, carrying the written record. -/
def ugmStep (s : EngineState) (gRect : Rect) (groupId groupName : String)
    (node : ChartNode) : Option ChartNode :=
  if functionalTypes.contains node.type ∧ node.id ≠ groupId then
    match mapGet s.nodePositions node.id with
    | some pos =>
      let overlap := getOverlapArea gRect (nodeRect pos)
      if 0 < overlap then
        if node.department ≠ some groupName then some { node with department := some groupName }
        else none
      else if node.department = some groupName then some { node with department := some "" }
      else none
    | none => none
  else none

/-- `updateGroupMembership(groupId)`: adopt every functional node touching
the group, orphan every functional node carrying the group's name that no
longer touches it; each write goes through `newMap.set(node.id, …)`. -/
def updateGroupMembership (s : EngineState) (groupId : String) : EngineState :=
  match mapGet s.nodes groupId, mapGet s.nodePositions groupId with
  | some groupNode, some groupPos =>
    if groupNode.type ≠ NodeType.group then s
    else
      { s with nodes :=
          forEachSet (ugmStep s (groupRect groupPos) groupId groupNode.name) s.nodes }
  | _, _ => s

/-- The best-group fold inside `updateNodeMembership`: running pair of
`bestGroup` and `maxOverlap`, updated on strict improvement only. -/
def bestGroupFold (s : EngineState) (nodeId : String) (nRect : Rect) :
    Option ChartNode × Rat :=
  s.nodes.foldl (fun acc p =>
    let gNode := p.2
    if gNode.type = NodeType.group ∧ gNode.id ≠ nodeId then
      match mapGet s.nodePositions gNode.id with
      | some gPos =>
        let overlap := getOverlapArea nRect (groupRect gPos)
        if acc.2 < overlap then (some gNode, overlap) else acc
      | none => acc
    else acc) (none, 0)

/-- The node-map update at the end of `updateNodeMembership`. -/
def unmNewNodes (s : EngineState) (nodeId : String) (node : ChartNode)
    (best : Option ChartNode) : NodeMap :=
  match best with
  | some bestGroup =>
    if node.department ≠ some bestGroup.name then
      mapSet s.nodes nodeId { node with department := some bestGroup.name }
    else s.nodes
  | none =>
    if optStrTruthy node.department then
      mapSet s.nodes nodeId { node with department := some "" }
    else s.nodes

/-- `updateNodeMembership(nodeId)`: adopt the group with the maximum
overlap; clear a truthy department when no group overlaps. -/
def updateNodeMembership (s : EngineState) (nodeId : String) : EngineState :=
  match mapGet s.nodes nodeId, mapGet s.nodePositions nodeId with
  | some node, some pos =>
    if ¬ functionalTypes.contains node.type then s
    else
      { s with nodes :=
          unmNewNodes s nodeId node (bestGroupFold s nodeId (nodeRect pos)).1 }
  | _, _ => s

/-- `deleteSelection()`. -/
def deleteSelection (s : EngineState) : EngineState :=
  if s.selectedNodeIds.isEmpty ∧ s.selectedDrawingIds.isEmpty then s
  else
    let s1 := saveHistory s
    let nodes1 :=
      if ¬ s.selectedNodeIds.isEmpty then
        s.selectedNodeIds.foldl (fun m id => mapDelete (removeFromParent m id) id) s1.nodes
      else s1.nodes
    let pos1 :=
      if ¬ s.selectedNodeIds.isEmpty then
        s.selectedNodeIds.foldl (fun m id => mapDelete m id) s1.nodePositions
      else s1.nodePositions
    let drawings1 :=
      if ¬ s.selectedDrawingIds.isEmpty then
        s1.drawings.filter (fun d => ¬ s.selectedDrawingIds.contains d.id)
      else s1.drawings
    { s1 with nodes := nodes1, nodePositions := pos1, drawings := drawings1,
              selectedNodeIds := [], selectedDrawingIds := [] }

/-- `deleteDrawing(id)` (eraser). -/
def deleteDrawing (s : EngineState) (id : String) : EngineState :=
  let s1 := saveHistory s
  { s1 with drawings := s1.drawings.filter (fun d => d.id ≠ id),
            selectedDrawingIds := s1.selectedDrawingIds.filter (fun k => k ≠ id) }

/-- `addDrawing(drawing)`. -/
def addDrawing (s : EngineState) (d : Drawing) : EngineState :=
  let s1 := saveHistory s
  { s1 with drawings := s1.drawings ++ [d] }

/-- `clearDrawings()`. -/
def clearDrawings (s : EngineState) : EngineState :=
  let s1 := saveHistory s
  { s1 with drawings := [] }

/-- `updatePan(dx, dy)`. -/
def updatePan (s : EngineState) (dx dy : Rat) : EngineState :=
  { s with panOffset := (s.panOffset.1 + dx, s.panOffset.2 + dy) }

/-! ### `shiftPath` — SVG path translation

The source tokenizes the path with `/([a-zA-Z])([^a-zA-Z]*)/g`, splits the
parameter block on spaces/commas, shifts alternating x/y parameters, rounds
to two decimals (`Math.round(v * 100) / 100`) and reassembles the string.
App-produced paths use the plain decimal grammar `[+-]?digits[.digits]`,
which is the `parseFloat` fragment modelled here. -/

/-- `[a-zA-Z]`. -/
def isLetterChar (c : Char) : Bool :=
  ('a' ≤ c ∧ c ≤ 'z') ∨ ('A' ≤ c ∧ c ≤ 'Z')

/-- Whitespace for JS `String.prototype.trim`. -/
def isWsChar (c : Char) : Bool :=
  c = ' ' ∨ c = '\t' ∨ c = '\n' ∨ c = '\r'

/-- Trim both ends of a character list. -/
def trimChars (cs : List Char) : List Char :=
  ((cs.dropWhile isWsChar).reverse.dropWhile isWsChar).reverse

/-- All regex matches `(letter, following non-letters)`, in order. -/
def pathTokens : List Char → List (Char × List Char)
  | [] => []
  | c :: rest =>
    if isLetterChar c then
      (c, rest.takeWhile (fun d => ¬ isLetterChar d))
        :: pathTokens (rest.dropWhile (fun d => ¬ isLetterChar d))
    else pathTokens rest
termination_by cs => cs.length
decreasing_by
  · exact Nat.lt_succ_of_le ((List.dropWhile_sublist _).length_le)
  · exact Nat.lt_succ_of_le (Nat.le_refl _)

/-- Split on `/[ ,]+/` with empty pieces filtered out. -/
def splitCoords : List Char → List (List Char)
  | [] => []
  | c :: rest =>
    if c = ' ' ∨ c = ',' then splitCoords rest
    else
      ((c :: rest).takeWhile (fun d => ¬ (d = ' ' ∨ d = ',')))
        :: splitCoords (rest.dropWhile (fun d => ¬ (d = ' ' ∨ d = ',')))
termination_by cs => cs.length
decreasing_by
  · exact Nat.lt_succ_of_le (Nat.le_refl _)
  · exact Nat.lt_succ_of_le ((List.dropWhile_sublist _).length_le)

/-- Numeric value of a digit string. -/
def digitsVal (cs : List Char) : Nat :=
  cs.foldl (fun a c => a * 10 + (c.toNat - '0'.toNat)) 0

/-- `parseFloat` on the plain decimal grammar; `none` models `NaN`. -/
def parseFloatChars (cs : List Char) : Option Rat :=
  let signed := match cs with
    | '-' :: t => ((-1 : Rat), t)
    | '+' :: t => ((1 : Rat), t)
    | _ => ((1 : Rat), cs)
  let intPart := signed.2.takeWhile (fun c => c.isDigit)
  let rest := signed.2.dropWhile (fun c => c.isDigit)
  let fracPart := match rest with
    | '.' :: t => t.takeWhile (fun c => c.isDigit)
    | _ => []
  if intPart.isEmpty ∧ fracPart.isEmpty then none
  else
    some (signed.1 * ((digitsVal intPart : Rat)
      + (digitsVal fracPart : Rat) / ((10 : Rat) ^ fracPart.length)))

/-- `Math.round(v * 100) / 100` (round half towards +∞). -/
def jsRound2 (x : Rat) : Rat := ((x * 100 + 1/2).floor : Rat) / 100

/-- `Number.prototype.toString` for a two-decimal value. -/
def ratToDecimalString (x : Rat) : String :=
  let n : Int := (x * 100).floor
  let sign := if n < 0 then "-" else ""
  let m := n.natAbs
  let ip := m / 100
  let fp := m % 100
  if fp = 0 then sign ++ toString ip
  else if fp % 10 = 0 then sign ++ toString ip ++ "." ++ toString (fp / 10)
  else sign ++ toString ip ++ "." ++ (if fp < 10 then "0" else "") ++ toString fp

/-- One shifted coordinate: `parseFloat`, add `dx`/`dy` by parity, round. -/
def shiftCoord (dx dy : Rat) (idx : Nat) (coord : List Char) : String :=
  match parseFloatChars coord with
  | none => ""
  | some val =>
    ratToDecimalString (jsRound2 (val + (if idx % 2 = 0 then dx else dy)))

/-- `shiftPath(path, dx, dy)`. -/
def shiftPath (path : String) (dx dy : Rat) : String :=
  let pieces := (pathTokens path.toList).map (fun seg =>
    let params := trimChars seg.2
    let base := seg.1.toString ++ " "
    if params.isEmpty then base
    else
      let coords := splitCoords params
      base ++ " ".intercalate (coords.enum.map (fun p => shiftCoord dx dy p.1 p.2)) ++ " ")
  String.mk (trimChars (String.join pieces).toList)

/-! ### `addNode` and the template loaders -/

/-- The defaulted node literal built inside `addNode` (before `...options`);
the fresh `Math.random` id is an explicit parameter. -/
def defaultNode (newId : String) (t : NodeType) : ChartNode :=
  { id := newId
    name := match t with
      | NodeType.note => "New Note"
      | NodeType.shape => "New Shape"
      | NodeType.group => "New Area"
      | NodeType.text => "Type text..."
      | _ => "New Role"
    role := match t with
      | NodeType.note | NodeType.shape | NodeType.group | NodeType.text => ""
      | _ => "Position"
    type := t
    level := if functionalTypes.contains t then some "P0 - Egresado" else none
    children := some []
    avatarType := "icon"
    avatarIcon := some "person"
    backgroundColor := some (match t with
      | NodeType.group | NodeType.text => "transparent"
      | _ => "#ffffff")
    borderColor := some "#cbd5e1"
    borderWidth := some (match t with
      | NodeType.group => 2
      | NodeType.text => 0
      | _ => 2)
    nameColor := some (if t = NodeType.group then "#64748b" else "#0f172a")
    roleColor := some "#475569"
    departmentColor := some "#64748b"
    shapeType := some "rectangle"
    borderRadius := some 8
    fontSize := some 14
    fontFamily := some "sans-serif"
    fontWeight := some "normal"
    fontStyle := some "normal"
    textDecoration := some "none" }

/-- The state insertion performed by `addNode` (both map writes). -/
def addNodeCore (s1 : EngineState) (newNode : ChartNode) (x y : Rat)
    (wh : Rat × Rat) : EngineState :=
  { s1 with
    nodes := mapSet s1.nodes newNode.id newNode,
    nodePositions := mapSet s1.nodePositions newNode.id
      { x := x, y := y, width := some wh.1, height := some wh.2 } }

/-- `addNode(type, x, y, options, dimensions?)`. -/
def addNode (s : EngineState) (newId : String) (t : NodeType) (x y : Rat)
    (options : PartialNode) (dims : Option (Rat × Rat)) : EngineState :=
  let s1 := saveHistory s
  let newNode := mergeNode (defaultNode newId t) options
  let width0 := jsOr (dims.map (·.1)) 208
  let height0 := jsOr (dims.map (·.2)) 100
  let wh : Rat × Rat :=
    match dims with
    | some _ => (width0, height0)
    | none =>
      match t with
      | NodeType.note => (200, 200)
      | NodeType.shape => (150, 150)
      | NodeType.group => (300, 300)
      | NodeType.text => (150, 50)
      | _ => (width0, height0)
  let s2 := addNodeCore s1 newNode x y wh
  if t = NodeType.group then updateGroupMembership s2 newNode.id else s2

/-- `_addNode` (template helper). -/
def templateAddNode (mp : NodeMap × PosMap) (id name role : String) (t : NodeType)
    (dept : String) (x y : Rat) (children : List String := []) : NodeMap × PosMap :=
  (mapSet mp.1 id
    { id := id, name := name, role := role, type := t, department := some dept
      children := some children
      avatarType := "icon", avatarIcon := some "person"
      backgroundColor := some "#ffffff", borderColor := some "#cbd5e1", borderWidth := some 2
      nameColor := some "#0f172a", roleColor := some "#475569", departmentColor := some "#64748b"
      level := if t = NodeType.group then none else some "P4 - Facilitar"
      shapeType := some "rectangle", borderRadius := some 8 },
   mapSet mp.2 id { x := x, y := y, width := some 208, height := some 100 })

/-- `addGroup` (template helper). -/
def templateAddGroup (mp : NodeMap × PosMap) (id name : String)
    (x y width height : Rat) : NodeMap × PosMap :=
  (mapSet mp.1 id
    { id := id, name := name, role := "", type := NodeType.group, department := some ""
      children := some []
      avatarType := "icon"
      backgroundColor := some "#fef9c3", borderColor := some "#fde047", borderWidth := some 2
      nameColor := some "#854d0e", roleColor := some "", departmentColor := some ""
      shapeType := some "rectangle", borderRadius := some 16 },
   mapSet mp.2 id { x := x, y := y, width := some width, height := some height })

/-! ### `autoLayout`

The source recursion (`measureSubtree` / `executeLayout`) has no explicit
bound — it terminates at runtime because the adjacency is a forest.  The
embedding gives both recursions a shared fuel parameter; with sufficient
fuel it computes exactly what the source computes on terminating inputs,
and the theorems below are fuel-uniform. -/

def CARD_WIDTH : Rat := 250
def LEVEL_HEIGHT : Rat := 400
def GROUP_PADDING : Rat := 150
def GROUP_MARGIN : Rat := 800
def NODE_MARGIN : Rat := 80

/-- Department key of a child id: `map.get(id)?.department || ''`. -/
def deptKey (m : NodeMap) (id : String) : String :=
  (((mapGet m id).bind (fun n => n.department)).getD "")

instance deptKeyDecLE (m : NodeMap) :
    DecidableRel (fun a b => deptKey m a ≤ deptKey m b) :=
  fun a b => inferInstanceAs (Decidable (deptKey m a ≤ deptKey m b))

/-- `sortChildrenByDepartment`: a stable sort of each `children` list by
department string (JS `Array.prototype.sort` is stable, and all stable
sorts of the same list under the same total preorder agree, so the stable
`insertionSort` is extensionally the source comparator sort). -/
def sortNodeChildren (m : NodeMap) (n : ChartNode) : ChartNode :=
  match n.children with
  | some cs =>
    if 1 < cs.length then
      { n with children := some (cs.insertionSort (fun a b => deptKey m a ≤ deptKey m b)) }
    else n
  | none => n

def sortChildrenByDepartment (m : NodeMap) : NodeMap :=
  m.map (fun p => (p.1, sortNodeChildren m p.2))

/-- Maximal runs of consecutive children sharing one department — the block
structure walked by the `while` loops of `measureSubtree`/`executeLayout`.
Each run is tagged with its department key. -/
def deptRuns (m : NodeMap) : List String → List (String × List String)
  | [] => []
  | c :: cs =>
    match deptRuns m cs with
    | [] => [(deptKey m c, [c])]
    | (d, run) :: rest =>
      if deptKey m c = d then (deptKey m c, c :: run) :: rest
      else (deptKey m c, [c]) :: (d, run) :: rest

/-- `measureSubtree(nodeId)`: width demand of a subtree. -/
def measureSubtree (m : NodeMap) : Nat → String → Rat
  | 0, _ => 0
  | fuel + 1, nodeId =>
    match mapGet m nodeId with
    | none => 0
    | some node =>
      let children := node.children.getD []
      if children.isEmpty then CARD_WIDTH
      else
        let runs := deptRuns m children
        ((runs.map (fun r =>
            (r.2.map (fun c => measureSubtree m fuel c)).sum
              + NODE_MARGIN * ((r.2.length : Rat) - 1)
              + (if strTruthy r.1 then GROUP_PADDING * 2 else 0))).sum)
          + GROUP_MARGIN * ((runs.length : Rat) - 1)

/-- `executeLayout(nodeId, x, depth)`: place a node centered over its
measured width and recurse over its children left to right, threading the
running x cursor.  (The source adds the inter-block `GROUP_MARGIN` only
while blocks remain; adding it after the last block too leaves the final,
unread cursor different but every stored position identical.) -/
def executeLayout (m : NodeMap) (cur : PosMap) :
    Nat → String → Rat → Nat → PosMap → PosMap
  | 0, _, _, _, acc => acc
  | fuel + 1, nodeId, x, depth, acc =>
    match mapGet m nodeId with
    | none => acc
    | some node =>
      let totalW := measureSubtree m (fuel + 1) nodeId
      let contentCenter := x + totalW / 2
      let oldPos := mapGet cur nodeId
      let width := jsOr (oldPos.bind (fun p => p.width)) 208
      let height := jsOr (oldPos.bind (fun p => p.height)) 100
      let acc1 := mapSet acc nodeId
        { x := contentCenter - width / 2
          y := (depth : Rat) * LEVEL_HEIGHT + 50
          width := some width, height := some height }
      let children := node.children.getD []
      if children.isEmpty then acc1
      else
        ((deptRuns m children).foldl (fun (st : Rat × PosMap) r =>
          let cx0 := if strTruthy r.1 then st.1 + GROUP_PADDING else st.1
          let inner := r.2.foldl (fun (st2 : Bool × Rat × PosMap) childId =>
              let cx := if st2.1 then st2.2.1 + NODE_MARGIN else st2.2.1
              let childW := measureSubtree m fuel childId
              let acc2 := executeLayout m cur fuel childId cx (depth + 1) st2.2.2
              (true, (cx + childW, acc2))) (false, (cx0, st.2))
          let cx1 := if strTruthy r.1 then inner.2.1 + GROUP_PADDING else inner.2.1
          (cx1 + GROUP_MARGIN, inner.2.2)) (x, acc1)).2

/-- A captured text/note/shape anchor (offset inside the enclosing group). -/
structure Anchor where
  groupId : String
  offsetX : Rat
  offsetY : Rat
deriving DecidableEq

/-- Step 0.5: capture the group-relative offset of every text/note/shape
node whose center lies inside a group rectangle (the last matching group in
map order wins, mirroring the overwriting `Map.set`). -/
def captureAnchors (m : NodeMap) (cur : PosMap) : List (String × Anchor) :=
  m.foldl (fun acc p =>
    let node := p.2
    if node.type = NodeType.text ∨ node.type = NodeType.note ∨ node.type = NodeType.shape then
      match mapGet cur node.id with
      | none => acc
      | some nodePos =>
        m.foldl (fun acc2 q =>
          let gr := q.2
          if gr.type = NodeType.group then
            match mapGet cur gr.id with
            | some groupPos =>
              let nodeCx := nodePos.x + (nodePos.width.getD 0) / 2
              let nodeCy := nodePos.y + (nodePos.height.getD 0) / 2
              if groupPos.x ≤ nodeCx ∧ nodeCx ≤ groupPos.x + (groupPos.width.getD 0) ∧
                 groupPos.y ≤ nodeCy ∧ nodeCy ≤ groupPos.y + (groupPos.height.getD 0) then
                mapSet acc2 node.id
                  { groupId := gr.id, offsetX := nodePos.x - groupPos.x,
                    offsetY := nodePos.y - groupPos.y }
              else acc2
            | none => acc2
          else acc2) acc
    else acc) []

/-- The roots laid out by `autoLayout`: functional nodes that are nobody's
child. -/
def alpRoots (m : NodeMap) : List ChartNode :=
  let childrenSet := m.flatMap (fun p => p.2.children.getD [])
  (m.map (fun p => p.2)).filter (fun n =>
      ¬ childrenSet.contains n.id ∧ functionalTypes.contains n.type)

/-- One root of the layout loop: lay out the tree, advance the cursor. -/
def alpRootStep (m : NodeMap) (cur : PosMap) (fuel : Nat)
    (st : Rat × PosMap) (root : ChartNode) : Rat × PosMap :=
  let w := measureSubtree m fuel root.id
  let acc := executeLayout m cur fuel root.id st.1 0 st.2
  (st.1 + w + GROUP_MARGIN + 200, acc)

/-- Step 2: transfer a non-functional node's old position. -/
def alpTransferStep (m : NodeMap) (acc : PosMap) (p : String × NodePosition) : PosMap :=
  match mapGet m p.1 with
  | some node =>
    if ¬ functionalTypes.contains node.type then mapSet acc p.1 p.2 else acc
  | none => acc

/-- The group nodes (step 3). -/
def alpGroups (m : NodeMap) : List ChartNode :=
  (m.map (fun p => p.2)).filter (fun n => n.type = NodeType.group)

/-- The member cards of a group (step 3). -/
def alpMembers (m : NodeMap) (gr : ChartNode) : List ChartNode :=
  (m.map (fun p => p.2)).filter (fun n =>
      n.department = some gr.name ∧ n.id ≠ gr.id ∧ functionalTypes.contains n.type)

/-- One member of the bounding-box fold (step 3). -/
def alpBoundsStep (acc : PosMap) (b : Option (Rat × Rat × Rat × Rat))
    (mem : ChartNode) : Option (Rat × Rat × Rat × Rat) :=
  match mapGet acc mem.id with
  | some pos =>
    let w := jsOr pos.width 208
    let h := jsOr pos.height 100
    match b with
    | none => some (pos.x, pos.y, pos.x + w, pos.y + h)
    | some (mnX, mnY, mxX, mxY) =>
      some (rmin mnX pos.x, rmin mnY pos.y, rmax mxX (pos.x + w), rmax mxY (pos.y + h))
  | none => b

/-- Step 3 for one group: fit the box around its members. -/
def alpGroupStep (m : NodeMap) (acc : PosMap) (gr : ChartNode) : PosMap :=
  let members := alpMembers m gr
  if members.isEmpty then acc
  else
    let bounds := members.foldl (alpBoundsStep acc) none
    match bounds with
    | none => acc
    | some (minX, minY, maxX, maxY) =>
      mapSet acc gr.id
        { x := minX - 100, y := minY - 100
          width := some ((maxX - minX) + 200)
          height := some ((maxY - minY) + 240) }

/-- Step 4 for one anchor: reattach a text/note/shape to its group. -/
def alpAnchorStep (acc : PosMap) (p : String × Anchor) : PosMap :=
  match mapGet acc p.2.groupId, mapGet acc p.1 with
  | some g, some cn =>
    mapSet acc p.1 { cn with x := g.x + p.2.offsetX, y := g.y + p.2.offsetY }
  | _, _ => acc

/-- Step 1 accumulator: root trees laid out. -/
def alpAcc1 (fuel : Nat) (m : NodeMap) (cur : PosMap) : PosMap :=
  ((alpRoots m).foldl (alpRootStep m cur fuel) ((0 : Rat), ([] : PosMap))).2

/-- Step 2 accumulator: non-functional positions transferred. -/
def alpAcc2 (fuel : Nat) (m : NodeMap) (cur : PosMap) : PosMap :=
  cur.foldl (alpTransferStep m) (alpAcc1 fuel m cur)

/-- Step 3 accumulator: group boxes fitted. -/
def alpAcc3 (fuel : Nat) (m : NodeMap) (cur : PosMap) : PosMap :=
  (alpGroups m).foldl (alpGroupStep m) (alpAcc2 fuel m cur)

/-- The new position map computed by `autoLayout` from an
(already-sorted) node map and the current positions. -/
def autoLayoutPositions (fuel : Nat) (m : NodeMap) (cur : PosMap) : PosMap :=
  (captureAnchors m cur).foldl alpAnchorStep (alpAcc3 fuel m cur)

/-- `autoLayout(saveState)`.  The in-place `children.sort` mutates the live
node map, so the sorted map is both stored and laid out.  Anchor capture
happens before the sort in the source but reads only node types, ids and
positions, all untouched by the sort. -/
def autoLayout (fuel : Nat) (saveState : Bool) (s : EngineState) : EngineState :=
  let s1 := if saveState then saveHistory s else s
  let m := sortChildrenByDepartment s1.nodes
  { s1 with nodes := m, nodePositions := autoLayoutPositions fuel m s1.nodePositions }

/-- `loadFunctionalChart(saveState)`. -/
def loadFunctionalChart (fuel : Nat) (saveState : Bool) (s : EngineState) : EngineState :=
  let s1 := if saveState then saveHistory s else s
  let mp0 : NodeMap × PosMap := ([], [])
  let mp1 := templateAddGroup mp0 "g1" "Management" 500 50 300 300
  let mp2 := templateAddGroup mp1 "g2" "Growth" 200 250 300 300
  let mp3 := templateAddGroup mp2 "g3" "Product" 800 250 300 300
  let mp4 := templateAddNode mp3 "1" "Sarah Connor" "CEO / Founder" NodeType.executive
      "Management" 600 50 ["2", "3"]
  let mp5 := templateAddNode mp4 "2" "James Wright" "Marketing VP" NodeType.manager
      "Growth" 350 250 ["2-1", "2-2"]
  let mp6 := templateAddNode mp5 "2-1" "Growth Team" "Lead" NodeType.employee "Growth" 250 450
  let mp7 := templateAddNode mp6 "2-2" "Brand Team" "Lead" NodeType.employee "Growth" 450 450
  let mp8 := templateAddNode mp7 "3" "Emily Chen" "Engineering VP" NodeType.manager
      "Product" 850 250 ["3-1", "3-2"]
  let mp9 := templateAddNode mp8 "3-1" "Frontend" "Team A" NodeType.employee "Product" 750 450
  let mpA := templateAddNode mp9 "3-2" "Backend" "Team B" NodeType.employee "Product" 950 450
  let mFinal := match mapGet mpA.1 "1" with
    | some n1 => mapSet mpA.1 "1" { n1 with avatarType := "icon", avatarIcon := some "👩‍💼" }
    | none => mpA.1
  autoLayout fuel false { s1 with nodes := mFinal, nodePositions := mpA.2 }

/-- `loadWhiteboard(saveState)`. -/
def loadWhiteboard (saveState : Bool) (s : EngineState) : EngineState :=
  clearChart (if saveState then saveHistory s else s)

/-! ### `pasteNodes`

`Math.random().toString(36).substr(2, 9)` id generation is modelled by an
explicit id supply `freshIds : Nat → String` indexed by the clipboard
position of each item; the theorems take injectivity/freshness of the
supply as hypotheses (the source relies on the same property of its random
ids without checking it). -/

/-- A pasted node together with its computed position (first-pass record). -/
structure NewItem where
  node : ChartNode
  pos : NodePosition
deriving DecidableEq

/-- The `Infinity`-seeded running minimum over clipboard x anchors. -/
def pasteMinX (cb : List ClipboardItem) : Rat :=
  match cb with
  | [] => 0
  | h :: t => t.foldl (fun a i => rmin a i.x) h.x

/-- The `Infinity`-seeded running minimum over clipboard y anchors. -/
def pasteMinY (cb : List ClipboardItem) : Rat :=
  match cb with
  | [] => 0
  | h :: t => t.foldl (fun a i => rmin a i.y) h.y

/-- The per-item step of the old-id → new-id table construction. -/
def pasteIdStep (freshIds : Nat → String) (acc : List (String × String))
    (p : Nat × ClipboardItem) : List (String × String) :=
  match p.2.kind, p.2.nodeData with
  | ClipKind.node, some nd => mapSet acc nd.id (freshIds p.1)
  | _, _ => acc

/-- The old-id → new-id table built in the first pass (`Map.set` per node
item, keyed by the buffered node's original id). -/
def pasteIdMap (cb : List ClipboardItem) (freshIds : Nat → String) :
    List (String × String) :=
  cb.enum.foldl (pasteIdStep freshIds) []

/-- The first-pass record produced by one node item: fresh id, offset
position. -/
def pasteItemOf (freshIds : Nat → String) (targetX targetY minX minY : Rat)
    (p : Nat × ClipboardItem) : Option NewItem :=
  match p.2.kind, p.2.nodeData with
  | ClipKind.node, some nd =>
    some { node := { nd with id := freshIds p.1 }
           pos := { x := targetX + (p.2.x - minX), y := targetY + (p.2.y - minY),
                    width := some p.2.width, height := some p.2.height } }
  | _, _ => none

/-- First pass over node items. -/
def pasteNewItems (cb : List ClipboardItem) (freshIds : Nat → String)
    (targetX targetY minX minY : Rat) : List NewItem :=
  cb.enum.filterMap (pasteItemOf freshIds targetX targetY minX minY)

/-- The first-pass record produced by one drawing item: fresh id, shifted
path. -/
def pasteDrawingOf (freshIds : Nat → String) (targetX targetY minX minY : Rat)
    (p : Nat × ClipboardItem) : Option Drawing :=
  match p.2.kind, p.2.drawingData with
  | ClipKind.drawing, some dd =>
    some { dd with
           id := freshIds p.1
           path := shiftPath dd.path ((targetX + (p.2.x - minX)) - p.2.x)
                     ((targetY + (p.2.y - minY)) - p.2.y) }
  | _, _ => none

/-- First pass over drawing items. -/
def pasteNewDrawings (cb : List ClipboardItem) (freshIds : Nat → String)
    (targetX targetY minX minY : Rat) : List Drawing :=
  cb.enum.filterMap (pasteDrawingOf freshIds targetX targetY minX minY)

/-- Whether a clipboard item produces a pasted node. -/
def isNodeItem (it : ClipboardItem) : Bool :=
  if it.kind = ClipKind.node then it.nodeData.isSome else false

/-- Whether a clipboard item produces a pasted drawing. -/
def isDrawingItem (it : ClipboardItem) : Bool :=
  if it.kind = ClipKind.drawing then it.drawingData.isSome else false

/-- The fresh ids handed out to the clipboard items selected by `pick`, in
clipboard order. -/
def clipFreshIds (pick : ClipboardItem → Bool) (cb : List ClipboardItem)
    (freshIds : Nat → String) : List String :=
  cb.enum.filterMap (fun p => if pick p.2 then some (freshIds p.1) else none)

/-- The identity-relevant view of a node record: its id and its children
list (the fields paste remapping is about; group membership recomputation
only ever rewrites departments). -/
def nodeView (n : ChartNode) : String × Option (List String) := (n.id, n.children)

/-- Step 5: re-run group membership for every pasted group. -/
def pasteApplyMembership (l : List NewItem) (s : EngineState) : EngineState :=
  l.foldl (fun st it =>
    if it.node.type = NodeType.group then updateGroupMembership st it.node.id
    else st) s

/-- Second pass: remap `children` through the id table, dropping ids that
were not themselves copied. -/
def remapChildren (idMap : List (String × String)) (it : NewItem) : NewItem :=
  match it.node.children with
  | some cs =>
    if ¬ cs.isEmpty then
      { it with node := { it.node with children := some (cs.filterMap
          (fun c => mapGet idMap c)) } }
    else it
  | none => it

/-- `pasteNodes(targetX, targetY)`. -/
def pasteNodes (s : EngineState) (freshIds : Nat → String)
    (targetX targetY : Rat) : EngineState :=
  if s.clipboard.isEmpty then s
  else
    let s1 := saveHistory s
    let minX := pasteMinX s.clipboard
    let minY := pasteMinY s.clipboard
    let idMap := pasteIdMap s.clipboard freshIds
    let newItems := (pasteNewItems s.clipboard freshIds targetX targetY minX minY).map
      (remapChildren idMap)
    let newDrawings := pasteNewDrawings s.clipboard freshIds targetX targetY minX minY
    let s2 := { s1 with
      nodes := if ¬ newItems.isEmpty then
          newItems.foldl (fun m (it : NewItem) => mapSet m it.node.id it.node) s1.nodes
        else s1.nodes
      nodePositions := if ¬ newItems.isEmpty then
          newItems.foldl (fun m (it : NewItem) => mapSet m it.node.id it.pos) s1.nodePositions
        else s1.nodePositions
      drawings := if ¬ newDrawings.isEmpty then s1.drawings ++ newDrawings
        else s1.drawings }
    let s3 := { s2 with
      selectedNodeIds := newItems.foldl (fun l (it : NewItem) => setAdd l it.node.id) []
      selectedDrawingIds := newDrawings.foldl (fun l (d : Drawing) => setAdd l d.id) [] }
    pasteApplyMembership newItems s3

/-! ### `importFromJson` -/

/-- One element of an imported `nodes`/`positions` array: either a
well-formed `[key, value]` entry or a non-iterable element on which
`new Map(...)` throws. -/
inductive JsonEntry (α : Type) where
  | pair (key : String) (value : α)
  | malformed
deriving DecidableEq

/-- Parsed import payload: a `none` field models a missing or non-array
field (`Array.isArray` fails). -/
structure ImportData where
  nodes : Option (List (JsonEntry ChartNode)) := none
  positions : Option (List (JsonEntry NodePosition)) := none
  drawings : Option (List Drawing) := none

/-- `new Map(entries)`: throws (`none`) on the first malformed element,
otherwise builds the map in order with later duplicate keys overwriting. -/
def entriesToMap (l : List (JsonEntry α)) : Option (List (String × α)) :=
  l.foldl (fun acc e =>
    match acc, e with
    | some m, JsonEntry.pair k v => some (mapSet m k v)
    | _, _ => none) (some [])

/-- `importFromJson(data)`.  Returns the state after the call plus a flag
for the validation `throw` (the `catch` path returns normally after
rolling back through `undo` and clearing the redo stack). -/
def importFromJson (s : EngineState) (data : ImportData) : EngineState × Bool :=
  match data.nodes, data.positions with
  | some nodesArr, some posArr =>
    let s1 := saveHistory s
    (match entriesToMap nodesArr, entriesToMap posArr with
     | some newNodes, some newPositions =>
       (clearSelection { s1 with nodes := newNodes, nodePositions := newPositions,
                                 drawings := data.drawings.getD [] }, false)
     | _, _ => ({ undo s1 with redoStack := [] }, false))
  | _, _ => (s, true)

/-! ### The engine command surface as a step interpreter -/

/-- One engine command (§6 command surface plus the public service
methods that mutate engine state). -/
inductive Cmd where
  | addNode (newId : String) (t : NodeType) (x y : Rat) (options : PartialNode)
      (dims : Option (Rat × Rat))
  | updateNode (p : PartialNode)
  | updateNodePosition (id : String) (x y : Rat)
  | updateNodeDimensions (id : String) (w h : Rat)
  | linkNodes (sourceId targetId : String)
  | unlinkEdge (sourceId targetId : String)
  | deleteSelectedEdge (sourceId targetId : String)
  | deleteSelection
  | deleteDrawing (id : String)
  | addDrawing (d : Drawing)
  | clearDrawings
  | pasteNodes (freshIds : Nat → String) (x y : Rat)
  | undo
  | redo
  | autoLayout (fuel : Nat) (saveState : Bool)
  | loadFunctionalChart (fuel : Nat) (saveState : Bool)
  | loadWhiteboard (saveState : Bool)
  | importFromJson (data : ImportData)
  | updateNodeMembership (id : String)
  | updateGroupMembership (id : String)
  | selectNode (id : String) (multi : Bool)
  | selectDrawing (id : String) (multi : Bool)
  | selectAll
  | selectEdge (id : String)
  | clearSelection
  | updatePan (dx dy : Rat)
  | saveHistory

/-- Running one command. -/
def applyCmd : Cmd → EngineState → EngineState
  | Cmd.addNode newId t x y options dims, s => addNode s newId t x y options dims
  | Cmd.updateNode p, s => updateNode s p
  | Cmd.updateNodePosition id x y, s => updateNodePosition s id x y
  | Cmd.updateNodeDimensions id w h, s => updateNodeDimensions s id w h
  | Cmd.linkNodes a b, s => linkNodes s a b
  | Cmd.unlinkEdge a b, s => unlinkEdge s a b
  | Cmd.deleteSelectedEdge a b, s => deleteSelectedEdge s a b
  | Cmd.deleteSelection, s => deleteSelection s
  | Cmd.deleteDrawing id, s => deleteDrawing s id
  | Cmd.addDrawing d, s => addDrawing s d
  | Cmd.clearDrawings, s => clearDrawings s
  | Cmd.pasteNodes freshIds x y, s => pasteNodes s freshIds x y
  | Cmd.undo, s => undo s
  | Cmd.redo, s => redo s
  | Cmd.autoLayout fuel b, s => autoLayout fuel b s
  | Cmd.loadFunctionalChart fuel b, s => loadFunctionalChart fuel b s
  | Cmd.loadWhiteboard b, s => loadWhiteboard b s
  | Cmd.importFromJson data, s => (importFromJson s data).1
  | Cmd.updateNodeMembership id, s => updateNodeMembership s id
  | Cmd.updateGroupMembership id, s => updateGroupMembership s id
  | Cmd.selectNode id multi, s => selectNode s id multi
  | Cmd.selectDrawing id multi, s => selectDrawing s id multi
  | Cmd.selectAll, s => selectAll s
  | Cmd.selectEdge id, s => selectEdge s id
  | Cmd.clearSelection, s => clearSelection s
  | Cmd.updatePan dx dy, s => updatePan s dx dy
  | Cmd.saveHistory, s => saveHistory s

/-- Running a command sequence left to right. -/
def applyCmds (cmds : List Cmd) (s : EngineState) : EngineState :=
  cmds.foldl (fun t c => applyCmd c t) s

/-- The state of a fresh whiteboard (what `clearChart` produces; signals
start with zoom 100 and pan (0, 0)). -/
def emptyState : EngineState :=
  { nodes := [], nodePositions := [], drawings := []
    selectedNodeIds := [], selectedDrawingIds := [], selectedEdgeId := none
    zoomLevel := 100, panOffset := (0, 0)
    undoStack := [], redoStack := [], clipboard := [] }

/-- Concrete state with one entry on each history stack. -/
def histState : EngineState :=
  { emptyState with
    selectedNodeIds := ["a"], selectedEdgeId := some "a-b"
    undoStack := [stateSnapshot emptyState]
    redoStack := [stateSnapshot emptyState] }

/-! ## Claim C9 — bounded history, oldest dropped, redo cleared -/

/-- The history-stack invariant: the two stacks together never hold more
than `maxHistorySize` snapshots (so in particular the undo stack is
bounded, and a full round of redos cannot overflow it). -/
def histInvP (s : EngineState) : Prop :=
  s.undoStack.length + s.redoStack.length ≤ maxHistorySize

/-- Concrete pre-import state for the C4 witness. -/
def importWitnessState : EngineState :=
  { emptyState with
    nodes := [("a", defaultNode "a" NodeType.employee)]
    nodePositions := [("a", { x := 1, y := 2 })]
    drawings := [{ id := "d1", path := "M 0 0 L 1 1", color := "#000000", strokeWidth := 2 }] }

/-! ## Claim C1 — undo/redo inverse for mutating commands

`unlinkEdge`, `updateNode`, `updateNodePosition` and `updateNodeDimensions`
never call `saveHistory`, so undo immediately after them reverts to an
older snapshot (or nothing), not to the pre-command state.  The claim is
refuted on `unlinkEdge` and proved for the commands that do snapshot. -/

/-- A small chart: manager `a` with child `b`, empty history. -/
def unlinkWitnessState : EngineState :=
  { emptyState with
    nodes := [("a", { defaultNode "a" NodeType.manager with children := some ["b"] }),
              ("b", defaultNode "b" NodeType.employee)]
    nodePositions := [("a", { x := 0, y := 0 }), ("b", { x := 0, y := 300 })] }

/-- The §6 commands that push a history snapshot before mutating. -/
inductive SnapCmd where
  | addNode (newId : String) (t : NodeType) (x y : Rat) (options : PartialNode)
      (dims : Option (Rat × Rat))
  | linkNodes (sourceId targetId : String)
  | deleteSelection
  | pasteNodes (freshIds : Nat → String) (x y : Rat)
  | autoLayout (fuel : Nat)
  | loadFunctionalChart (fuel : Nat)
  | loadWhiteboard

/-- Running one snapshot-guarded command. -/
def SnapCmd.apply : SnapCmd → EngineState → EngineState
  | SnapCmd.addNode newId t x y o d, s => Chartflow.addNode s newId t x y o d
  | SnapCmd.linkNodes a b, s => Chartflow.linkNodes s a b
  | SnapCmd.deleteSelection, s => Chartflow.deleteSelection s
  | SnapCmd.pasteNodes f x y, s => Chartflow.pasteNodes s f x y
  | SnapCmd.autoLayout fuel, s => Chartflow.autoLayout fuel true s
  | SnapCmd.loadFunctionalChart fuel, s => Chartflow.loadFunctionalChart fuel true s
  | SnapCmd.loadWhiteboard, s => Chartflow.loadWhiteboard true s

/-- The command actually mutates (is not one of the soft no-op / rejection
branches, which intentionally push no history). -/
def SnapCmd.mutates : SnapCmd → EngineState → Prop
  | SnapCmd.addNode _ _ _ _ _ _, _ => True
  | SnapCmd.linkNodes a b, s =>
      a ≠ b ∧
      (match mapGet s.nodes a with
       | some source => (source.children.getD []).contains b
       | none => false) = false ∧
      isDescendant s.nodes s.nodes.length b a = false
  | SnapCmd.deleteSelection, s =>
      ¬ (s.selectedNodeIds.isEmpty ∧ s.selectedDrawingIds.isEmpty)
  | SnapCmd.pasteNodes _ _ _, s => ¬ s.clipboard.isEmpty = true
  | SnapCmd.autoLayout _, _ => True
  | SnapCmd.loadFunctionalChart _, _ => True
  | SnapCmd.loadWhiteboard, _ => True

/-! ## Claim C8 — group rename propagation

`updateNode` only propagates when the incoming name is truthy
(`updatedNode.name &&`), so renaming a group to the empty string changes
the group's own name without retagging its members; and the selected group
itself is finally overwritten with the node object read before
propagation.  The claim is corrected accordingly. -/

/-- Group "Sales" (selected) with one member tagged "Sales". -/
def renameGroupState : EngineState :=
  { emptyState with
    nodes := [("g", { defaultNode "g" NodeType.group with name := "Sales" }),
              ("m", { defaultNode "m" NodeType.employee with department := some "Sales" })]
    nodePositions := [("g", { x := 0, y := 0 }), ("m", { x := 10, y := 10 })]
    selectedNodeIds := ["g"] }

/-! ## Claim C2 — keyset parity between nodes and geometries -/

/-- Decidable keyset parity between the nodes and geometry maps. -/
def sameKeys (s : EngineState) : Bool :=
  s.nodes.all (fun p => (mapGet s.nodePositions p.1).isSome) &&
  s.nodePositions.all (fun p => (mapGet s.nodes p.1).isSome)

/-- Keyset parity as a pointwise property. -/
def KeysAligned (s : EngineState) : Prop :=
  ∀ id : String, (mapGet s.nodes id).isSome = (mapGet s.nodePositions id).isSome

/-! ## Claim C5 — single-node membership adoption

`updateNodeMembership` adopts the group with the strictly maximal positive
overlap (first maximum wins, since only a strict improvement replaces the
running best) and clears a *truthy* department when nothing overlaps; a
node whose `department` is absent keeps it absent rather than getting the
empty string, so the claim's clearing clause is corrected. -/

/-- The `(group, overlap)` pairs inspected by the best-group loop, in map
order (groups with no geometry are skipped, like in the source). -/
def groupCandidates (s : EngineState) (nodeId : String) (nRect : Rect) :
    List (ChartNode × Rat) :=
  s.nodes.filterMap (fun p =>
    if p.2.type = NodeType.group ∧ p.2.id ≠ nodeId then
      match mapGet s.nodePositions p.2.id with
      | some gPos => some (p.2, getOverlapArea nRect (groupRect gPos))
      | none => none
    else none)

/-- One step of the running-maximum fold (strict improvement only). -/
def bestStep (acc : Option ChartNode × Rat) (c : ChartNode × Rat) :
    Option ChartNode × Rat :=
  if acc.2 < c.2 then (some c.1, c.2) else acc

/-- A tiny chart: a lone employee with no department and no group. -/
def membershipNoneState : EngineState :=
  { emptyState with
    nodes := [("n", defaultNode "n" NodeType.employee)]
    nodePositions := [("n", { x := 0, y := 0 })] }

/-- Employee at the origin fully inside one group. -/
def membershipGroupState : EngineState :=
  { emptyState with
    nodes := [("n", defaultNode "n" NodeType.employee),
              ("g", { defaultNode "g" NodeType.group with name := "Sales" })]
    nodePositions := [("n", { x := 0, y := 0 }), ("g", { x := 0, y := 0 })] }

/-- The overlap of the witness employee card with the witness group box. -/
def witnessOverlap : Rat :=
  getOverlapArea (nodeRect { x := 0, y := 0 }) (groupRect { x := 0, y := 0 })

/-- A concrete injective id supply. -/
def wFresh (i : Nat) : String := String.mk (List.replicate (i + 1) 'z')

/-- Clipboard holding a manager with two recorded children, only one of
which ("c") was itself copied. -/
def pasteWitnessState : EngineState :=
  { emptyState with clipboard := [
      { kind := ClipKind.node,
        nodeData := some { defaultNode "p" NodeType.manager with children := some ["c", "q"] },
        x := 0, y := 0, width := 208, height := 100 },
      { kind := ClipKind.node,
        nodeData := some (defaultNode "c" NodeType.employee),
        x := 50, y := 50, width := 208, height := 100 } ] }

/-- One parent → child step of the `children` adjacency. -/
def childEdge (m : NodeMap) (a b : String) : Prop :=
  ∃ n, mapGet m a = some n ∧ b ∈ n.children.getD []

/-- No node reaches itself through `children` (the invariant `linkNodes`
maintains and `isDescendant` relies on for termination). -/
def Acyclic (m : NodeMap) : Prop :=
  ∀ a, ¬ Relation.TransGen (childEdge m) a a

/-- An explicit child path: `pathThrough m a cs b` walks `a` through the
intermediate nodes `cs` to `b`, one `childEdge` per hop. -/
def pathThrough (m : NodeMap) : String → List String → String → Prop
  | a, [], b => childEdge m a b
  | a, c :: cs, b => childEdge m a c ∧ pathThrough m c cs b

/-- Three unlinked employees. -/
def linkWitnessStart : EngineState :=
  { emptyState with
    nodes := [("a", defaultNode "a" NodeType.employee),
              ("b", defaultNode "b" NodeType.employee),
              ("c", defaultNode "c" NodeType.employee)]
    nodePositions := [("a", { x := 0, y := 0 }), ("b", { x := 10, y := 10 }),
                      ("c", { x := 20, y := 20 })] }

/-- A chart where "b" already has the child "a". -/
def cycleWitnessState : EngineState :=
  { emptyState with
    nodes := [("a", defaultNode "a" NodeType.employee),
              ("b", { defaultNode "b" NodeType.manager with children := some ["a"] })]
    nodePositions := [("a", { x := 0, y := 0 }), ("b", { x := 10, y := 10 })] }

/-- A state with a record stored under the key "k" but carrying id "y"
(reachable through `importFromJson`), plus an aligned chain  q → y. -/
def misalignedLinkState : EngineState :=
  { emptyState with
    nodes := [
      ("k", { defaultNode "y" NodeType.manager with children := some ["t", "q"] }),
      ("q", { defaultNode "q" NodeType.manager with children := some ["y"] }),
      ("t", defaultNode "t" NodeType.employee),
      ("s", defaultNode "s" NodeType.manager)] }

/-- The width/height `executeLayout` reads for a node from the current
position map (`oldPos?.width || 208`, `oldPos?.height || 100`). -/
def whOf (cur : PosMap) (id : String) : Rat × Rat :=
  (jsOr ((mapGet cur id).bind (fun p => p.width)) 208,
   jsOr ((mapGet cur id).bind (fun p => p.height)) 100)

/-- Two position maps agree exactly on `S` and have the same key content
everywhere. -/
def agreeOn (S : String → Prop) (b1 b2 : PosMap) : Prop :=
  (∀ id, S id → mapGet b1 id = mapGet b2 id) ∧
  (∀ id, (mapGet b1 id).isSome = (mapGet b2 id).isSome)

/-- Every entry of `acc` carries exactly the width/height `executeLayout`
stores for its id, and the keys are duplicate-free. -/
def layoutInv (cur : PosMap) (acc : PosMap) : Prop :=
  (∀ id v, mapGet acc id = some v →
    v.width = some (whOf cur id).1 ∧ v.height = some (whOf cur id).2) ∧
  (acc.map Prod.fst).Nodup

/-- The property every captured anchor satisfies: the node and its group
are present in the position map with the recorded offsets, the node is a
text/note/shape and the group a group. -/
def anchorOk (m : NodeMap) (cur : PosMap) (q : String × Anchor) : Prop :=
  ∃ np gp, mapGet cur q.1 = some np ∧ mapGet cur q.2.groupId = some gp ∧
    q.2.offsetX = np.x - gp.x ∧ q.2.offsetY = np.y - gp.y ∧
    (∃ n, mapGet m q.1 = some n ∧
      (n.type = NodeType.text ∨ n.type = NodeType.note ∨ n.type = NodeType.shape)) ∧
    (∃ gnode, mapGet m q.2.groupId = some gnode ∧ gnode.type = NodeType.group)

/-- Concrete tree for the C7 witness: a root with two department-tagged
children. -/
def layoutWitnessState : EngineState :=
  { emptyState with
    nodes := [
      ("r", { id := "r", name := "Root", role := "CEO", type := NodeType.executive,
              avatarType := "icon", children := some ["a", "b"] }),
      ("a", { id := "a", name := "A", role := "Dev", department := some "Sales",
              type := NodeType.employee, avatarType := "icon" }),
      ("b", { id := "b", name := "B", role := "Dev", department := some "Ops",
              type := NodeType.employee, avatarType := "icon" })],
    nodePositions := [("r", { x := 100, y := 80 })] }

/-- Concrete state with a full undo stack. -/
def fullStackState : EngineState :=
  { emptyState with undoStack := List.replicate maxHistorySize (stateSnapshot emptyState) }

/-! ## Theorems -/

/-! ## Association-list lemmas for the JS `Map` model -/

theorem mapGet_cons (p : String × α) (m : List (String × α)) (k : String) :
    mapGet (p :: m) k = if p.1 = k then some p.2 else mapGet m k := by
  unfold mapGet
  by_cases h : p.1 = k
  · rw [List.find?_cons_of_pos _ (by simp [h]), if_pos h]; rfl
  · rw [List.find?_cons_of_neg _ (by simp [h]), if_neg h]

theorem map_id_of_no_key (m : List (String × α)) (k : String) (v : α)
    (h : m.any (fun p => p.1 = k) = false) :
    m.map (fun p => if p.1 = k then (k, v) else p) = m := by
  induction m with
  | nil => rfl
  | cons p m ih =>
    simp only [List.any_cons, Bool.or_eq_false_iff] at h
    rw [List.map_cons, if_neg (by simpa using h.1), ih h.2]

theorem mapGet_mapSet (m : List (String × α)) (k k' : String) (v : α) :
    mapGet (mapSet m k v) k' = if k' = k then some v else mapGet m k' := by
  unfold mapSet
  split
  · rename_i hany
    induction m with
    | nil => simp at hany
    | cons p m ih =>
      simp only [List.any_cons, Bool.or_eq_true] at hany
      rw [List.map_cons, mapGet_cons]
      by_cases hp : p.1 = k
      · rw [if_pos hp, mapGet_cons]
        by_cases hk : k' = k
        · simp [hk]
        · rw [if_neg hk, if_neg (fun hkk : k = k' => hk hkk.symm),
              if_neg (fun hpk : p.1 = k' => hk ((hp.symm.trans hpk).symm))]
          by_cases hm2 : m.any (fun p => p.1 = k) = true
          · have := ih hm2
            rw [if_neg hk] at this
            exact this
          · rw [map_id_of_no_key m k v (Bool.eq_false_iff.mpr hm2)]
      · rw [if_neg hp, mapGet_cons]
        by_cases hpk : p.1 = k'
        · rw [if_pos hpk, if_pos hpk]
          have : ¬ k' = k := fun he => hp (hpk.trans he)
          rw [if_neg this]
        · rw [if_neg hpk, if_neg hpk]
          have hm : m.any (fun p => p.1 = k) = true := by
            rcases hany with h1 | h1
            · exact absurd (by simpa using h1) hp
            · exact h1
          exact ih hm
  · rename_i hany
    have hall : ∀ p ∈ m, ¬ p.1 = k := by
      intro p hp hk
      exact hany (List.any_eq_true.mpr ⟨p, hp, by simpa using hk⟩)
    induction m with
    | nil =>
      simp only [List.nil_append, mapGet_cons]
      by_cases hk : k' = k
      · rw [if_pos hk.symm, if_pos hk]
      · rw [if_neg (fun he : k = k' => hk he.symm), if_neg hk]
    | cons p m ih =>
      rw [List.cons_append, mapGet_cons, mapGet_cons]
      by_cases hpk : p.1 = k'
      · rw [if_pos hpk, if_pos hpk]
        have : ¬ k' = k := fun he => hall p (List.mem_cons_self p m) (hpk.trans he)
        rw [if_neg this]
      · rw [if_neg hpk, if_neg hpk]
        exact ih (by
            intro hx
            exact hany (by
              simp only [List.any_cons, Bool.or_eq_true]
              exact Or.inr hx))
          (fun q hq => hall q (List.mem_cons_of_mem p hq))

theorem mapGet_mapDelete (m : List (String × α)) (k k' : String) :
    mapGet (mapDelete m k) k' = if k' = k then none else mapGet m k' := by
  unfold mapDelete
  induction m with
  | nil =>
    simp only [List.filter_nil]
    by_cases hk : k' = k <;> simp [hk, mapGet]
  | cons p m ih =>
    rw [List.filter_cons]
    by_cases hp : p.1 = k
    · rw [if_neg (by simp [hp]), mapGet_cons, ih]
      by_cases hk : k' = k
      · simp [hk]
      · rw [if_neg hk, if_neg hk, if_neg (fun hpk : p.1 = k' => hk ((hp.symm.trans hpk).symm))]
    · rw [if_pos (by simp [hp]), mapGet_cons, mapGet_cons, ih]
      by_cases hpk : p.1 = k'
      · rw [if_pos hpk, if_pos hpk, if_neg (fun hk : k' = k => hp (hpk.trans hk))]
      · rw [if_neg hpk, if_neg hpk]

/-- Lookup through a key-preserving value rewrite (the shape of every
`forEach` + `map.set(node.id, …)` loop in the engine). -/
theorem mapGet_map_keyfix (f : String × α → String × α)
    (hf : ∀ p, (f p).1 = p.1) (m : List (String × α)) (k : String) :
    mapGet (m.map f) k = (m.find? (fun p => p.1 = k)).map (fun p => (f p).2) := by
  induction m with
  | nil => rfl
  | cons p m ih =>
    rw [List.map_cons, mapGet_cons]
    by_cases h : p.1 = k
    · rw [List.find?_cons_of_pos _ (by simp [h]), if_pos ((hf p).trans h)]
      rfl
    · rw [List.find?_cons_of_neg _ (by simp [h]), if_neg (by rw [hf p]; exact h)]
      exact ih

/-- A successful lookup names the matched entry. -/
theorem mapGet_eq_some_iff (m : List (String × α)) (k : String) (v : α) :
    mapGet m k = some v ↔
      ∃ pr, m.find? (fun p => p.1 = k) = some pr ∧ pr.1 = k ∧ pr.2 = v := by
  constructor
  · intro h
    unfold mapGet at h
    rcases hf : m.find? (fun p => p.1 = k) with _ | pr
    · rw [hf] at h; exact absurd h (by simp)
    · rw [hf] at h
      refine ⟨pr, hf, by simpa using List.find?_some hf, by simpa using h⟩
  · rintro ⟨pr, hf, _, hv⟩
    unfold mapGet
    rw [hf]
    simp [hv]

theorem mapGet_id (m : NodeMap) (hkeys : ∀ p ∈ m, p.2.id = p.1) (k : String)
    (n : ChartNode) (h : mapGet m k = some n) : n.id = k := by
  obtain ⟨pr, hfind, hfst, hsnd⟩ := (mapGet_eq_some_iff _ _ _).mp h
  rw [← hsnd, hkeys pr (List.mem_of_find?_eq_some hfind), hfst]

theorem mapSet_keys_nodup (m : List (String × α)) (k : String) (v : α)
    (h : (m.map Prod.fst).Nodup) : ((mapSet m k v).map Prod.fst).Nodup := by
  unfold mapSet
  split
  · rename_i hany
    rw [List.map_map]
    have : (m.map (Prod.fst ∘ fun p => if p.1 = k then (k, v) else p)) = m.map Prod.fst := by
      refine List.map_congr_left ?_
      intro p _
      show ((if p.1 = k then (k, v) else p)).1 = p.1
      by_cases h1 : p.1 = k
      · rw [if_pos h1]; exact h1.symm
      · rw [if_neg h1]
    rw [this]
    exact h
  · rename_i hany
    rw [List.map_append]
    refine List.Nodup.append h (by simp) ?_
    intro a ha hk
    have hk' : a = k := by simpa using hk
    subst hk'
    obtain ⟨p, hp, hfst⟩ := List.mem_map.mp ha
    exact hany (by
      refine List.any_eq_true.mpr ⟨p, hp, ?_⟩
      simpa using hfst)

theorem mapGet_eq_none_iff (m : List (String × α)) (k : String) :
    mapGet m k = none ↔ k ∉ m.map Prod.fst := by
  unfold mapGet
  rw [Option.map_eq_none', List.find?_eq_none]
  constructor
  · intro h hk
    obtain ⟨p, hp, hfst⟩ := List.mem_map.mp hk
    exact absurd (by simpa using hfst) (by simpa using h p hp)
  · intro h p hp
    intro hgp
    exact h (List.mem_map.mpr ⟨p, hp, by simpa using hgp⟩)

theorem mapGet_append_notin (A l : List (String × α)) (k : String)
    (h : k ∉ A.map Prod.fst) : mapGet (A ++ l) k = mapGet l k := by
  induction A with
  | nil => rfl
  | cons q A ih =>
    have h1 : ¬ (q.1 = k) := fun he => h (by rw [List.map_cons, he]; exact List.mem_cons_self _ _)
    have h2 : k ∉ A.map Prod.fst := fun hm => h (by rw [List.map_cons]; exact List.mem_cons_of_mem _ hm)
    rw [List.cons_append, mapGet_cons, if_neg h1, ih h2]

theorem mapSet_append_notin (A l : List (String × α)) (k : String) (v : α)
    (h : k ∉ A.map Prod.fst) : mapSet (A ++ l) k v = A ++ mapSet l k v := by
  have hid : ∀ q ∈ A, (if q.1 = k then (k, v) else q) = q := by
    intro q hq
    rw [if_neg (fun he => h (by rw [← he]; exact List.mem_map_of_mem Prod.fst hq))]
  have hAany : A.any (fun p => p.1 = k) = false := by
    rw [List.any_eq_false]
    intro q hq he
    exact h ((of_decide_eq_true he) ▸ List.mem_map_of_mem Prod.fst hq)
  unfold mapSet
  rw [List.any_append, hAany, Bool.false_or]
  by_cases hl : l.any (fun p => p.1 = k) = true
  · rw [if_pos hl, if_pos hl, List.map_append]
    congr 1
    exact (List.map_congr_left hid).trans (List.map_id A)
  · rw [if_neg hl, if_neg hl, List.append_assoc]

theorem mapSet_cons_head (l : List (String × α)) (p : String × α) (v : α)
    (hl : p.1 ∉ l.map Prod.fst) : mapSet (p :: l) p.1 v = (p.1, v) :: l := by
  unfold mapSet
  rw [if_pos (by simp), List.map_cons, if_pos rfl]
  congr 1
  refine (List.map_congr_left ?_).trans (List.map_id l)
  intro q hq
  rw [if_neg (fun he => hl (by rw [← he]; exact List.mem_map_of_mem Prod.fst hq))]
  rfl

/-- Running the `forEach` + `set(node.id, …)` loop over a key-aligned map
with duplicate-free keys is the in-place rewrite of every entry. -/
theorem forEachSet_go (step : ChartNode → Option ChartNode) :
    ∀ (l A : NodeMap), ((A.map Prod.fst ++ l.map Prod.fst).Nodup) →
      (∀ p ∈ l, p.2.id = p.1) →
      l.foldl (forEachSetStep step) (A ++ l)
        = A ++ l.map (fun p => (p.1, (step p.2).getD p.2)) := by
  intro l
  induction l with
  | nil => intro A _ _; simp
  | cons p l ih =>
    intro A hnd hkeys
    rw [List.map_cons] at hnd
    rcases List.nodup_append.mp hnd with ⟨hndA, hndR, hdisj⟩
    have hA : p.1 ∉ A.map Prod.fst := fun hmem => hdisj hmem (List.mem_cons_self _ _)
    have hl : p.1 ∉ l.map Prod.fst := (List.nodup_cons.mp hndR).1
    have hget : mapGet (A ++ p :: l) p.1 = some p.2 := by
      rw [mapGet_append_notin A _ p.1 hA, mapGet_cons, if_pos rfl]
    have hnd' : ∀ (q : String × ChartNode), q.1 = p.1 →
        ((A ++ [q]).map Prod.fst ++ l.map Prod.fst).Nodup := by
      intro q hq
      rw [List.map_append, List.append_assoc]
      rw [show ([q].map Prod.fst ++ l.map Prod.fst) = q.1 :: l.map Prod.fst from rfl, hq]
      exact List.nodup_append.mpr ⟨hndA, hndR, hdisj⟩
    have hkeys' : ∀ q ∈ l, q.2.id = q.1 := fun q hq => hkeys q (List.mem_cons_of_mem p hq)
    rw [List.foldl_cons]
    rw [show forEachSetStep step (A ++ p :: l) p
        = (match step p.2 with
           | none => A ++ p :: l
           | some nn => mapSet (A ++ p :: l) p.2.id nn) from by
      unfold forEachSetStep
      rw [hget]]
    cases hstep : step p.2 with
    | none =>
      show l.foldl (forEachSetStep step) (A ++ p :: l)
        = A ++ (p :: l).map (fun q => (q.1, (step q.2).getD q.2))
      rw [show A ++ p :: l = (A ++ [p]) ++ l from by rw [List.append_assoc]; rfl]
      rw [ih (A ++ [p]) (hnd' p rfl) hkeys']
      rw [List.append_assoc, List.map_cons, hstep]
      rfl
    | some nn =>
      have hpk : p.2.id = p.1 := hkeys p (List.mem_cons_self p l)
      show l.foldl (forEachSetStep step) (mapSet (A ++ p :: l) p.2.id nn)
        = A ++ (p :: l).map (fun q => (q.1, (step q.2).getD q.2))
      rw [hpk]
      rw [show mapSet (A ++ p :: l) p.1 nn = A ++ (p.1, nn) :: l from by
        rw [mapSet_append_notin A _ p.1 nn hA, mapSet_cons_head l p nn hl]]
      rw [show A ++ (p.1, nn) :: l = (A ++ [(p.1, nn)]) ++ l from by
        rw [List.append_assoc]; rfl]
      rw [ih (A ++ [(p.1, nn)]) (hnd' (p.1, nn) rfl) hkeys']
      rw [List.append_assoc, List.map_cons, hstep]
      rfl

/-- On a key-aligned, duplicate-free map the loop equals the entrywise
rewrite (each entry's value replaced by its updated record when the guard
fires). -/
theorem forEachSet_aligned (step : ChartNode → Option ChartNode) (m : NodeMap)
    (hkeys : ∀ p ∈ m, p.2.id = p.1) (hnd : (m.map Prod.fst).Nodup) :
    forEachSet step m = m.map (fun p => (p.1, (step p.2).getD p.2)) := by
  have h := forEachSet_go step m [] (by simpa using hnd) hkeys
  rw [List.nil_append] at h
  rw [List.nil_append] at h
  exact h

theorem forEachSet_keys (step : ChartNode → Option ChartNode) (m : NodeMap)
    (hkeys : ∀ p ∈ m, p.2.id = p.1) (hnd : (m.map Prod.fst).Nodup) :
    (forEachSet step m).map Prod.fst = m.map Prod.fst := by
  rw [forEachSet_aligned step m hkeys hnd, List.map_map]
  exact List.map_congr_left (fun p _ => rfl)

theorem forEachSet_hkeys (step : ChartNode → Option ChartNode) (m : NodeMap)
    (hkeys : ∀ p ∈ m, p.2.id = p.1) (hnd : (m.map Prod.fst).Nodup)
    (hid : ∀ n nn, step n = some nn → nn.id = n.id) :
    ∀ p ∈ forEachSet step m, p.2.id = p.1 := by
  rw [forEachSet_aligned step m hkeys hnd]
  intro p hp
  obtain ⟨q, hq, he⟩ := List.mem_map.mp hp
  rw [← he]
  show ((step q.2).getD q.2).id = q.1
  cases hs : step q.2 with
  | none => exact hkeys q hq
  | some nn =>
    show nn.id = q.1
    rw [hid q.2 nn hs]
    exact hkeys q hq

theorem mapSet_hkeys (m : NodeMap) (k : String) (v : ChartNode)
    (hkeys : ∀ p ∈ m, p.2.id = p.1) (hv : v.id = k) :
    ∀ p ∈ mapSet m k v, p.2.id = p.1 := by
  intro p hp
  unfold mapSet at hp
  split at hp
  · obtain ⟨q, hq, he⟩ := List.mem_map.mp hp
    by_cases hqk : q.1 = k
    · rw [if_pos hqk] at he
      rw [← he]
      exact hv
    · rw [if_neg hqk] at he
      rw [← he]
      exact hkeys q hq
  · rcases List.mem_append.mp hp with h1 | h1
    · exact hkeys p h1
    · rcases List.mem_cons.mp h1 with h2 | h2
      · rw [h2]; exact hv
      · exact absurd h2 (List.not_mem_nil p)

theorem mapDelete_hkeys (m : NodeMap) (k : String)
    (hkeys : ∀ p ∈ m, p.2.id = p.1) :
    ∀ p ∈ mapDelete m k, p.2.id = p.1 :=
  fun p hp => hkeys p (List.mem_of_mem_filter hp)

theorem mapDelete_keys_nodup (m : List (String × α)) (k : String)
    (hnd : (m.map Prod.fst).Nodup) : ((mapDelete m k).map Prod.fst).Nodup :=
  hnd.sublist (List.Sublist.map Prod.fst (List.filter_sublist m))

/-- `removeFromParent` on a key-aligned map is the entrywise strip. -/
theorem removeFromParent_aligned (m : NodeMap) (cid : String)
    (hkeys : ∀ p ∈ m, p.2.id = p.1) (hnd : (m.map Prod.fst).Nodup) :
    removeFromParent m cid = m.map (fun p =>
      if (p.2.children.getD []).contains cid then
        (p.1, { p.2 with children := some ((p.2.children.getD []).filter (fun c => c ≠ cid)) })
      else p) := by
  unfold removeFromParent
  rw [forEachSet_aligned _ m hkeys hnd]
  refine List.map_congr_left ?_
  intro p _
  by_cases hc : (p.2.children.getD []).contains cid = true
  · rw [if_pos hc, if_pos hc]
    rfl
  · rw [if_neg hc, if_neg hc]
    rfl

/-- `propagateRename` on a key-aligned map is the entrywise retag. -/
theorem propagateRename_aligned (m : NodeMap) (oldName newName : String)
    (hkeys : ∀ p ∈ m, p.2.id = p.1) (hnd : (m.map Prod.fst).Nodup) :
    propagateRename m oldName newName = m.map (fun p =>
      if p.2.department = some oldName then
        (p.1, { p.2 with department := some newName })
      else p) := by
  unfold propagateRename
  rw [forEachSet_aligned _ m hkeys hnd]
  refine List.map_congr_left ?_
  intro p _
  by_cases hc : p.2.department = some oldName
  · rw [if_pos hc, if_pos hc]
    rfl
  · rw [if_neg hc, if_neg hc]
    rfl

theorem removeFromParent_inv (m : NodeMap) (cid : String)
    (hkeys : ∀ p ∈ m, p.2.id = p.1) (hnd : (m.map Prod.fst).Nodup) :
    (∀ p ∈ removeFromParent m cid, p.2.id = p.1) ∧
    ((removeFromParent m cid).map Prod.fst = m.map Prod.fst) := by
  constructor
  · refine forEachSet_hkeys _ m hkeys hnd ?_
    intro n nn h
    split at h
    · injection h with h
      rw [← h]
    · exact absurd h (by simp)
  · exact forEachSet_keys _ m hkeys hnd

theorem ugmStep_id (s : EngineState) (r : Rect) (gid gname : String) :
    ∀ n nn, ugmStep s r gid gname n = some nn → nn.id = n.id := by
  intro n nn h
  unfold ugmStep at h
  split at h
  · split at h
    · simp only [] at h
      split at h
      · split at h
        · injection h with h; rw [← h]
        · exact absurd h (by simp)
      · split at h
        · injection h with h; rw [← h]
        · exact absurd h (by simp)
    · exact absurd h (by simp)
  · exact absurd h (by simp)

theorem updateGroupMembership_inv (s : EngineState) (gid : String)
    (hkeys : ∀ p ∈ s.nodes, p.2.id = p.1) (hnd : (s.nodes.map Prod.fst).Nodup) :
    (∀ p ∈ (updateGroupMembership s gid).nodes, p.2.id = p.1) ∧
    ((updateGroupMembership s gid).nodes.map Prod.fst = s.nodes.map Prod.fst) := by
  unfold updateGroupMembership
  split
  · rename_i groupNode groupPos hn hp
    split
    · exact ⟨hkeys, rfl⟩
    · constructor
      · exact forEachSet_hkeys _ s.nodes hkeys hnd
          (ugmStep_id s (groupRect groupPos) gid groupNode.name)
      · exact forEachSet_keys _ s.nodes hkeys hnd
  · exact ⟨hkeys, rfl⟩

/-! ## Claim C10 — undo/redo clear the selection, leave the viewport -/

/-- **C10.** Every `undo()` or `redo()` that applies a snapshot (i.e. whose
stack is non-empty) leaves both selection sets empty and the selected edge
id null, while the zoom level and the pan offset are unchanged. -/
theorem claim_C10 (s : EngineState) :
    (s.undoStack ≠ [] →
      (undo s).selectedNodeIds = [] ∧ (undo s).selectedDrawingIds = [] ∧
      (undo s).selectedEdgeId = none ∧ (undo s).zoomLevel = s.zoomLevel ∧
      (undo s).panOffset = s.panOffset) ∧
    (s.redoStack ≠ [] →
      (redo s).selectedNodeIds = [] ∧ (redo s).selectedDrawingIds = [] ∧
      (redo s).selectedEdgeId = none ∧ (redo s).zoomLevel = s.zoomLevel ∧
      (redo s).panOffset = s.panOffset) := by
  constructor
  · intro h
    rcases hlast : s.undoStack.getLast? with _ | prev
    · exact absurd (List.getLast?_eq_none_iff.mp hlast) h
    · simp [undo, List.isEmpty_iff, h, hlast, applySnapshot, clearSelection]
  · intro h
    rcases hlast : s.redoStack.getLast? with _ | next
    · exact absurd (List.getLast?_eq_none_iff.mp hlast) h
    · simp [redo, List.isEmpty_iff, h, hlast, applySnapshot, clearSelection]

/-- Witness for C10 at a concrete state. -/
theorem claim_C10_witness :
    (histState.undoStack ≠ [] ∧
      ((undo histState).selectedNodeIds = [] ∧
       (undo histState).selectedDrawingIds = [] ∧
       (undo histState).selectedEdgeId = none ∧
       (undo histState).zoomLevel = histState.zoomLevel ∧
       (undo histState).panOffset = histState.panOffset)) ∧
    (histState.redoStack ≠ [] ∧
      ((redo histState).selectedNodeIds = [] ∧
       (redo histState).selectedDrawingIds = [] ∧
       (redo histState).selectedEdgeId = none ∧
       (redo histState).zoomLevel = histState.zoomLevel ∧
       (redo histState).panOffset = histState.panOffset)) :=
  ⟨⟨by decide, (claim_C10 histState).1 (by decide)⟩,
   ⟨by decide, (claim_C10 histState).2 (by decide)⟩⟩

theorem stacks_updateGroupMembership (s : EngineState) (gid : String) :
    (updateGroupMembership s gid).undoStack = s.undoStack ∧
    (updateGroupMembership s gid).redoStack = s.redoStack := by
  unfold updateGroupMembership
  split
  · split
    · exact ⟨rfl, rfl⟩
    · exact ⟨rfl, rfl⟩
  · exact ⟨rfl, rfl⟩

theorem stacks_updateNodeMembership (s : EngineState) (id : String) :
    (updateNodeMembership s id).undoStack = s.undoStack ∧
    (updateNodeMembership s id).redoStack = s.redoStack := by
  unfold updateNodeMembership
  split
  · split
    · exact ⟨rfl, rfl⟩
    · exact ⟨rfl, rfl⟩
  · exact ⟨rfl, rfl⟩

theorem stacks_pasteFold (l : List NewItem) (s : EngineState) :
    (pasteApplyMembership l s).undoStack = s.undoStack ∧
    (pasteApplyMembership l s).redoStack = s.redoStack := by
  induction l generalizing s with
  | nil => exact ⟨rfl, rfl⟩
  | cons it l ih =>
    unfold pasteApplyMembership at ih ⊢
    simp only [List.foldl_cons]
    by_cases h : it.node.type = NodeType.group
    · rw [if_pos h]
      refine ⟨?_, ?_⟩
      · rw [(ih (updateGroupMembership s it.node.id)).1,
            (stacks_updateGroupMembership s it.node.id).1]
      · rw [(ih (updateGroupMembership s it.node.id)).2,
            (stacks_updateGroupMembership s it.node.id).2]
    · rw [if_neg h]; exact ih s

theorem stacks_unlinkEdge (s : EngineState) (a b : String) :
    (unlinkEdge s a b).undoStack = s.undoStack ∧
    (unlinkEdge s a b).redoStack = s.redoStack := ⟨rfl, rfl⟩

/-- `saveHistory` keeps the undo stack within the bound. -/
theorem saveHistory_undoStack_le (s : EngineState)
    (h : s.undoStack.length ≤ maxHistorySize) :
    (saveHistory s).undoStack.length ≤ maxHistorySize := by
  unfold saveHistory
  simp only []
  split
  · simp only [List.length_drop, List.length_append, List.length_singleton]
    omega
  · rename_i hns
    simp only [List.length_append, List.length_singleton] at hns ⊢
    omega

theorem saveHistory_redoStack (s : EngineState) : (saveHistory s).redoStack = [] := rfl

theorem histInvP_saveHistory (s : EngineState) (h : histInvP s) :
    histInvP (saveHistory s) := by
  unfold histInvP at h ⊢
  rw [saveHistory_redoStack]
  simpa using saveHistory_undoStack_le s (by omega)

theorem histInvP_undo (s : EngineState) (h : histInvP s) : histInvP (undo s) := by
  unfold undo
  by_cases he : s.undoStack.isEmpty
  · rw [if_pos he]; exact h
  · rw [if_neg he]
    have hnn : s.undoStack ≠ [] := by simpa [List.isEmpty_iff] using he
    rcases hlast : s.undoStack.getLast? with _ | prev
    · exact absurd (List.getLast?_eq_none_iff.mp hlast) hnn
    · have hlen : 1 ≤ s.undoStack.length := List.length_pos.mpr hnn
      unfold histInvP at h ⊢
      simp only [applySnapshot, clearSelection, List.length_dropLast,
        List.length_append, List.length_singleton]
      omega

theorem histInvP_of_stacks (s : EngineState) (t : EngineState)
    (hu : t.undoStack = s.undoStack) (hr : t.redoStack = s.redoStack)
    (h : histInvP s) : histInvP t := by
  unfold histInvP at h ⊢
  rw [hu, hr]; exact h

theorem histInvP_redo (s : EngineState) (h : histInvP s) : histInvP (redo s) := by
  unfold redo
  by_cases he : s.redoStack.isEmpty
  · rw [if_pos he]; exact h
  · rw [if_neg he]
    have hnn : s.redoStack ≠ [] := by simpa [List.isEmpty_iff] using he
    rcases hlast : s.redoStack.getLast? with _ | next
    · exact absurd (List.getLast?_eq_none_iff.mp hlast) hnn
    · have hlen : 1 ≤ s.redoStack.length := List.length_pos.mpr hnn
      unfold histInvP at h ⊢
      simp only [applySnapshot, clearSelection, List.length_dropLast,
        List.length_append, List.length_singleton]
      omega

/-- Every engine command preserves the history-stack invariant. -/
theorem applyCmd_histInvP (c : Cmd) (s : EngineState) (h : histInvP s) :
    histInvP (applyCmd c s) := by
  have hs := histInvP_saveHistory s h
  cases c with
  | addNode newId t x y options dims =>
    simp only [applyCmd]
    unfold addNode
    cases t <;>
      first
        | exact histInvP_of_stacks (saveHistory s) _ rfl rfl hs
        | exact histInvP_of_stacks (saveHistory s) _
            ((stacks_updateGroupMembership _ _).1.trans rfl)
            ((stacks_updateGroupMembership _ _).2.trans rfl) hs
  | updateNode p =>
    simp only [applyCmd]
    unfold updateNode
    split
    · exact h
    · exact histInvP_of_stacks s _ rfl rfl h
  | updateNodePosition id x y => exact histInvP_of_stacks s _ rfl rfl h
  | updateNodeDimensions id w ht => exact histInvP_of_stacks s _ rfl rfl h
  | linkNodes a b =>
    simp only [applyCmd]
    unfold linkNodes
    split
    · exact h
    · split
      · exact h
      · split
        · exact h
        · exact histInvP_of_stacks (saveHistory s) _ rfl rfl hs
  | unlinkEdge a b => exact histInvP_of_stacks s _ rfl rfl h
  | deleteSelectedEdge a b =>
    simp only [applyCmd]
    unfold deleteSelectedEdge
    split
    · exact h
    · split
      · exact histInvP_of_stacks (saveHistory s) _ rfl rfl hs
      · exact h
  | deleteSelection =>
    simp only [applyCmd]
    unfold deleteSelection
    split
    · exact h
    · exact histInvP_of_stacks (saveHistory s) _ rfl rfl hs
  | deleteDrawing id => exact histInvP_of_stacks (saveHistory s) _ rfl rfl hs
  | addDrawing d => exact histInvP_of_stacks (saveHistory s) _ rfl rfl hs
  | clearDrawings => exact histInvP_of_stacks (saveHistory s) _ rfl rfl hs
  | pasteNodes freshIds x y =>
    simp only [applyCmd]
    unfold pasteNodes
    split
    · exact h
    · refine histInvP_of_stacks (saveHistory s) _ ?_ ?_ hs
      · exact (stacks_pasteFold _ _).1.trans rfl
      · exact (stacks_pasteFold _ _).2.trans rfl
  | undo => exact histInvP_undo s h
  | redo => exact histInvP_redo s h
  | autoLayout fuel b =>
    cases b with
    | false => exact histInvP_of_stacks s _ rfl rfl h
    | true => exact histInvP_of_stacks (saveHistory s) _ rfl rfl hs
  | loadFunctionalChart fuel b =>
    cases b with
    | false => exact histInvP_of_stacks s _ rfl rfl h
    | true => exact histInvP_of_stacks (saveHistory s) _ rfl rfl hs
  | loadWhiteboard b =>
    cases b with
    | false => exact histInvP_of_stacks s _ rfl rfl h
    | true => exact histInvP_of_stacks (saveHistory s) _ rfl rfl hs
  | importFromJson data =>
    simp only [applyCmd]
    unfold importFromJson
    split
    · split
      · exact histInvP_of_stacks (saveHistory s) _ rfl rfl hs
      · have h2 := histInvP_undo (saveHistory s) hs
        unfold histInvP at h2 ⊢
        show (undo (saveHistory s)).undoStack.length
            + List.length ([] : List HistorySnapshot) ≤ maxHistorySize
        simp only [List.length_nil]
        omega
    · exact h
  | updateNodeMembership id =>
    exact histInvP_of_stacks s _ (stacks_updateNodeMembership s id).1
      (stacks_updateNodeMembership s id).2 h
  | updateGroupMembership id =>
    exact histInvP_of_stacks s _ (stacks_updateGroupMembership s id).1
      (stacks_updateGroupMembership s id).2 h
  | selectNode id multi =>
    cases multi with
    | false => exact histInvP_of_stacks s _ rfl rfl h
    | true => exact histInvP_of_stacks s _ rfl rfl h
  | selectDrawing id multi =>
    cases multi with
    | false => exact histInvP_of_stacks s _ rfl rfl h
    | true => exact histInvP_of_stacks s _ rfl rfl h
  | selectAll => exact histInvP_of_stacks s _ rfl rfl h
  | selectEdge id => exact histInvP_of_stacks s _ rfl rfl h
  | clearSelection => exact histInvP_of_stacks s _ rfl rfl h
  | updatePan dx dy => exact histInvP_of_stacks s _ rfl rfl h
  | saveHistory => exact hs

/-- Command sequences preserve the invariant. -/
theorem applyCmds_histInvP (cmds : List Cmd) (s : EngineState) (h : histInvP s) :
    histInvP (applyCmds cmds s) := by
  induction cmds generalizing s with
  | nil => exact h
  | cons c cmds ih =>
    unfold applyCmds at ih ⊢
    rw [List.foldl_cons]
    exact ih (applyCmd c s) (applyCmd_histInvP c s h)

/-- At the bound, `saveHistory` drops the oldest entry and appends. -/
theorem saveHistory_drops_oldest (s : EngineState)
    (h : s.undoStack.length = maxHistorySize) :
    (saveHistory s).undoStack = s.undoStack.drop 1 ++ [stateSnapshot s] := by
  unfold saveHistory
  simp only []
  rw [if_pos (by simp only [List.length_append, List.length_singleton, h]; omega)]
  rw [List.drop_append_of_le_length (by rw [h]; unfold maxHistorySize; omega)]

/-! ## Claim C9 main theorem -/

/-- **C9.** Any number of engine commands never grows the undo stack past
the configured 50-entry bound; when the bound is reached `saveHistory`
drops the oldest snapshot first; and every newly recorded action clears
the redo stack. -/
theorem claim_C9 :
    (∀ (cmds : List Cmd) (s : EngineState),
      s.undoStack.length + s.redoStack.length ≤ maxHistorySize →
      (applyCmds cmds s).undoStack.length ≤ maxHistorySize) ∧
    (∀ s : EngineState, s.undoStack.length = maxHistorySize →
      (saveHistory s).undoStack = s.undoStack.drop 1 ++ [stateSnapshot s]) ∧
    (∀ s : EngineState, (saveHistory s).redoStack = []) := by
  refine ⟨fun cmds s h => ?_, saveHistory_drops_oldest, saveHistory_redoStack⟩
  have hinv := applyCmds_histInvP cmds s h
  unfold histInvP at hinv
  omega

/-! ## Undo/redo round trips after a `saveHistory` -/

theorem saveHistory_ne_nil (s : EngineState) : (saveHistory s).undoStack ≠ [] := by
  unfold saveHistory
  simp only []
  split
  · rename_i hc
    simp only [List.length_append, List.length_singleton] at hc
    apply List.ne_nil_of_length_pos
    simp only [List.length_drop, List.length_append, List.length_singleton]
    unfold maxHistorySize at hc
    omega
  · simp

theorem saveHistory_getLast (s : EngineState) :
    (saveHistory s).undoStack.getLast? = some (stateSnapshot s) := by
  unfold saveHistory
  simp only []
  split
  · rename_i hc
    simp only [List.length_append, List.length_singleton] at hc
    rw [List.drop_append_of_le_length (by unfold maxHistorySize at hc; omega)]
    exact List.getLast?_concat _
  · exact List.getLast?_concat _

/-- After any operation of the form "`saveHistory`, then mutate only the
non-stack fields", `undo` restores the pre-operation nodes, geometries and
drawings, and `redo` immediately after restores the post-operation ones. -/
theorem undo_after_saveHistory (s t : EngineState)
    (hu : t.undoStack = (saveHistory s).undoStack) (hr : t.redoStack = []) :
    (undo t).nodes = s.nodes ∧ (undo t).nodePositions = s.nodePositions ∧
    (undo t).drawings = s.drawings ∧
    (redo (undo t)).nodes = t.nodes ∧
    (redo (undo t)).nodePositions = t.nodePositions ∧
    (redo (undo t)).drawings = t.drawings := by
  have hne : t.undoStack ≠ [] := by rw [hu]; exact saveHistory_ne_nil s
  have hlast : t.undoStack.getLast? = some (stateSnapshot s) := by
    rw [hu]; exact saveHistory_getLast s
  have hemp : ¬ (t.undoStack.isEmpty = true) := by
    simpa [List.isEmpty_iff] using hne
  have hundo : undo t =
      applySnapshot
        { t with redoStack := t.redoStack ++ [stateSnapshot t],
                 undoStack := t.undoStack.dropLast } (stateSnapshot s) := by
    unfold undo
    rw [if_neg hemp, hlast]
  have hredoStack : (undo t).redoStack = [stateSnapshot t] := by
    rw [hundo]
    simp [applySnapshot, clearSelection, hr]
  have hredo : redo (undo t) =
      applySnapshot
        { undo t with undoStack := (undo t).undoStack ++ [stateSnapshot (undo t)],
                      redoStack := (undo t).redoStack.dropLast } (stateSnapshot t) := by
    unfold redo
    rw [if_neg (by simp [hredoStack]), hredoStack]
    rfl
  refine ⟨?_, ?_, ?_, ?_, ?_, ?_⟩
  · rw [hundo]; rfl
  · rw [hundo]; rfl
  · rw [hundo]; rfl
  · rw [hredo]; rfl
  · rw [hredo]; rfl
  · rw [hredo]; rfl

/-! ## Claim C4 — import validation and rollback -/

/-- **C4.** `importFromJson` rejects a payload whose `nodes` or `positions`
field is not an array, leaving the whole state (history stacks included)
untouched and throwing; and when applying the import fails after the
history snapshot was saved, the pre-import nodes/geometries/drawings are
restored via `undo` and the redo stack is cleared. -/
theorem claim_C4 (s : EngineState) (data : ImportData) :
    (data.nodes = none ∨ data.positions = none →
      importFromJson s data = (s, true)) ∧
    (∀ nodesArr posArr, data.nodes = some nodesArr → data.positions = some posArr →
      entriesToMap nodesArr = none ∨ entriesToMap posArr = none →
      (importFromJson s data).1.nodes = s.nodes ∧
      (importFromJson s data).1.nodePositions = s.nodePositions ∧
      (importFromJson s data).1.drawings = s.drawings ∧
      (importFromJson s data).1.redoStack = []) := by
  constructor
  · intro h
    unfold importFromJson
    rcases h with h | h
    · rw [h]
    · rw [h]
      cases hn2 : data.nodes <;> rfl
  · intro nodesArr posArr hn hp hfail
    have hred : ({ undo (saveHistory s) with redoStack := [] } : EngineState).redoStack = [] := rfl
    have hrest := undo_after_saveHistory s (saveHistory s) rfl (saveHistory_redoStack s)
    have heq : (importFromJson s data).1 = { undo (saveHistory s) with redoStack := [] } := by
      unfold importFromJson
      rw [hn, hp]
      split
      · rename_i ns1 ps1 hns hps
        injection hns with hns
        injection hps with hps
        subst hns; subst hps
        rcases hfail with hf | hf
        · rw [hf]
        · rw [hf]
          all_goals try cases hq : entriesToMap nodesArr
          all_goals rfl
      · rename_i hno
        exact (hno nodesArr posArr rfl rfl).elim
    rw [heq]
    exact ⟨hrest.1, hrest.2.1, hrest.2.2.1, hred⟩

/-- Witness for C4: a non-array `nodes` field is rejected outright, and a
malformed entry after validation rolls back to the pre-import data. -/
theorem claim_C4_witness :
    (({ nodes := none, positions := some [], drawings := none } : ImportData).nodes = none ∨
      ({ nodes := none, positions := some [], drawings := none } : ImportData).positions = none) ∧
    importFromJson importWitnessState { nodes := none, positions := some [], drawings := none }
      = (importWitnessState, true) ∧
    (entriesToMap [(JsonEntry.malformed : JsonEntry ChartNode)] = none ∨
      entriesToMap ([] : List (JsonEntry NodePosition)) = none) ∧
    ((importFromJson importWitnessState
        { nodes := some [JsonEntry.malformed], positions := some [], drawings := none }).1.nodes
        = importWitnessState.nodes ∧
     (importFromJson importWitnessState
        { nodes := some [JsonEntry.malformed], positions := some [], drawings := none }).1.nodePositions
        = importWitnessState.nodePositions ∧
     (importFromJson importWitnessState
        { nodes := some [JsonEntry.malformed], positions := some [], drawings := none }).1.drawings
        = importWitnessState.drawings ∧
     (importFromJson importWitnessState
        { nodes := some [JsonEntry.malformed], positions := some [], drawings := none }).1.redoStack
        = []) :=
  ⟨Or.inl rfl,
   (claim_C4 importWitnessState { nodes := none, positions := some [], drawings := none }).1
     (Or.inl rfl),
   Or.inl (by decide),
   (claim_C4 importWitnessState
      { nodes := some [JsonEntry.malformed], positions := some [], drawings := none }).2
     [JsonEntry.malformed] [] rfl rfl (Or.inl (by decide))⟩

/-- **C1 counterexample.** `unlinkEdge` is one of the listed mutating
commands (the engine-level unlink), yet `undo()` immediately after it does
not restore the pre-command nodes map: `unlinkEdge` pushes no history
snapshot, so with an empty undo stack `undo()` is a no-op and the edge
stays removed. -/
theorem claim_C1_counterexample :
    (undo (unlinkEdge unlinkWitnessState "a" "b")).nodes ≠ unlinkWitnessState.nodes := by
  decide

/-- Every mutating snapshot-guarded command leaves the stacks exactly as
`saveHistory` computed them right before the mutation. -/
theorem snapCmd_stacks (c : SnapCmd) (s : EngineState) (h : c.mutates s) :
    (c.apply s).undoStack = (saveHistory s).undoStack ∧
    (c.apply s).redoStack = [] := by
  cases c with
  | addNode newId t x y o d =>
    simp only [SnapCmd.apply]
    unfold addNode
    cases t <;>
      first
        | exact ⟨rfl, rfl⟩
        | exact ⟨(stacks_updateGroupMembership _ _).1.trans rfl,
                 (stacks_updateGroupMembership _ _).2.trans rfl⟩
  | linkNodes a b =>
    obtain ⟨h1, h2, h3⟩ := h
    simp only [SnapCmd.apply]
    unfold linkNodes
    rw [if_neg h1, if_neg (by rw [h2]; simp), if_neg (by rw [h3]; simp)]
    exact ⟨rfl, rfl⟩
  | deleteSelection =>
    simp only [SnapCmd.apply]
    unfold deleteSelection
    rw [if_neg h]
    exact ⟨rfl, rfl⟩
  | pasteNodes f x y =>
    simp only [SnapCmd.apply]
    unfold pasteNodes
    rw [if_neg h]
    exact ⟨(stacks_pasteFold _ _).1.trans rfl, (stacks_pasteFold _ _).2.trans rfl⟩
  | autoLayout fuel => exact ⟨rfl, rfl⟩
  | loadFunctionalChart fuel => exact ⟨rfl, rfl⟩
  | loadWhiteboard => exact ⟨rfl, rfl⟩

/-- **C1 (amended).** For every command that pushes a history snapshot
(add-node, successful link, non-empty delete-selection, non-empty paste,
auto-layout, load-template), `undo()` immediately after the command
restores the exact pre-command nodes, geometries and drawings, and
`redo()` immediately after that restores the exact post-command ones.
The claim's remaining commands (update-node, update-geometry, unlink) push
no snapshot and are not reverted by a single undo (see the
counterexample). -/
theorem claim_C1_amended (c : SnapCmd) (s : EngineState) (h : c.mutates s) :
    (undo (c.apply s)).nodes = s.nodes ∧
    (undo (c.apply s)).nodePositions = s.nodePositions ∧
    (undo (c.apply s)).drawings = s.drawings ∧
    (redo (undo (c.apply s))).nodes = (c.apply s).nodes ∧
    (redo (undo (c.apply s))).nodePositions = (c.apply s).nodePositions ∧
    (redo (undo (c.apply s))).drawings = (c.apply s).drawings :=
  undo_after_saveHistory s (c.apply s) (snapCmd_stacks c s h).1 (snapCmd_stacks c s h).2

/-- Witness for the amended C1: adding a node to the empty whiteboard. -/
theorem claim_C1_witness :
    (SnapCmd.addNode "n1" NodeType.employee 10 20 {} none).mutates emptyState ∧
    ((undo ((SnapCmd.addNode "n1" NodeType.employee 10 20 {} none).apply emptyState)).nodes
        = emptyState.nodes ∧
     (undo ((SnapCmd.addNode "n1" NodeType.employee 10 20 {} none).apply emptyState)).nodePositions
        = emptyState.nodePositions ∧
     (undo ((SnapCmd.addNode "n1" NodeType.employee 10 20 {} none).apply emptyState)).drawings
        = emptyState.drawings ∧
     (redo (undo ((SnapCmd.addNode "n1" NodeType.employee 10 20 {} none).apply emptyState))).nodes
        = ((SnapCmd.addNode "n1" NodeType.employee 10 20 {} none).apply emptyState).nodes ∧
     (redo (undo ((SnapCmd.addNode "n1" NodeType.employee 10 20 {} none).apply emptyState))).nodePositions
        = ((SnapCmd.addNode "n1" NodeType.employee 10 20 {} none).apply emptyState).nodePositions ∧
     (redo (undo ((SnapCmd.addNode "n1" NodeType.employee 10 20 {} none).apply emptyState))).drawings
        = ((SnapCmd.addNode "n1" NodeType.employee 10 20 {} none).apply emptyState).drawings) :=
  ⟨trivial, claim_C1_amended (SnapCmd.addNode "n1" NodeType.employee 10 20 {} none)
      emptyState trivial⟩

/-- **C8 counterexample.** Renaming the selected group "Sales" to the new
name `""` does change the group's name, but the member whose department
equaled "Sales" keeps "Sales" — the propagation is skipped for a falsy new
name, refuting the claim as stated. -/
theorem claim_C8_counterexample :
    (mapGet (updateNode renameGroupState { name := some "" }).nodes "g").map
      (fun n => n.name) = some "" ∧
    ¬ ((mapGet (updateNode renameGroupState { name := some "" }).nodes "m").map
      (fun n => n.department) = some (some "")) := by
  decide

/-- **C8 (amended).** Renaming a selected group through `updateNode` to a
non-empty name different from the old one sets `department` to the new
name on every node whose department equaled the group's old name — except
possibly the selected group record itself (excluded here through the
hypothesis that the group does not carry its own name as department, which
holds for every group the engine creates).  Stated under the invariant that
node records are stored under their own ids with duplicate-free keys, which
the propagation loop's `set(otherNode.id, …)` writes rely on. -/
theorem claim_C8_amended (s : EngineState) (gid nm : String) (g : ChartNode)
    (hkeys : ∀ p ∈ s.nodes, p.2.id = p.1)
    (hnd : (s.nodes.map Prod.fst).Nodup)
    (hsel : s.selectedNodeIds = [gid])
    (hg : mapGet s.nodes gid = some g)
    (hty : g.type = NodeType.group)
    (hnm : nm ≠ "")
    (hdiff : g.name ≠ nm)
    (hself : g.department ≠ some g.name) :
    ∀ id n, mapGet s.nodes id = some n → n.department = some g.name →
      ∃ n', mapGet (updateNode s { name := some nm }).nodes id = some n' ∧
        n'.department = some nm := by
  have hne : ¬ (s.selectedNodeIds.isEmpty = true) := by rw [hsel]; simp
  intro id n hid hdept
  by_cases hidg : id = gid
  · exfalso
    rw [hidg, hg] at hid
    injection hid with hid
    subst hid
    exact hself hdept
  · have hnodes : (updateNode s { name := some nm }).nodes
        = mapSet (propagateRename s.nodes g.name nm) gid
            (mergeNode g { name := some nm }) := by
      unfold updateNode
      rw [if_neg hne, hsel]
      simp only [List.foldl_cons, List.foldl_nil]
      unfold updateNodeStep
      rw [hg]
      split
      · rename_i hnode
        exact absurd hnode (by simp)
      · rename_i node hnode
        injection hnode with hnode
        subst hnode
        rw [if_pos ⟨hty, rfl, by simp [optStrTruthy, strTruthy, hnm],
          fun hc => hdiff (Option.some.inj hc)⟩]
        rfl
    rw [hnodes, mapGet_mapSet, if_neg hidg]
    rw [propagateRename_aligned s.nodes g.name nm hkeys hnd]
    rw [mapGet_map_keyfix _
      (fun p => by by_cases hc : p.2.department = some g.name <;> simp [hc])]
    obtain ⟨pr, hfind, hk, hv⟩ := (mapGet_eq_some_iff s.nodes id n).mp hid
    rw [hfind]
    refine ⟨_, rfl, ?_⟩
    have hpd : pr.2.department = some g.name := by rw [hv]; exact hdept
    simp only [hpd, if_pos]

/-- Witness for the amended C8: renaming "Sales" to "Marketing" retags the
member "m". -/
theorem claim_C8_witness :
    (renameGroupState.selectedNodeIds = ["g"] ∧
     mapGet renameGroupState.nodes "g"
        = some { defaultNode "g" NodeType.group with name := "Sales" } ∧
     ({ defaultNode "g" NodeType.group with name := "Sales" } : ChartNode).type
        = NodeType.group ∧
     ("Marketing" : String) ≠ "" ∧
     ({ defaultNode "g" NodeType.group with name := "Sales" } : ChartNode).name ≠ "Marketing" ∧
     ({ defaultNode "g" NodeType.group with name := "Sales" } : ChartNode).department
        ≠ some ({ defaultNode "g" NodeType.group with name := "Sales" } : ChartNode).name ∧
     mapGet renameGroupState.nodes "m"
        = some { defaultNode "m" NodeType.employee with department := some "Sales" } ∧
     ({ defaultNode "m" NodeType.employee with department := some "Sales" } : ChartNode).department
        = some ({ defaultNode "g" NodeType.group with name := "Sales" } : ChartNode).name) ∧
    (∃ n', mapGet (updateNode renameGroupState { name := some "Marketing" }).nodes "m" = some n' ∧
      n'.department = some "Marketing") :=
  ⟨⟨by decide, by decide, by decide, by decide, by decide, by decide, by decide, by decide⟩,
   claim_C8_amended renameGroupState "g" "Marketing"
     { defaultNode "g" NodeType.group with name := "Sales" }
     (by decide) (by decide) (by decide) (by decide) (by decide) (by decide)
     (by decide) (by decide)
     "m" { defaultNode "m" NodeType.employee with department := some "Sales" }
     (by decide) (by decide)⟩

/-- **C2 counterexample.** From the fresh whiteboard (produced by the
`load-template` command `loadWhiteboard`), the engine operation
`updateNodePosition` on an id with no node creates a geometry record with
no matching node, so the reachable-state keyset-parity claim is false. -/
theorem claim_C2_counterexample :
    sameKeys (loadWhiteboard true emptyState) = true ∧
    sameKeys (updateNodePosition (loadWhiteboard true emptyState) "x" 0 0) = false := by
  decide

theorem isSome_mapGet_map_keyfix (f : String × α → String × α)
    (hf : ∀ p, (f p).1 = p.1) (m : List (String × α)) (k : String) :
    (mapGet (m.map f) k).isSome = (mapGet m k).isSome := by
  rw [mapGet_map_keyfix f hf]
  unfold mapGet
  cases m.find? (fun p => p.1 = k) <;> rfl

theorem isSome_mapGet_mapSet (m : List (String × α)) (k k' : String) (v : α) :
    (mapGet (mapSet m k v) k').isSome = if k' = k then true else (mapGet m k').isSome := by
  rw [mapGet_mapSet]
  by_cases h : k' = k <;> simp [h]

theorem isSome_mapGet_mapDelete (m : List (String × α)) (k k' : String) :
    (mapGet (mapDelete m k) k').isSome = if k' = k then false else (mapGet m k').isSome := by
  rw [mapGet_mapDelete]
  by_cases h : k' = k <;> simp [h]

theorem propagateRename_id (oldName newName : String) :
    ∀ (n nn : ChartNode), (fun node : ChartNode => if node.department = some oldName then
        some { node with department := some newName }
      else none) n = some nn → nn.id = n.id := by
  intro n nn h
  simp only [] at h
  split at h
  · injection h with h
    rw [← h]
  · exact absurd h (by simp)

theorem propagateRename_inv (m : NodeMap) (oldName newName : String)
    (hkeys : ∀ p ∈ m, p.2.id = p.1) (hnd : (m.map Prod.fst).Nodup) :
    (∀ p ∈ propagateRename m oldName newName, p.2.id = p.1) ∧
    ((propagateRename m oldName newName).map Prod.fst = m.map Prod.fst) :=
  ⟨forEachSet_hkeys _ m hkeys hnd (propagateRename_id oldName newName),
   forEachSet_keys _ m hkeys hnd⟩

theorem updateNodeStep_isSome (p : PartialNode) (m : NodeMap) (i : String)
    (hkeys : ∀ q ∈ m, q.2.id = q.1) (hnd : (m.map Prod.fst).Nodup) (j : String) :
    (mapGet (updateNodeStep p m i) j).isSome = (mapGet m j).isSome := by
  unfold updateNodeStep
  cases hm : mapGet m i with
  | none => rfl
  | some node =>
    simp only []
    rw [isSome_mapGet_mapSet]
    by_cases hj : j = i
    · rw [if_pos hj, hj, hm]
      rfl
    · rw [if_neg hj]
      split
      · rw [propagateRename_aligned m node.name (p.name.getD "") hkeys hnd]
        exact isSome_mapGet_map_keyfix _
          (fun q => by by_cases hc : q.2.department = some node.name <;> simp [hc]) m j
      · rfl

theorem updateNodeStep_inv (p : PartialNode) (m : NodeMap) (i : String)
    (hkeys : ∀ q ∈ m, q.2.id = q.1) (hnd : (m.map Prod.fst).Nodup) :
    (∀ q ∈ updateNodeStep p m i, q.2.id = q.1) ∧
    (((updateNodeStep p m i).map Prod.fst).Nodup) := by
  unfold updateNodeStep
  cases hm : mapGet m i with
  | none => exact ⟨hkeys, hnd⟩
  | some node =>
    simp only []
    have hnodei : node.id = i := mapGet_id m hkeys i node hm
    have hv : (mergeNode node p).id = i := by
      show node.id = i
      exact hnodei
    split
    · obtain ⟨hk1, he1⟩ := propagateRename_inv m node.name (p.name.getD "") hkeys hnd
      exact ⟨mapSet_hkeys _ i (mergeNode node p) hk1 hv,
             mapSet_keys_nodup _ i (mergeNode node p) (by rw [he1]; exact hnd)⟩
    · exact ⟨mapSet_hkeys m i (mergeNode node p) hkeys hv,
             mapSet_keys_nodup m i (mergeNode node p) hnd⟩

theorem updateNode_fold_inv (p : PartialNode) : ∀ (l : List String) (m0 : NodeMap),
    (∀ q ∈ m0, q.2.id = q.1) → ((m0.map Prod.fst).Nodup) →
    (∀ q ∈ l.foldl (updateNodeStep p) m0, q.2.id = q.1) ∧
    (((l.foldl (updateNodeStep p) m0).map Prod.fst).Nodup) ∧
    (∀ j, (mapGet (l.foldl (updateNodeStep p) m0) j).isSome = (mapGet m0 j).isSome) := by
  intro l
  induction l with
  | nil => intro m0 hk hnd; exact ⟨hk, hnd, fun j => rfl⟩
  | cons i l ih =>
    intro m0 hk hnd
    rw [List.foldl_cons]
    obtain ⟨hk1, hnd1⟩ := updateNodeStep_inv p m0 i hk hnd
    obtain ⟨hk2, hnd2, hs2⟩ := ih (updateNodeStep p m0 i) hk1 hnd1
    exact ⟨hk2, hnd2, fun j => (hs2 j).trans (updateNodeStep_isSome p m0 i hk hnd j)⟩

theorem pasteFold_hkeys (l : List NewItem) :
    ∀ (m : NodeMap), (∀ q ∈ m, q.2.id = q.1) →
    ∀ q ∈ l.foldl (fun acc it => mapSet acc it.node.id it.node) m, q.2.id = q.1 := by
  induction l with
  | nil => intro m hk; exact hk
  | cons it l ih =>
    intro m hk
    rw [List.foldl_cons]
    exact ih _ (mapSet_hkeys m it.node.id it.node hk rfl)

theorem pasteFold_nodup (l : List NewItem) :
    ∀ (m : NodeMap), ((m.map Prod.fst).Nodup) →
    (((l.foldl (fun acc it => mapSet acc it.node.id it.node) m).map Prod.fst).Nodup) := by
  induction l with
  | nil => intro m h; exact h
  | cons it l ih =>
    intro m h
    rw [List.foldl_cons]
    exact ih _ (mapSet_keys_nodup m it.node.id it.node h)

theorem removeFromParent_isSome (m : NodeMap) (cid id : String)
    (hkeys : ∀ p ∈ m, p.2.id = p.1) (hnd : (m.map Prod.fst).Nodup) :
    (mapGet (removeFromParent m cid) id).isSome = (mapGet m id).isSome := by
  rw [removeFromParent_aligned m cid hkeys hnd]
  exact isSome_mapGet_map_keyfix _
    (fun p => by by_cases h : cid ∈ p.2.children.getD [] <;> simp [h]) m id

theorem linkNodesMap_isSome (m : NodeMap) (a b id : String)
    (hkeys : ∀ p ∈ m, p.2.id = p.1) (hnd : (m.map Prod.fst).Nodup) :
    (mapGet (linkNodesMap m a b) id).isSome = (mapGet m id).isSome := by
  unfold linkNodesMap
  split
  · rename_i node hm
    rw [isSome_mapGet_mapSet]
    by_cases hid : id = a
    · rw [if_pos hid, hid, hm]; rfl
    · rw [if_neg hid, removeFromParent_isSome m b id hkeys hnd]
  · rfl

theorem unlinkNodes_isSome (m : NodeMap) (a b id : String) :
    (mapGet (unlinkNodes m a b) id).isSome = (mapGet m id).isSome := by
  unfold unlinkNodes
  split
  · rename_i node hm
    split
    · rename_i cs hc
      rw [isSome_mapGet_mapSet]
      by_cases hid : id = a
      · rw [if_pos hid, hid, hm]; rfl
      · rw [if_neg hid]
    · rfl
  · rfl

theorem updateGroupMembership_positions (s : EngineState) (gid : String) :
    (updateGroupMembership s gid).nodePositions = s.nodePositions := by
  unfold updateGroupMembership
  split
  · split <;> rfl
  · rfl

theorem updateGroupMembership_nodes_isSome (s : EngineState) (gid id : String)
    (hkeys : ∀ p ∈ s.nodes, p.2.id = p.1) (hnd : (s.nodes.map Prod.fst).Nodup) :
    (mapGet (updateGroupMembership s gid).nodes id).isSome
      = (mapGet s.nodes id).isSome := by
  unfold updateGroupMembership
  split
  · rename_i groupNode groupPos hn hp
    split
    · rfl
    · show (mapGet (forEachSet (ugmStep s (groupRect groupPos) gid groupNode.name)
            s.nodes) id).isSome
        = (mapGet s.nodes id).isSome
      rw [forEachSet_aligned _ s.nodes hkeys hnd]
      exact isSome_mapGet_map_keyfix
        (fun p => (p.1, (ugmStep s (groupRect groupPos) gid groupNode.name p.2).getD p.2))
        (fun p => rfl) s.nodes id
  · rfl

theorem pasteApplyMembership_positions (l : List NewItem) (s : EngineState) :
    (pasteApplyMembership l s).nodePositions = s.nodePositions := by
  induction l generalizing s with
  | nil => rfl
  | cons it l ih =>
    unfold pasteApplyMembership at ih ⊢
    rw [List.foldl_cons]
    by_cases h : it.node.type = NodeType.group
    · rw [if_pos h, ih, updateGroupMembership_positions]
    · rw [if_neg h]; exact ih s

theorem pasteApplyMembership_nodes_isSome (l : List NewItem) :
    ∀ (s : EngineState), (∀ p ∈ s.nodes, p.2.id = p.1) → ((s.nodes.map Prod.fst).Nodup) →
    ∀ (id : String),
    (mapGet (pasteApplyMembership l s).nodes id).isSome
      = (mapGet s.nodes id).isSome := by
  induction l with
  | nil => intro s _ _ id; rfl
  | cons it l ih =>
    intro s hkeys hnd id
    unfold pasteApplyMembership at ih ⊢
    rw [List.foldl_cons]
    by_cases h : it.node.type = NodeType.group
    · rw [if_pos h]
      obtain ⟨hk2, he2⟩ := updateGroupMembership_inv s it.node.id hkeys hnd
      rw [ih (updateGroupMembership s it.node.id) hk2 (by rw [he2]; exact hnd) id,
        updateGroupMembership_nodes_isSome s it.node.id id hkeys hnd]
    · rw [if_neg h]
      exact ih s hkeys hnd id

theorem updateNode_nodes_isSome (s : EngineState) (p : PartialNode) (id : String)
    (hkeys : ∀ q ∈ s.nodes, q.2.id = q.1) (hnd : (s.nodes.map Prod.fst).Nodup) :
    (mapGet (updateNode s p).nodes id).isSome = (mapGet s.nodes id).isSome := by
  unfold updateNode
  split
  · rfl
  · exact (updateNode_fold_inv p s.selectedNodeIds s.nodes hkeys hnd).2.2 id

/-- The node-deletion fold of `deleteSelection`. -/
theorem deleteFold_nodes_isSome (l : List String) :
    ∀ (m : NodeMap), (∀ q ∈ m, q.2.id = q.1) → ((m.map Prod.fst).Nodup) →
    ∀ (id : String),
    (mapGet (l.foldl (fun acc i => mapDelete (removeFromParent acc i) i) m) id).isSome
      = (if id ∈ l then false else (mapGet m id).isSome) := by
  induction l with
  | nil => intro m _ _ id; simp
  | cons i l ih =>
    intro m hkeys hnd id
    obtain ⟨hk1, he1⟩ := removeFromParent_inv m i hkeys hnd
    have hk2 : ∀ q ∈ mapDelete (removeFromParent m i) i, q.2.id = q.1 :=
      mapDelete_hkeys _ i hk1
    have hnd2 : ((mapDelete (removeFromParent m i) i).map Prod.fst).Nodup :=
      mapDelete_keys_nodup _ i (by rw [he1]; exact hnd)
    rw [List.foldl_cons, ih _ hk2 hnd2 id]
    by_cases hid : id = i
    · subst hid
      simp [isSome_mapGet_mapDelete]
    · by_cases hl : id ∈ l
      · simp [hl]
      · rw [if_neg hl, if_neg (by simp [List.mem_cons, hid, hl]),
          isSome_mapGet_mapDelete, if_neg hid, removeFromParent_isSome m i id hkeys hnd]

/-- The geometry-deletion fold of `deleteSelection`. -/
theorem deleteFold_positions_isSome (l : List String) (m : PosMap) (id : String) :
    (mapGet (l.foldl (fun acc i => mapDelete acc i) m) id).isSome
      = (if id ∈ l then false else (mapGet m id).isSome) := by
  induction l generalizing m with
  | nil => simp
  | cons i l ih =>
    rw [List.foldl_cons, ih]
    by_cases hid : id = i
    · subst hid
      simp [isSome_mapGet_mapDelete]
    · by_cases hl : id ∈ l
      · simp [hl]
      · rw [if_neg hl, if_neg (by simp [List.mem_cons, hid, hl]),
          isSome_mapGet_mapDelete, if_neg hid]

/-- The insertion folds of `pasteNodes` (nodes and geometries get entries
under exactly the same fresh ids). -/
theorem pasteFold_insert_isSome (l : List NewItem) (m : List (String × α))
    (proj : NewItem → α) (id : String) :
    (mapGet (l.foldl (fun acc it => mapSet acc it.node.id (proj it)) m) id).isSome
      = (if ∃ it ∈ l, it.node.id = id then true else (mapGet m id).isSome) := by
  induction l generalizing m with
  | nil => simp
  | cons it l ih =>
    rw [List.foldl_cons, ih]
    by_cases hex : ∃ a ∈ l, a.node.id = id
    · rw [if_pos hex, if_pos (show ∃ a ∈ it :: l, a.node.id = id from by
        rcases hex with ⟨a, ha, he⟩
        exact ⟨a, List.mem_cons_of_mem it ha, he⟩)]
    · rw [if_neg hex, isSome_mapGet_mapSet]
      by_cases hid : id = it.node.id
      · rw [if_pos hid, if_pos (show ∃ a ∈ it :: l, a.node.id = id from
          ⟨it, List.mem_cons_self it l, hid.symm⟩)]
      · rw [if_neg hid, if_neg (show ¬ ∃ a ∈ it :: l, a.node.id = id from by
          rintro ⟨a, ha, he⟩
          rcases List.mem_cons.mp ha with h1 | h1
          · exact hid (h1 ▸ he).symm
          · exact hex ⟨a, h1, he⟩)]

/-- **C2 (amended).** Keyset parity is preserved by every engine operation
that inserts or removes node records (add, delete-selection, paste), by
the topology and field updates (link, unlink, update-node, both membership
recomputations), and by the geometry updates `updateNodePosition` /
`updateNodeDimensions` provided the target id already has a node record.
Called with an id absent from the nodes map, `updateNodePosition` creates
a geometry without a node and breaks parity (see the counterexample); the
claim as stated over all reachable states is therefore false.  Stated under
the invariant that node records are stored under their own ids with
duplicate-free keys, which the `forEach` + `set(node.id, …)` loops of the
link/delete/update/membership operations rely on. -/
theorem claim_C2_amended (s : EngineState) (h : KeysAligned s)
    (hkeys : ∀ p ∈ s.nodes, p.2.id = p.1)
    (hnd : (s.nodes.map Prod.fst).Nodup) :
    (∀ newId t x y o d, KeysAligned (addNode s newId t x y o d)) ∧
    KeysAligned (deleteSelection s) ∧
    (∀ a b, KeysAligned (linkNodes s a b)) ∧
    (∀ a b, KeysAligned (unlinkEdge s a b)) ∧
    (∀ p, KeysAligned (updateNode s p)) ∧
    (∀ nid, KeysAligned (updateNodeMembership s nid)) ∧
    (∀ gid, KeysAligned (updateGroupMembership s gid)) ∧
    (∀ f x y, KeysAligned (pasteNodes s f x y)) ∧
    (∀ nid x y, (mapGet s.nodes nid).isSome → KeysAligned (updateNodePosition s nid x y)) ∧
    (∀ nid w ht, (mapGet s.nodes nid).isSome → KeysAligned (updateNodeDimensions s nid w ht)) := by
  refine ⟨?_, ?_, ?_, ?_, ?_, ?_, ?_, ?_, ?_, ?_⟩
  · -- addNode
    intro newId t x y o d id
    unfold addNode
    simp only []
    by_cases ht : t = NodeType.group
    · rw [if_pos ht, updateGroupMembership_nodes_isSome _ _ id
          (mapSet_hkeys s.nodes (mergeNode (defaultNode newId t) o).id
            (mergeNode (defaultNode newId t) o) hkeys rfl)
          (mapSet_keys_nodup s.nodes (mergeNode (defaultNode newId t) o).id
            (mergeNode (defaultNode newId t) o) hnd),
        updateGroupMembership_positions]
      show (mapGet (mapSet s.nodes (mergeNode (defaultNode newId t) o).id
          (mergeNode (defaultNode newId t) o)) id).isSome
        = (mapGet (mapSet s.nodePositions (mergeNode (defaultNode newId t) o).id _) id).isSome
      rw [isSome_mapGet_mapSet, isSome_mapGet_mapSet]
      by_cases hid : id = (mergeNode (defaultNode newId t) o).id
      · rw [if_pos hid, if_pos hid]
      · rw [if_neg hid, if_neg hid]; exact h id
    · rw [if_neg ht]
      show (mapGet (mapSet s.nodes (mergeNode (defaultNode newId t) o).id
          (mergeNode (defaultNode newId t) o)) id).isSome
        = (mapGet (mapSet s.nodePositions (mergeNode (defaultNode newId t) o).id _) id).isSome
      rw [isSome_mapGet_mapSet, isSome_mapGet_mapSet]
      by_cases hid : id = (mergeNode (defaultNode newId t) o).id
      · rw [if_pos hid, if_pos hid]
      · rw [if_neg hid, if_neg hid]; exact h id
  · -- deleteSelection
    intro id
    unfold deleteSelection
    split
    · exact h id
    · simp only []
      by_cases hsel : s.selectedNodeIds.isEmpty
      · rw [if_neg (by simpa using hsel), if_neg (by simpa using hsel)]
        exact h id
      · rw [if_pos (by simpa using hsel), if_pos (by simpa using hsel)]
        rw [deleteFold_nodes_isSome s.selectedNodeIds (saveHistory s).nodes
            (fun q hq => hkeys q hq)
            (show (((saveHistory s).nodes.map Prod.fst)).Nodup from hnd) id,
          deleteFold_positions_isSome]
        by_cases hmem : id ∈ s.selectedNodeIds
        · rw [if_pos hmem, if_pos hmem]
        · rw [if_neg hmem, if_neg hmem]; exact h id
  · -- linkNodes
    intro a b id
    unfold linkNodes
    split
    · exact h id
    · split
      · exact h id
      · split
        · exact h id
        · show (mapGet (linkNodesMap s.nodes a b) id).isSome = _
          rw [linkNodesMap_isSome s.nodes a b id hkeys hnd]
          exact h id
  · -- unlinkEdge
    intro a b id
    show (mapGet (unlinkNodes s.nodes a b) id).isSome = _
    rw [unlinkNodes_isSome]
    exact h id
  · -- updateNode
    intro p id
    rw [show (updateNode s p).nodePositions = s.nodePositions from ?_,
        updateNode_nodes_isSome s p id hkeys hnd]
    · exact h id
    · unfold updateNode; split <;> rfl
  · -- updateNodeMembership
    intro nid id
    unfold updateNodeMembership
    split
    · rename_i node pos hn hp
      split
      · exact h id
      · have hsome : (mapGet s.nodes nid).isSome = true := by rw [hn]; rfl
        show (mapGet (unmNewNodes s nid node (bestGroupFold s nid (nodeRect pos)).1) id).isSome
          = (mapGet s.nodePositions id).isSome
        unfold unmNewNodes
        split
        · split
          · rw [isSome_mapGet_mapSet]
            by_cases hid : id = nid
            · rw [if_pos hid, hid, ← h nid, hsome]
            · rw [if_neg hid]; exact h id
          · exact h id
        · split
          · rw [isSome_mapGet_mapSet]
            by_cases hid : id = nid
            · rw [if_pos hid, hid, ← h nid, hsome]
            · rw [if_neg hid]; exact h id
          · exact h id
    · exact h id
  · -- updateGroupMembership
    intro gid id
    rw [updateGroupMembership_nodes_isSome s gid id hkeys hnd, updateGroupMembership_positions]
    exact h id
  · -- pasteNodes
    intro f x y id
    unfold pasteNodes
    split
    · exact h id
    · simp only []
      have hk3 : ∀ q ∈ (if ¬ ((pasteNewItems s.clipboard f x y (pasteMinX s.clipboard)
            (pasteMinY s.clipboard)).map (remapChildren (pasteIdMap s.clipboard f))).isEmpty
          = true then
            ((pasteNewItems s.clipboard f x y (pasteMinX s.clipboard)
              (pasteMinY s.clipboard)).map (remapChildren (pasteIdMap s.clipboard f))).foldl
              (fun m (it : NewItem) => mapSet m it.node.id it.node) s.nodes
          else s.nodes), q.2.id = q.1 := by
        split
        all_goals first
        | exact pasteFold_hkeys _ s.nodes hkeys
        | exact hkeys
      have hnd3 : ((if ¬ ((pasteNewItems s.clipboard f x y (pasteMinX s.clipboard)
            (pasteMinY s.clipboard)).map (remapChildren (pasteIdMap s.clipboard f))).isEmpty
          = true then
            ((pasteNewItems s.clipboard f x y (pasteMinX s.clipboard)
              (pasteMinY s.clipboard)).map (remapChildren (pasteIdMap s.clipboard f))).foldl
              (fun m (it : NewItem) => mapSet m it.node.id it.node) s.nodes
          else s.nodes).map Prod.fst).Nodup := by
        split
        all_goals first
        | exact pasteFold_nodup _ s.nodes hnd
        | exact hnd
      rw [pasteApplyMembership_nodes_isSome _ _ hk3 hnd3 id, pasteApplyMembership_positions]
      by_cases hni :
        ((pasteNewItems s.clipboard f x y (pasteMinX s.clipboard) (pasteMinY s.clipboard)).map
          (remapChildren (pasteIdMap s.clipboard f))).isEmpty
      · rw [if_neg (by simpa using hni), if_neg (by simpa using hni)]
        exact h id
      · rw [if_pos (by simpa using hni), if_pos (by simpa using hni)]
        rw [pasteFold_insert_isSome, pasteFold_insert_isSome]
        by_cases hex : ∃ it ∈ (pasteNewItems s.clipboard f x y (pasteMinX s.clipboard)
            (pasteMinY s.clipboard)).map (remapChildren (pasteIdMap s.clipboard f)),
            it.node.id = id
        · rw [if_pos hex, if_pos hex]
        · rw [if_neg hex, if_neg hex]; exact h id
  · -- updateNodePosition
    intro nid x y hnid id
    unfold updateNodePosition
    show (mapGet s.nodes id).isSome = (mapGet (mapSet s.nodePositions nid _) id).isSome
    rw [isSome_mapGet_mapSet]
    by_cases hid : id = nid
    · rw [if_pos hid, hid, hnid]
    · rw [if_neg hid]; exact h id
  · -- updateNodeDimensions
    intro nid w ht hnid id
    unfold updateNodeDimensions
    cases hm : mapGet s.nodePositions nid with
    | some current =>
      show (mapGet s.nodes id).isSome = (mapGet (if _ then _ else _ : PosMap) id).isSome
      split
      · rw [isSome_mapGet_mapSet]
        by_cases hid : id = nid
        · rw [if_pos hid, hid, hnid]
        · rw [if_neg hid]; exact h id
      · exact h id
    | none =>
      show (mapGet s.nodes id).isSome = (mapGet (mapSet s.nodePositions nid _) id).isSome
      rw [isSome_mapGet_mapSet]
      by_cases hid : id = nid
      · rw [if_pos hid, hid, hnid]
      · rw [if_neg hid]; exact h id

/-- Witness for the amended C2 at a concrete aligned state. -/
theorem claim_C2_witness :
    KeysAligned importWitnessState ∧
    (KeysAligned (deleteSelection importWitnessState) ∧
     KeysAligned (unlinkEdge importWitnessState "a" "b") ∧
     KeysAligned (updateNodePosition importWitnessState "a" 5 6)) := by
  have hal : KeysAligned importWitnessState := by
    intro id
    show (mapGet [("a", _)] id).isSome = (mapGet [("a", _)] id).isSome
    rw [mapGet_cons, mapGet_cons]
    by_cases hid : ("a" : String) = id
    · simp [hid]
    · rw [if_neg hid, if_neg hid]
      rfl
  have hres := claim_C2_amended importWitnessState hal (by decide) (by decide)
  exact ⟨hal, hres.2.1, hres.2.2.2.1 "a" "b",
    hres.2.2.2.2.2.2.2.2.1 "a" 5 6 (by decide)⟩

theorem foldl_filterMap_best (s : EngineState) (nodeId : String) (nRect : Rect) :
    ∀ (m : NodeMap) (acc : Option ChartNode × Rat),
      m.foldl (fun acc p =>
        if p.2.type = NodeType.group ∧ p.2.id ≠ nodeId then
          match mapGet s.nodePositions p.2.id with
          | some gPos =>
            if acc.2 < getOverlapArea nRect (groupRect gPos) then
              (some p.2, getOverlapArea nRect (groupRect gPos))
            else acc
          | none => acc
        else acc) acc
      = (m.filterMap (fun p =>
          if p.2.type = NodeType.group ∧ p.2.id ≠ nodeId then
            match mapGet s.nodePositions p.2.id with
            | some gPos => some (p.2, getOverlapArea nRect (groupRect gPos))
            | none => none
          else none)).foldl bestStep acc
  | [], _ => rfl
  | p :: m, acc => by
    rw [List.foldl_cons, List.filterMap_cons]
    by_cases hc : p.2.type = NodeType.group ∧ p.2.id ≠ nodeId
    · rw [if_pos hc, if_pos hc]
      cases hg : mapGet s.nodePositions p.2.id with
      | some gPos =>
        rw [List.foldl_cons]
        exact foldl_filterMap_best s nodeId nRect m _
      | none => exact foldl_filterMap_best s nodeId nRect m acc
    · rw [if_neg hc, if_neg hc]
      exact foldl_filterMap_best s nodeId nRect m acc

/-- The source fold equals the running-maximum fold over the candidates. -/
theorem bestGroupFold_eq_candidates (s : EngineState) (nodeId : String) (nRect : Rect) :
    bestGroupFold s nodeId nRect
      = (groupCandidates s nodeId nRect).foldl bestStep (none, 0) := by
  unfold bestGroupFold groupCandidates
  exact foldl_filterMap_best s nodeId nRect s.nodes (none, 0)

theorem foldl_bestStep_le (l : List (ChartNode × Rat)) (acc : Option ChartNode × Rat)
    (h : ∀ c ∈ l, c.2 ≤ acc.2) : l.foldl bestStep acc = acc := by
  induction l with
  | nil => rfl
  | cons c l ih =>
    rw [List.foldl_cons,
      show bestStep acc c = acc from by
        unfold bestStep
        rw [if_neg (not_lt.mpr (h c (List.mem_cons_self c l)))]]
    exact ih (fun c1 hc1 => h c1 (List.mem_cons_of_mem c hc1))

theorem foldl_bestStep_lt (l : List (ChartNode × Rat)) (acc : Option ChartNode × Rat)
    (M : Rat) (hacc : acc.2 < M) (h : ∀ c ∈ l, c.2 < M) :
    (l.foldl bestStep acc).2 < M := by
  induction l generalizing acc with
  | nil => exact hacc
  | cons c l ih =>
    rw [List.foldl_cons]
    refine ih (bestStep acc c) ?_ (fun c1 hc1 => h c1 (List.mem_cons_of_mem c hc1))
    unfold bestStep
    split
    · exact h c (List.mem_cons_self c l)
    · exact hacc

/-- First strictly-maximal positive candidate wins. -/
theorem foldl_bestStep_firstmax (l1 : List (ChartNode × Rat)) (c : ChartNode × Rat)
    (l2 : List (ChartNode × Rat)) (h0 : 0 < c.2)
    (h1 : ∀ c1 ∈ l1, c1.2 < c.2) (h2 : ∀ c2 ∈ l2, c2.2 ≤ c.2) :
    (l1 ++ c :: l2).foldl bestStep (none, 0) = (some c.1, c.2) := by
  rw [List.foldl_append, List.foldl_cons]
  have hlt : (l1.foldl bestStep (none, 0)).2 < c.2 :=
    foldl_bestStep_lt l1 (none, 0) c.2 (by simpa using h0) h1
  rw [show bestStep (l1.foldl bestStep ((none : Option ChartNode), (0 : Rat))) c
      = (some c.1, c.2) from by
        unfold bestStep
        split
        · rfl
        · rename_i hcon; exact absurd hlt hcon]
  exact foldl_bestStep_le l2 (some c.1, c.2) (fun c2 hc2 => h2 c2 hc2)

/-- `updateNodeMembership` on an eligible node rewrites exactly the node
map, through `unmNewNodes` at the computed best group. -/
theorem updateNodeMembership_eq (s : EngineState) (nodeId : String)
    (node : ChartNode) (pos : NodePosition)
    (hn : mapGet s.nodes nodeId = some node)
    (hp : mapGet s.nodePositions nodeId = some pos)
    (hf : functionalTypes.contains node.type = true) :
    updateNodeMembership s nodeId
      = { s with nodes :=
            unmNewNodes s nodeId node (bestGroupFold s nodeId (nodeRect pos)).1 } := by
  unfold updateNodeMembership
  rw [hn, hp]
  split
  · rename_i node1 pos1 hn1 hp1
    injection hn1 with hn1
    injection hp1 with hp1
    subst hn1; subst hp1
    rw [if_neg (not_not_intro hf)]
  · rename_i hno
    exact (hno node pos rfl rfl).elim

/-- **C5 counterexample.** A functional node with an *absent* department
field overlaps no group; the claim says the department is cleared to the
empty string, but the engine leaves it absent (the clearing branch fires
only on truthy departments). -/
theorem claim_C5_counterexample :
    ¬ ((mapGet (updateNodeMembership membershipNoneState "n").nodes "n").map
        (fun n => n.department) = some (some "")) := by
  decide

/-- **C5 (amended).** After `updateNodeMembership` on a functional node
with a geometry: (1) if the candidate list (groups in map order with their
overlap areas) splits as `l1 ++ c :: l2` where `c` has positive overlap,
everything before it strictly smaller and everything after it no larger,
then the node's department becomes that first maximal group's name; 
(2) if every group overlap is zero, a truthy department is cleared to the
empty string and a falsy one (absent or already empty) is left unchanged. -/
theorem claim_C5_amended (s : EngineState) (nodeId : String) (node : ChartNode)
    (pos : NodePosition)
    (hn : mapGet s.nodes nodeId = some node)
    (hp : mapGet s.nodePositions nodeId = some pos)
    (hf : functionalTypes.contains node.type = true) :
    (∀ l1 c l2,
      groupCandidates s nodeId (nodeRect pos) = l1 ++ c :: l2 →
      0 < c.2 → (∀ c1 ∈ l1, c1.2 < c.2) → (∀ c2 ∈ l2, c2.2 ≤ c.2) →
      ∃ n', mapGet (updateNodeMembership s nodeId).nodes nodeId = some n' ∧
        n'.department = some c.1.name) ∧
    ((∀ c ∈ groupCandidates s nodeId (nodeRect pos), c.2 = 0) →
      ∃ n', mapGet (updateNodeMembership s nodeId).nodes nodeId = some n' ∧
        n'.department = (if optStrTruthy node.department then some "" else node.department)) := by
  constructor
  · intro l1 c l2 hsplit hpos hl1 hl2
    have hbest : bestGroupFold s nodeId (nodeRect pos) = (some c.1, c.2) := by
      rw [bestGroupFold_eq_candidates, hsplit]
      exact foldl_bestStep_firstmax l1 c l2 hpos hl1 hl2
    rw [updateNodeMembership_eq s nodeId node pos hn hp hf]
    show ∃ n', mapGet (unmNewNodes s nodeId node (bestGroupFold s nodeId (nodeRect pos)).1)
        nodeId = some n' ∧ n'.department = some c.1.name
    rw [hbest]
    show ∃ n', mapGet (if node.department ≠ some c.1.name then
        mapSet s.nodes nodeId { node with department := some c.1.name }
      else s.nodes) nodeId = some n' ∧ n'.department = some c.1.name
    by_cases hd : node.department ≠ some c.1.name
    · rw [if_pos hd, mapGet_mapSet, if_pos rfl]
      exact ⟨_, rfl, rfl⟩
    · rw [if_neg hd]
      exact ⟨node, hn, not_not.mp hd⟩
  · intro hzero
    have hbest : bestGroupFold s nodeId (nodeRect pos) = (none, 0) := by
      rw [bestGroupFold_eq_candidates]
      exact foldl_bestStep_le _ _ (fun c hc => le_of_eq (hzero c hc))
    rw [updateNodeMembership_eq s nodeId node pos hn hp hf]
    show ∃ n', mapGet (unmNewNodes s nodeId node (bestGroupFold s nodeId (nodeRect pos)).1)
        nodeId = some n' ∧
        n'.department = (if optStrTruthy node.department then some "" else node.department)
    rw [hbest]
    show ∃ n', mapGet (if optStrTruthy node.department then
        mapSet s.nodes nodeId { node with department := some "" }
      else s.nodes) nodeId = some n' ∧
      n'.department = (if optStrTruthy node.department then some "" else node.department)
    by_cases ht : optStrTruthy node.department = true
    · rw [if_pos ht, if_pos ht, mapGet_mapSet, if_pos rfl]
      exact ⟨_, rfl, rfl⟩
    · rw [if_neg ht, if_neg ht]
      exact ⟨node, hn, rfl⟩

/-- Witness for the amended C5: the lone overlapping group is adopted. -/
theorem claim_C5_witness :
    (mapGet membershipGroupState.nodes "n" = some (defaultNode "n" NodeType.employee) ∧
     mapGet membershipGroupState.nodePositions "n" = some { x := 0, y := 0 } ∧
     functionalTypes.contains (defaultNode "n" NodeType.employee).type = true ∧
     groupCandidates membershipGroupState "n" (nodeRect { x := 0, y := 0 })
        = [] ++ ({ defaultNode "g" NodeType.group with name := "Sales" }, witnessOverlap) :: [] ∧
     (0 : Rat) < witnessOverlap) ∧
    (∃ n', mapGet (updateNodeMembership membershipGroupState "n").nodes "n" = some n' ∧
      n'.department = some "Sales") :=
  ⟨⟨by decide, by decide, by decide, by rfl,
    by norm_num [witnessOverlap, getOverlapArea, rmax, rmin, nodeRect, groupRect, jsOr]⟩,
   (claim_C5_amended membershipGroupState "n" (defaultNode "n" NodeType.employee)
      { x := 0, y := 0 } (by decide) (by decide) (by decide)).1
     [] ({ defaultNode "g" NodeType.group with name := "Sales" }, witnessOverlap) []
     (by rfl)
     (by norm_num [witnessOverlap, getOverlapArea, rmax, rmin, nodeRect, groupRect, jsOr])
     (by intro c1 hc1; exact absurd hc1 (List.not_mem_nil c1))
     (by intro c2 hc2; exact absurd hc2 (List.not_mem_nil c2))⟩

theorem remapChildren_id (im : List (String × String)) (it : NewItem) :
    (remapChildren im it).node.id = it.node.id := by
  unfold remapChildren
  split
  · split
    · rfl
    · rfl
  · rfl

theorem remapChildren_pos (im : List (String × String)) (it : NewItem) :
    (remapChildren im it).pos = it.pos := by
  unfold remapChildren
  split
  · split
    · rfl
    · rfl
  · rfl

theorem remapChildren_children (im : List (String × String)) (it : NewItem) :
    (remapChildren im it).node.children
      = it.node.children.map (fun cs => cs.filterMap (fun c => mapGet im c)) := by
  unfold remapChildren
  split
  · rename_i cs heq
    rw [heq]
    by_cases hcs : cs.isEmpty
    · rw [if_neg (not_not_intro hcs)]
      rw [heq, List.isEmpty_iff.mp hcs]
      rfl
    · rw [if_pos hcs]
      rfl
  · rename_i heq
    rw [heq]
    rfl

theorem ugmStep_view (s : EngineState) (r : Rect) (gid gname : String) (n : ChartNode) :
    nodeView ((ugmStep s r gid gname n).getD n) = nodeView n := by
  unfold ugmStep
  split
  · split
    · simp only []
      split
      · split
        · rfl
        · rfl
      · split
        · rfl
        · rfl
    · rfl
  · rfl

theorem mapGet_map_view (f : String × ChartNode → String × ChartNode)
    (hf : ∀ p, (f p).1 = p.1) (hg : ∀ p, nodeView (f p).2 = nodeView p.2)
    (m : NodeMap) (k : String) :
    (mapGet (m.map f) k).map nodeView = (mapGet m k).map nodeView := by
  rw [mapGet_map_keyfix f hf]
  unfold mapGet
  cases m.find? (fun p => p.1 = k) with
  | none => rfl
  | some pr =>
    show some (nodeView (f pr).2) = some (nodeView pr.2)
    rw [hg]

theorem updateGroupMembership_nodeView (s : EngineState) (gid id : String)
    (hkeys : ∀ p ∈ s.nodes, p.2.id = p.1) (hnd : (s.nodes.map Prod.fst).Nodup) :
    (mapGet (updateGroupMembership s gid).nodes id).map nodeView
      = (mapGet s.nodes id).map nodeView := by
  unfold updateGroupMembership
  split
  · rename_i groupNode groupPos hn hp
    split
    · rfl
    · show (mapGet (forEachSet (ugmStep s (groupRect groupPos) gid groupNode.name)
            s.nodes) id).map nodeView
        = (mapGet s.nodes id).map nodeView
      rw [forEachSet_aligned _ s.nodes hkeys hnd]
      exact mapGet_map_view
        (fun p => (p.1, (ugmStep s (groupRect groupPos) gid groupNode.name p.2).getD p.2))
        (fun p => rfl)
        (fun p => ugmStep_view s (groupRect groupPos) gid groupNode.name p.2) s.nodes id
  · rfl

theorem updateGroupMembership_selectedN (s : EngineState) (gid : String) :
    (updateGroupMembership s gid).selectedNodeIds = s.selectedNodeIds := by
  unfold updateGroupMembership
  split
  · split <;> rfl
  · rfl

theorem updateGroupMembership_selectedD (s : EngineState) (gid : String) :
    (updateGroupMembership s gid).selectedDrawingIds = s.selectedDrawingIds := by
  unfold updateGroupMembership
  split
  · split <;> rfl
  · rfl

theorem pasteApplyMembership_nodeView (l : List NewItem) (s : EngineState) (id : String)
    (hkeys : ∀ p ∈ s.nodes, p.2.id = p.1) (hnd : (s.nodes.map Prod.fst).Nodup) :
    (mapGet (pasteApplyMembership l s).nodes id).map nodeView
      = (mapGet s.nodes id).map nodeView := by
  induction l generalizing s hkeys hnd with
  | nil => rfl
  | cons it l ih =>
    unfold pasteApplyMembership at ih ⊢
    rw [List.foldl_cons]
    by_cases h : it.node.type = NodeType.group
    · rw [if_pos h]
      obtain ⟨hk2, he2⟩ := updateGroupMembership_inv s it.node.id hkeys hnd
      rw [ih (updateGroupMembership s it.node.id) hk2 (by rw [he2]; exact hnd),
        updateGroupMembership_nodeView s it.node.id id hkeys hnd]
    · rw [if_neg h]
      exact ih s hkeys hnd

theorem pasteApplyMembership_selectedN (l : List NewItem) (s : EngineState) :
    (pasteApplyMembership l s).selectedNodeIds = s.selectedNodeIds := by
  induction l generalizing s with
  | nil => rfl
  | cons it l ih =>
    unfold pasteApplyMembership at ih ⊢
    rw [List.foldl_cons]
    by_cases h : it.node.type = NodeType.group
    · rw [if_pos h, ih, updateGroupMembership_selectedN]
    · rw [if_neg h]; exact ih s

theorem pasteApplyMembership_selectedD (l : List NewItem) (s : EngineState) :
    (pasteApplyMembership l s).selectedDrawingIds = s.selectedDrawingIds := by
  induction l generalizing s with
  | nil => rfl
  | cons it l ih =>
    unfold pasteApplyMembership at ih ⊢
    rw [List.foldl_cons]
    by_cases h : it.node.type = NodeType.group
    · rw [if_pos h, ih, updateGroupMembership_selectedD]
    · rw [if_neg h]; exact ih s

theorem pasteFold_get_notmem (l : List NewItem) (m : List (String × α))
    (proj : NewItem → α) (id : String) (h : ∀ it ∈ l, it.node.id ≠ id) :
    mapGet (l.foldl (fun acc it => mapSet acc it.node.id (proj it)) m) id = mapGet m id := by
  induction l generalizing m with
  | nil => rfl
  | cons a l ih =>
    rw [List.foldl_cons, ih _ (fun it hit => h it (List.mem_cons_of_mem a hit)),
      mapGet_mapSet,
      if_neg (fun he => h a (List.mem_cons_self a l) he.symm)]

theorem pasteFold_get_mem (l : List NewItem) (m : List (String × α))
    (proj : NewItem → α) (hnd : (l.map (fun it => it.node.id)).Nodup)
    (it : NewItem) (hit : it ∈ l) :
    mapGet (l.foldl (fun acc a => mapSet acc a.node.id (proj a)) m) it.node.id
      = some (proj it) := by
  induction l generalizing m with
  | nil => exact absurd hit (List.not_mem_nil it)
  | cons a l ih =>
    rw [List.map_cons, List.nodup_cons] at hnd
    rw [List.foldl_cons]
    rcases List.mem_cons.mp hit with h1 | h1
    · subst h1
      rw [pasteFold_get_notmem _ _ _ _
        (fun b hb he => hnd.1 (by
          rw [← he]
          exact List.mem_map_of_mem (fun x => x.node.id) hb)),
        mapGet_mapSet, if_pos rfl]
    · exact ih _ hnd.2 h1

theorem foldl_setAdd_eq (f : α → String) (l : List α) (acc : List String)
    (h : (acc ++ l.map f).Nodup) :
    l.foldl (fun a x => setAdd a (f x)) acc = acc ++ l.map f := by
  induction l generalizing acc with
  | nil => simp
  | cons x l ih =>
    rw [List.map_cons] at h
    have hx : f x ∉ acc := by
      intro hmem
      rcases (List.nodup_append.mp h).2.2 with hd
      exact hd hmem (List.mem_cons_self _ _)
    rw [List.foldl_cons,
      show setAdd acc (f x) = acc ++ [f x] from by
        unfold setAdd
        rw [if_neg (by simpa using hx)],
      ih (acc ++ [f x]) (by simpa using h)]
    simp

theorem get?_mem_enumFrom (l : List α) : ∀ (n i : Nat) (a : α),
    l.get? i = some a → (n + i, a) ∈ l.enumFrom n := by
  induction l with
  | nil => intro n i a h; simp at h
  | cons b l ih =>
    intro n i a h
    cases i with
    | zero =>
      injection h with h
      subst h
      show (n + 0, b) ∈ (n, b) :: List.enumFrom (n + 1) l
      rw [Nat.add_zero]
      exact List.mem_cons_self _ _
    | succ i =>
      have hm := ih (n + 1) i a h
      show (n + (i + 1), a) ∈ (n, b) :: List.enumFrom (n + 1) l
      rw [show n + (i + 1) = (n + 1) + i from by omega]
      exact List.mem_cons_of_mem _ hm

theorem get?_mem_enum (l : List α) (i : Nat) (a : α) (h : l.get? i = some a) :
    (i, a) ∈ l.enum := by
  have hm := get?_mem_enumFrom l 0 i a h
  rw [Nat.zero_add] at hm
  exact hm

theorem map_nodup_inj_mem {f : α → β} {l : List α} (h : (l.map f).Nodup) :
    ∀ {p q : α}, p ∈ l → q ∈ l → f p = f q → p = q := by
  induction l with
  | nil => intro p q hp _ _; exact absurd hp (List.not_mem_nil p)
  | cons a l ih =>
    rw [List.map_cons, List.nodup_cons] at h
    intro p q hp hq he
    rcases List.mem_cons.mp hp with hp1 | hp1 <;> rcases List.mem_cons.mp hq with hq1 | hq1
    · rw [hp1, hq1]
    · subst hp1
      have hm : f q ∈ l.map f := List.mem_map_of_mem f hq1
      rw [← he] at hm
      exact absurd hm h.1
    · subst hq1
      have hm : f p ∈ l.map f := List.mem_map_of_mem f hp1
      rw [he] at hm
      exact absurd hm h.1
    · exact ih h.2 hp1 hq1 he

theorem enum_fst_nodup (l : List α) : (l.enum.map Prod.fst).Nodup := by
  rw [List.enum_map_fst]
  exact List.nodup_range _

theorem filterMapPick_mem {pick : ClipboardItem → Bool} {fi : Nat → String}
    {l : List (Nat × ClipboardItem)} {x : String}
    (h : x ∈ l.filterMap (fun p => if pick p.2 then some (fi p.1) else none)) :
    ∃ p ∈ l, x = fi p.1 := by
  rcases List.mem_filterMap.mp h with ⟨p, hp, hf⟩
  by_cases hc : pick p.2 = true
  · rw [if_pos hc] at hf
    injection hf with hf
    exact ⟨p, hp, hf.symm⟩
  · rw [if_neg hc] at hf
    exact absurd hf (by simp)

theorem filterMapPick_nodup (pick : ClipboardItem → Bool) (fi : Nat → String)
    (hinj : ∀ i j, fi i = fi j → i = j) :
    ∀ (l : List (Nat × ClipboardItem)), (l.map Prod.fst).Nodup →
      (l.filterMap (fun p => if pick p.2 then some (fi p.1) else none)).Nodup := by
  intro l
  induction l with
  | nil => intro _; exact List.nodup_nil
  | cons p l ih =>
    intro h
    rw [List.map_cons, List.nodup_cons] at h
    by_cases hc : pick p.2 = true
    · rw [List.filterMap_cons, if_pos hc]
      refine List.nodup_cons.mpr ⟨?_, ih h.2⟩
      intro hm
      obtain ⟨q, hq, he⟩ := filterMapPick_mem hm
      have hpq : p.1 = q.1 := hinj p.1 q.1 he
      rw [hpq] at h
      exact h.1 (List.mem_map_of_mem Prod.fst hq)
    · rw [List.filterMap_cons, if_neg hc]
      exact ih h.2

theorem clipFreshIds_nodup (pick : ClipboardItem → Bool) (cb : List ClipboardItem)
    (fi : Nat → String) (hinj : ∀ i j, fi i = fi j → i = j) :
    (clipFreshIds pick cb fi).Nodup :=
  filterMapPick_nodup pick fi hinj cb.enum (enum_fst_nodup cb)

theorem pasteItems_ids (im : List (String × String)) (fi : Nat → String)
    (tx ty mx my : Rat) :
    ∀ (l : List (Nat × ClipboardItem)),
      ((l.filterMap (pasteItemOf fi tx ty mx my)).map (remapChildren im)).map
          (fun it => it.node.id)
        = l.filterMap (fun p => if isNodeItem p.2 then some (fi p.1) else none) := by
  intro l
  rw [List.map_map, List.map_filterMap]
  congr 1
  funext p
  cases hk : p.2.kind <;> cases hd : p.2.nodeData <;>
    simp [pasteItemOf, isNodeItem, hk, hd, remapChildren_id]

theorem pasteDrawings_ids (fi : Nat → String) (tx ty mx my : Rat) :
    ∀ (l : List (Nat × ClipboardItem)),
      (l.filterMap (pasteDrawingOf fi tx ty mx my)).map (fun d => d.id)
        = l.filterMap (fun p => if isDrawingItem p.2 then some (fi p.1) else none) := by
  intro l
  rw [List.map_filterMap]
  congr 1
  funext p
  cases hk : p.2.kind <;> cases hd : p.2.drawingData <;>
    simp [pasteDrawingOf, isDrawingItem, hk, hd]

theorem pasteIdStep_fold_get (fi : Nat → String) :
    ∀ (l : List (Nat × ClipboardItem)) (acc : List (String × String)) (k x : String),
      mapGet (l.foldl (pasteIdStep fi) acc) k = some x →
      (∃ p ∈ l, ∃ nd : ChartNode, p.2.kind = ClipKind.node ∧ p.2.nodeData = some nd ∧
          nd.id = k ∧ x = fi p.1)
        ∨ mapGet acc k = some x := by
  intro l
  induction l with
  | nil => intro acc k x h; exact Or.inr h
  | cons p l ih =>
    intro acc k x h
    rw [List.foldl_cons] at h
    rcases ih _ k x h with h1 | h1
    · obtain ⟨q, hq, rest⟩ := h1
      exact Or.inl ⟨q, List.mem_cons_of_mem p hq, rest⟩
    · cases hk : p.2.kind with
      | node =>
        cases hd : p.2.nodeData with
        | some nd =>
          rw [show pasteIdStep fi acc p = mapSet acc nd.id (fi p.1) from by
            simp only [pasteIdStep, hk, hd]] at h1
          rw [mapGet_mapSet] at h1
          by_cases hkk : k = nd.id
          · rw [if_pos hkk] at h1
            injection h1 with h1
            exact Or.inl ⟨p, List.mem_cons_self p l, nd, hk, hd, hkk.symm, h1.symm⟩
          · rw [if_neg hkk] at h1
            exact Or.inr h1
        | none =>
          rw [show pasteIdStep fi acc p = acc from by
            simp only [pasteIdStep, hk, hd]] at h1
          exact Or.inr h1
      | drawing =>
        cases hd : p.2.nodeData with
        | some nd =>
          rw [show pasteIdStep fi acc p = acc from by
            simp only [pasteIdStep, hk, hd]] at h1
          exact Or.inr h1
        | none =>
          rw [show pasteIdStep fi acc p = acc from by
            simp only [pasteIdStep, hk, hd]] at h1
          exact Or.inr h1

theorem pasteIdStep_fold_isSome (fi : Nat → String) :
    ∀ (l : List (Nat × ClipboardItem)) (acc : List (String × String)) (k : String),
      (mapGet acc k).isSome = true →
      (mapGet (l.foldl (pasteIdStep fi) acc) k).isSome = true := by
  intro l
  induction l with
  | nil => intro acc k h; exact h
  | cons p l ih =>
    intro acc k h
    rw [List.foldl_cons]
    refine ih _ k ?_
    cases hk : p.2.kind with
    | node =>
      cases hd : p.2.nodeData with
      | some nd =>
        rw [show pasteIdStep fi acc p = mapSet acc nd.id (fi p.1) from by
          simp only [pasteIdStep, hk, hd]]
        rw [isSome_mapGet_mapSet]
        by_cases hkk : k = nd.id
        · rw [if_pos hkk]
        · rw [if_neg hkk]; exact h
      | none =>
        rw [show pasteIdStep fi acc p = acc from by simp only [pasteIdStep, hk, hd]]
        exact h
    | drawing =>
      cases hd : p.2.nodeData with
      | some nd =>
        rw [show pasteIdStep fi acc p = acc from by simp only [pasteIdStep, hk, hd]]
        exact h
      | none =>
        rw [show pasteIdStep fi acc p = acc from by simp only [pasteIdStep, hk, hd]]
        exact h

theorem pasteIdStep_fold_isSome_of_mem (fi : Nat → String) :
    ∀ (l : List (Nat × ClipboardItem)) (acc : List (String × String)) (k : String),
      (∃ p ∈ l, ∃ nd : ChartNode, p.2.kind = ClipKind.node ∧ p.2.nodeData = some nd ∧
        nd.id = k) →
      (mapGet (l.foldl (pasteIdStep fi) acc) k).isSome = true := by
  intro l
  induction l with
  | nil =>
    intro acc k h
    obtain ⟨q, hq, _⟩ := h
    exact absurd hq (List.not_mem_nil q)
  | cons p l ih =>
    intro acc k h
    rw [List.foldl_cons]
    obtain ⟨q, hq, nd, hk, hd, hid⟩ := h
    rcases List.mem_cons.mp hq with h1 | h1
    · subst h1
      refine pasteIdStep_fold_isSome fi l _ k ?_
      rw [show pasteIdStep fi acc q = mapSet acc nd.id (fi q.1) from by
        simp only [pasteIdStep, hk, hd]]
      rw [isSome_mapGet_mapSet, if_pos hid.symm]
    · exact ih _ k ⟨q, h1, nd, hk, hd, hid⟩

theorem mem_of_mem_enumFrom (l : List α) : ∀ (n : Nat) (p : Nat × α),
    p ∈ l.enumFrom n → p.2 ∈ l := by
  induction l with
  | nil => intro n p hp; exact absurd hp (List.not_mem_nil p)
  | cons b l ih =>
    intro n p hp
    rcases List.mem_cons.mp hp with h1 | h1
    · subst h1
      exact List.mem_cons_self b l
    · exact List.mem_cons_of_mem b (ih (n + 1) p h1)

theorem pasteNewItems_ids_eq (cb : List ClipboardItem) (fi : Nat → String)
    (tx ty mx my : Rat) (im : List (String × String)) :
    ((pasteNewItems cb fi tx ty mx my).map (remapChildren im)).map (fun it => it.node.id)
      = clipFreshIds isNodeItem cb fi := by
  show ((cb.enum.filterMap (pasteItemOf fi tx ty mx my)).map (remapChildren im)).map
      (fun it => it.node.id) = clipFreshIds isNodeItem cb fi
  rw [pasteItems_ids]
  rfl

theorem pasteNewDrawings_ids_eq (cb : List ClipboardItem) (fi : Nat → String)
    (tx ty mx my : Rat) :
    (pasteNewDrawings cb fi tx ty mx my).map (fun d => d.id)
      = clipFreshIds isDrawingItem cb fi := by
  show (cb.enum.filterMap (pasteDrawingOf fi tx ty mx my)).map (fun d => d.id)
      = clipFreshIds isDrawingItem cb fi
  rw [pasteDrawings_ids]
  rfl

theorem pasteApplyMembership_exists (l : List NewItem) (st : EngineState) (k : String)
    (nid : String) (nch : Option (List String)) (n0 : ChartNode)
    (hkeys : ∀ p ∈ st.nodes, p.2.id = p.1) (hnd : (st.nodes.map Prod.fst).Nodup)
    (h : mapGet st.nodes k = some n0) (hid : n0.id = nid) (hch : n0.children = nch) :
    ∃ n', mapGet (pasteApplyMembership l st).nodes k = some n' ∧
      n'.id = nid ∧ n'.children = nch := by
  have hv := pasteApplyMembership_nodeView l st k hkeys hnd
  rw [h] at hv
  rcases Option.map_eq_some'.mp hv with ⟨n', hn', hvn⟩
  exact ⟨n', hn', hid ▸ congrArg Prod.fst hvn, hch ▸ congrArg Prod.snd hvn⟩

/-- The node pasted for clipboard entry `p` is present in the final node map
under its fresh id, with its children already remapped through the id
table. -/
theorem paste_get_new (s : EngineState) (fi : Nat → String) (tx ty : Rat)
    (hinj : ∀ i j, fi i = fi j → i = j)
    (hkeys : ∀ q ∈ s.nodes, q.2.id = q.1) (hnd : (s.nodes.map Prod.fst).Nodup)
    (p : Nat × ClipboardItem) (hp : p ∈ s.clipboard.enum)
    (nd : ChartNode) (hk : p.2.kind = ClipKind.node) (hd : p.2.nodeData = some nd) :
    ∃ n', mapGet (pasteNodes s fi tx ty).nodes (fi p.1) = some n' ∧
      n'.id = fi p.1 ∧
      n'.children = nd.children.map (fun cs =>
        cs.filterMap (fun c => mapGet (pasteIdMap s.clipboard fi) c)) := by
  have hcb : ¬ (s.clipboard.isEmpty = true) := by
    intro he
    rw [List.isEmpty_iff.mp he] at hp
    exact absurd hp (List.not_mem_nil p)
  obtain ⟨it0, hitem, hid0, hch0⟩ :
      ∃ it0, pasteItemOf fi tx ty (pasteMinX s.clipboard) (pasteMinY s.clipboard) p
          = some it0 ∧ it0.node.id = fi p.1 ∧ it0.node.children = nd.children :=
    ⟨{ node := { nd with id := fi p.1 }
       pos := { x := tx + (p.2.x - pasteMinX s.clipboard),
                y := ty + (p.2.y - pasteMinY s.clipboard),
                width := some p.2.width, height := some p.2.height } },
     by simp only [pasteItemOf, hk, hd], rfl, rfl⟩
  have hmem1 : it0 ∈ pasteNewItems s.clipboard fi tx ty (pasteMinX s.clipboard)
      (pasteMinY s.clipboard) := List.mem_filterMap.mpr ⟨p, hp, hitem⟩
  have hmemNI : remapChildren (pasteIdMap s.clipboard fi) it0 ∈
      (pasteNewItems s.clipboard fi tx ty (pasteMinX s.clipboard)
        (pasteMinY s.clipboard)).map (remapChildren (pasteIdMap s.clipboard fi)) :=
    List.mem_map_of_mem _ hmem1
  have hne : ¬ (((pasteNewItems s.clipboard fi tx ty (pasteMinX s.clipboard)
      (pasteMinY s.clipboard)).map (remapChildren (pasteIdMap s.clipboard fi))).isEmpty
        = true) := by
    intro he
    rw [List.isEmpty_iff.mp he] at hmemNI
    exact absurd hmemNI (List.not_mem_nil _)
  have hnd2 : (((pasteNewItems s.clipboard fi tx ty (pasteMinX s.clipboard)
      (pasteMinY s.clipboard)).map (remapChildren (pasteIdMap s.clipboard fi))).map
        (fun it => it.node.id)).Nodup := by
    rw [pasteNewItems_ids_eq]
    exact clipFreshIds_nodup isNodeItem s.clipboard fi hinj
  have hfold := pasteFold_get_mem
    ((pasteNewItems s.clipboard fi tx ty (pasteMinX s.clipboard)
      (pasteMinY s.clipboard)).map (remapChildren (pasteIdMap s.clipboard fi)))
    s.nodes (fun a => a.node) hnd2 _ hmemNI
  rw [remapChildren_id, hid0] at hfold
  have hk3 : ∀ q ∈ (if ¬ ((pasteNewItems s.clipboard fi tx ty (pasteMinX s.clipboard)
        (pasteMinY s.clipboard)).map (remapChildren (pasteIdMap s.clipboard fi))).isEmpty
      = true then
        ((pasteNewItems s.clipboard fi tx ty (pasteMinX s.clipboard)
          (pasteMinY s.clipboard)).map (remapChildren (pasteIdMap s.clipboard fi))).foldl
          (fun m (it : NewItem) => mapSet m it.node.id it.node) s.nodes
      else s.nodes), q.2.id = q.1 := by
    split
    all_goals first
    | exact pasteFold_hkeys _ s.nodes hkeys
    | exact hkeys
  have hnd3 : ((if ¬ ((pasteNewItems s.clipboard fi tx ty (pasteMinX s.clipboard)
        (pasteMinY s.clipboard)).map (remapChildren (pasteIdMap s.clipboard fi))).isEmpty
      = true then
        ((pasteNewItems s.clipboard fi tx ty (pasteMinX s.clipboard)
          (pasteMinY s.clipboard)).map (remapChildren (pasteIdMap s.clipboard fi))).foldl
          (fun m (it : NewItem) => mapSet m it.node.id it.node) s.nodes
      else s.nodes).map Prod.fst).Nodup := by
    split
    all_goals first
    | exact pasteFold_nodup _ s.nodes hnd
    | exact hnd
  unfold pasteNodes
  rw [if_neg hcb]
  simp only []
  exact pasteApplyMembership_exists _ _ _ _ _ _ hk3 hnd3
    (by rw [if_pos hne]; exact hfold)
    (by rw [remapChildren_id]; exact hid0)
    (by rw [remapChildren_children, hch0])

/-- **C6.** Paste remapping: every pasted node appears under its fresh id
with its children rewritten through the old-id → new-id table; the table is
defined exactly on the copied node ids and is injective (the branching
shape is mirrored); every remapped child reference resolves to a pasted
node (nothing dangles); the selection afterwards is exactly the list of
fresh node ids (and fresh drawing ids), which are pairwise distinct.  The
id supply is assumed injective, as the source assumes of its random ids. -/
theorem claim_C6 (s : EngineState) (freshIds : Nat → String) (targetX targetY : Rat)
    (hinj : ∀ i j, freshIds i = freshIds j → i = j)
    (hkeys : ∀ q ∈ s.nodes, q.2.id = q.1) (hnd : (s.nodes.map Prod.fst).Nodup) :
    (∀ i item nd, s.clipboard.get? i = some item →
      item.kind = ClipKind.node → item.nodeData = some nd →
      ∃ n', mapGet (pasteNodes s freshIds targetX targetY).nodes (freshIds i) = some n' ∧
        n'.id = freshIds i ∧
        n'.children = nd.children.map (fun cs =>
          cs.filterMap (fun c => mapGet (pasteIdMap s.clipboard freshIds) c))) ∧
    (∀ k, (mapGet (pasteIdMap s.clipboard freshIds) k).isSome = true ↔
      ∃ it ∈ s.clipboard, it.kind = ClipKind.node ∧
        ∃ nd : ChartNode, it.nodeData = some nd ∧ nd.id = k) ∧
    (∀ a b x, mapGet (pasteIdMap s.clipboard freshIds) a = some x →
      mapGet (pasteIdMap s.clipboard freshIds) b = some x → a = b) ∧
    (∀ k x, mapGet (pasteIdMap s.clipboard freshIds) k = some x →
      ∃ n', mapGet (pasteNodes s freshIds targetX targetY).nodes x = some n' ∧
        n'.id = x) ∧
    (s.clipboard ≠ [] →
      (pasteNodes s freshIds targetX targetY).selectedNodeIds
          = clipFreshIds isNodeItem s.clipboard freshIds ∧
      (pasteNodes s freshIds targetX targetY).selectedDrawingIds
          = clipFreshIds isDrawingItem s.clipboard freshIds) ∧
    (clipFreshIds isNodeItem s.clipboard freshIds).Nodup := by
  refine ⟨?_, ?_, ?_, ?_, ?_, clipFreshIds_nodup isNodeItem s.clipboard freshIds hinj⟩
  · intro i item nd hget hk hd
    exact paste_get_new s freshIds targetX targetY hinj hkeys hnd (i, item)
      (get?_mem_enum s.clipboard i item hget) nd hk hd
  · intro k
    constructor
    · intro h
      rcases Option.isSome_iff_exists.mp h with ⟨x, hx⟩
      rcases pasteIdStep_fold_get freshIds s.clipboard.enum [] k x hx with h1 | h1
      · obtain ⟨p, hp, nd, hk, hd, hid, _⟩ := h1
        exact ⟨p.2, mem_of_mem_enumFrom s.clipboard 0 p hp, hk, nd, hd, hid⟩
      · exact absurd h1 (by simp [mapGet])
    · rintro ⟨it, hit, hk, nd, hd, hid⟩
      obtain ⟨i, hgi⟩ := List.mem_iff_get?.mp hit
      exact pasteIdStep_fold_isSome_of_mem freshIds s.clipboard.enum [] k
        ⟨(i, it), get?_mem_enum s.clipboard i it hgi, nd, hk, hd, hid⟩
  · intro a b x ha hb
    rcases pasteIdStep_fold_get freshIds s.clipboard.enum [] a x ha with h1 | h1
    · rcases pasteIdStep_fold_get freshIds s.clipboard.enum [] b x hb with h2 | h2
      · obtain ⟨p, hp, ndp, hkp, hdp, hidp, hxp⟩ := h1
        obtain ⟨q, hq, ndq, hkq, hdq, hidq, hxq⟩ := h2
        have hij : p.1 = q.1 := hinj p.1 q.1 (hxp ▸ hxq ▸ rfl)
        have hpq : p = q := map_nodup_inj_mem (enum_fst_nodup s.clipboard) hp hq hij
        rw [hpq] at hdp
        rw [hdp] at hdq
        injection hdq with hnd
        rw [← hidp, ← hidq, hnd]
      · exact absurd h2 (by simp [mapGet])
    · exact absurd h1 (by simp [mapGet])
  · intro k x hx
    rcases pasteIdStep_fold_get freshIds s.clipboard.enum [] k x hx with h1 | h1
    · obtain ⟨p, hp, nd, hk, hd, _, hxe⟩ := h1
      subst hxe
      obtain ⟨n', hn', hid', _⟩ :=
        paste_get_new s freshIds targetX targetY hinj hkeys hnd p hp nd hk hd
      exact ⟨n', hn', hid'⟩
    · exact absurd h1 (by simp [mapGet])
  · intro hne
    have hcb : ¬ (s.clipboard.isEmpty = true) := by
      intro he
      exact hne (List.isEmpty_iff.mp he)
    constructor
    · unfold pasteNodes
      rw [if_neg hcb]
      simp only []
      rw [pasteApplyMembership_selectedN]
      show ((pasteNewItems s.clipboard freshIds targetX targetY (pasteMinX s.clipboard)
          (pasteMinY s.clipboard)).map (remapChildren (pasteIdMap s.clipboard freshIds))).foldl
            (fun l it => setAdd l it.node.id) []
        = clipFreshIds isNodeItem s.clipboard freshIds
      rw [foldl_setAdd_eq (fun it : NewItem => it.node.id) _ []
        (by rw [List.nil_append, pasteNewItems_ids_eq]
            exact clipFreshIds_nodup isNodeItem s.clipboard freshIds hinj)]
      rw [List.nil_append, pasteNewItems_ids_eq]
    · unfold pasteNodes
      rw [if_neg hcb]
      simp only []
      rw [pasteApplyMembership_selectedD]
      show (pasteNewDrawings s.clipboard freshIds targetX targetY (pasteMinX s.clipboard)
          (pasteMinY s.clipboard)).foldl (fun l d => setAdd l d.id) []
        = clipFreshIds isDrawingItem s.clipboard freshIds
      rw [foldl_setAdd_eq (fun d : Drawing => d.id) _ []
        (by rw [List.nil_append, pasteNewDrawings_ids_eq]
            exact clipFreshIds_nodup isDrawingItem s.clipboard freshIds hinj)]
      rw [List.nil_append, pasteNewDrawings_ids_eq]

/-- Witness for C6: the pasted parent keeps exactly its copied child under
the child's fresh id, the uncopied reference "q" is dropped, and the
selection is the two fresh ids. -/
theorem claim_C6_witness :
    (∀ i j, wFresh i = wFresh j → i = j) ∧
    (∃ n', mapGet (pasteNodes pasteWitnessState wFresh 100 200).nodes (wFresh 0) = some n' ∧
      n'.id = wFresh 0 ∧
      n'.children = (some ["c", "q"]).map (fun cs =>
        cs.filterMap (fun c => mapGet (pasteIdMap pasteWitnessState.clipboard wFresh) c))) ∧
    (pasteNodes pasteWitnessState wFresh 100 200).selectedNodeIds
      = clipFreshIds isNodeItem pasteWitnessState.clipboard wFresh ∧
    (some ["c", "q"]).map (fun cs =>
        cs.filterMap (fun c => mapGet (pasteIdMap pasteWitnessState.clipboard wFresh) c))
      = some [wFresh 1] ∧
    clipFreshIds isNodeItem pasteWitnessState.clipboard wFresh = [wFresh 0, wFresh 1] := by
  have hinj : ∀ i j, wFresh i = wFresh j → i = j := by
    intro i j h
    have h2 := congrArg (fun t => t.data.length) h
    simp only [wFresh, List.length_replicate] at h2
    omega
  refine ⟨hinj, ?_, ?_, by decide, by decide⟩
  · exact (claim_C6 pasteWitnessState wFresh 100 200 hinj (by decide) (by decide)).1 0 _ _ rfl rfl rfl
  · exact ((claim_C6 pasteWitnessState wFresh 100 200 hinj (by decide)
      (by decide)).2.2.2.2.1 (by decide)).1

theorem pathThrough_append (m : NodeMap) :
    ∀ (cs : List String) (a b c : String),
      pathThrough m a cs b → childEdge m b c → pathThrough m a (cs ++ [b]) c := by
  intro cs
  induction cs with
  | nil => intro a b c h1 h2; exact ⟨h1, h2⟩
  | cons d cs ih =>
    intro a b c h1 h2
    exact ⟨h1.1, ih d b c h1.2 h2⟩

theorem transGen_iff_path (m : NodeMap) (a b : String) :
    Relation.TransGen (childEdge m) a b ↔ ∃ cs, pathThrough m a cs b := by
  constructor
  · intro h
    induction h with
    | single h1 => exact ⟨[], h1⟩
    | tail _ h2 ih =>
      obtain ⟨cs, hp⟩ := ih
      exact ⟨cs ++ [_], pathThrough_append m cs a _ _ hp h2⟩
  · rintro ⟨cs, hp⟩
    induction cs generalizing a with
    | nil => exact Relation.TransGen.single hp
    | cons c cs ih => exact Relation.TransGen.head hp.1 (ih c hp.2)

theorem childEdge_key (m : NodeMap) (a b : String) (h : childEdge m a b) :
    a ∈ m.map Prod.fst := by
  obtain ⟨n, hn, _⟩ := h
  obtain ⟨pr, hfind, hfst, _⟩ := (mapGet_eq_some_iff _ _ _).mp hn
  rw [← hfst]
  exact List.mem_map_of_mem Prod.fst (List.mem_of_find?_eq_some hfind)

theorem path_sources (m : NodeMap) :
    ∀ (cs : List String) (a b : String), pathThrough m a cs b →
      (a :: cs) ⊆ m.map Prod.fst := by
  intro cs
  induction cs with
  | nil =>
    intro a b h x hx
    rcases List.mem_cons.mp hx with h1 | h1
    · exact h1 ▸ childEdge_key m a b h
    · exact absurd h1 (List.not_mem_nil x)
  | cons c cs ih =>
    intro a b h x hx
    rcases List.mem_cons.mp hx with h1 | h1
    · exact h1 ▸ childEdge_key m a c h.1
    · exact ih c b h.2 h1

theorem pathThrough_suffix (m : NodeMap) :
    ∀ (l1 : List String) (a c : String) (l2 : List String) (b : String),
      pathThrough m a (l1 ++ c :: l2) b → pathThrough m c l2 b := by
  intro l1
  induction l1 with
  | nil => intro a c l2 b h; exact h.2
  | cons d l1 ih => intro a c l2 b h; exact ih d c l2 b h.2

theorem pathThrough_nodup (m : NodeMap) :
    ∀ (cs : List String) (a b : String), pathThrough m a cs b →
      ∃ cs', pathThrough m a cs' b ∧ (a :: cs').Nodup := by
  intro cs
  induction cs with
  | nil =>
    intro a b h
    exact ⟨[], h, by simp⟩
  | cons c cs ih =>
    intro a b h
    obtain ⟨cs', hp', hnd'⟩ := ih c b h.2
    by_cases ha : a ∈ c :: cs'
    · rcases List.mem_cons.mp ha with h1 | h1
      · subst h1
        exact ⟨cs', hp', hnd'⟩
      · obtain ⟨l1, l2, hsplit⟩ := List.append_of_mem h1
        rw [hsplit] at hp' hnd'
        refine ⟨l2, pathThrough_suffix m l1 c a l2 b hp', ?_⟩
        rw [show c :: (l1 ++ a :: l2) = (c :: l1) ++ (a :: l2) from rfl] at hnd'
        exact (List.nodup_append.mp hnd').2.1
    · exact ⟨c :: cs', ⟨h.1, hp'⟩, List.nodup_cons.mpr ⟨ha, hnd'⟩⟩

theorem isDescendant_of_path (m : NodeMap) :
    ∀ (cs : List String) (a b : String) (fuel : Nat),
      pathThrough m a cs b → cs.length + 1 ≤ fuel →
      isDescendant m fuel a b = true := by
  intro cs
  induction cs with
  | nil =>
    intro a b fuel h hf
    obtain ⟨n, hn, hb⟩ := h
    cases fuel with
    | zero => omega
    | succ f =>
      show (match mapGet m a with
        | none => false
        | some node => (node.children.getD []).any
            (fun childId => childId = b || isDescendant m f childId b)) = true
      rw [hn]
      exact List.any_eq_true.mpr ⟨b, hb, by simp⟩
  | cons c cs ih =>
    intro a b fuel h hf
    cases fuel with
    | zero => omega
    | succ f =>
      obtain ⟨⟨n, hn, hc⟩, hp⟩ := h
      show (match mapGet m a with
        | none => false
        | some node => (node.children.getD []).any
            (fun childId => childId = b || isDescendant m f childId b)) = true
      rw [hn]
      refine List.any_eq_true.mpr ⟨c, hc, ?_⟩
      rw [ih c b f hp (by simp at hf; omega)]
      simp

theorem transGen_of_isDescendant (m : NodeMap) :
    ∀ (fuel : Nat) (a b : String), isDescendant m fuel a b = true →
      Relation.TransGen (childEdge m) a b := by
  intro fuel
  induction fuel with
  | zero => intro a b h; exact absurd h (by simp [isDescendant])
  | succ f ih =>
    intro a b h
    have h' : (match mapGet m a with
      | none => false
      | some node => (node.children.getD []).any
          (fun childId => childId = b || isDescendant m f childId b)) = true := h
    cases hm : mapGet m a with
    | none => rw [hm] at h'; exact absurd h' (by simp)
    | some node =>
      rw [hm] at h'
      obtain ⟨c, hc, hpc⟩ := List.any_eq_true.mp h'
      have hpc' : c = b ∨ isDescendant m f c b = true := by simpa using hpc
      rcases hpc' with h1 | h1
      · exact Relation.TransGen.single ⟨node, hm, h1 ▸ hc⟩
      · exact Relation.TransGen.head ⟨node, hm, hc⟩ (ih c b h1)

theorem isDescendant_of_transGen (m : NodeMap) (a b : String)
    (h : Relation.TransGen (childEdge m) a b) :
    isDescendant m m.length a b = true := by
  obtain ⟨cs, hp⟩ := (transGen_iff_path m a b).mp h
  obtain ⟨cs', hp', hnd⟩ := pathThrough_nodup m cs a b hp
  have hsub := path_sources m cs' a b hp'
  have hlen := (List.subperm_of_subset hnd hsub).length_le
  rw [List.length_cons, List.length_map] at hlen
  exact isDescendant_of_path m cs' a b m.length hp' hlen

theorem mapGet_map_val (f : String × ChartNode → String × ChartNode)
    (hf : ∀ p, (f p).1 = p.1) (g : ChartNode → ChartNode)
    (hg : ∀ p, (f p).2 = g p.2) (m : NodeMap) (k : String) :
    mapGet (m.map f) k = (mapGet m k).map g := by
  rw [mapGet_map_keyfix f hf]
  unfold mapGet
  cases m.find? (fun p => p.1 = k) with
  | none => rfl
  | some pr =>
    show some (f pr).2 = some (g pr.2)
    rw [hg]

theorem mapGet_removeFromParent (m : NodeMap) (cid x : String)
    (hkeys : ∀ p ∈ m, p.2.id = p.1) (hnd : (m.map Prod.fst).Nodup) :
    mapGet (removeFromParent m cid) x = (mapGet m x).map (fun n =>
      if (n.children.getD []).contains cid then
        { n with children := some ((n.children.getD []).filter (fun c => c ≠ cid)) }
      else n) := by
  rw [removeFromParent_aligned m cid hkeys hnd]
  exact mapGet_map_val _
    (fun p => by
      by_cases h : (p.2.children.getD []).contains cid = true
      · rw [if_pos h]
      · rw [if_neg h])
    _
    (fun p => by
      by_cases h : (p.2.children.getD []).contains cid = true
      · rw [if_pos h, if_pos h]
      · rw [if_neg h, if_neg h])
    m x

theorem childEdge_removeFromParent (m : NodeMap) (cid x y : String)
    (hkeys : ∀ p ∈ m, p.2.id = p.1) (hnd : (m.map Prod.fst).Nodup)
    (h : childEdge (removeFromParent m cid) x y) : childEdge m x y := by
  obtain ⟨n, hn, hy⟩ := h
  rw [mapGet_removeFromParent m cid x hkeys hnd] at hn
  rcases Option.map_eq_some'.mp hn with ⟨n0, hn0, hmap⟩
  refine ⟨n0, hn0, ?_⟩
  by_cases hc : (n0.children.getD []).contains cid = true
  · rw [if_pos hc] at hmap
    rw [← hmap] at hy
    have : y ∈ (n0.children.getD []).filter (fun c => c ≠ cid) := by simpa using hy
    exact List.mem_of_mem_filter this
  · rw [if_neg hc] at hmap
    exact hmap ▸ hy

theorem childEdge_linkNodesMap (m : NodeMap) (src tgt x y : String)
    (hkeys : ∀ p ∈ m, p.2.id = p.1) (hnd : (m.map Prod.fst).Nodup)
    (h : childEdge (linkNodesMap m src tgt) x y) :
    childEdge m x y ∨ (x = src ∧ y = tgt) := by
  unfold linkNodesMap at h
  cases hs : mapGet m src with
  | none => rw [hs] at h; exact Or.inl h
  | some node =>
    rw [hs] at h
    obtain ⟨n, hn, hy⟩ := h
    rw [mapGet_mapSet] at hn
    by_cases hx : x = src
    · rw [if_pos hx] at hn
      injection hn with hn
      rw [← hn] at hy
      have hy' : y ∈ node.children.getD [] ++ [tgt] := by simpa using hy
      rcases List.mem_append.mp hy' with h1 | h1
      · exact Or.inl ⟨node, hx ▸ hs, h1⟩
      · exact Or.inr ⟨hx, by simpa using h1⟩
    · rw [if_neg hx] at hn
      exact Or.inl (childEdge_removeFromParent m tgt x y hkeys hnd ⟨n, hn, hy⟩)

theorem transGen_union_single {r : String → String → Prop} {src tgt : String} :
    ∀ {x y : String},
      Relation.TransGen (fun a b => r a b ∨ (a = src ∧ b = tgt)) x y →
      Relation.TransGen r x y ∨
        (Relation.ReflTransGen r x src ∧ Relation.ReflTransGen r tgt y) := by
  intro x y h
  induction h with
  | single h1 =>
    rcases h1 with h1 | ⟨h1, h2⟩
    · exact Or.inl (Relation.TransGen.single h1)
    · subst h1; subst h2
      exact Or.inr ⟨Relation.ReflTransGen.refl, Relation.ReflTransGen.refl⟩
  | tail _ h2 ih =>
    rcases ih with h3 | ⟨h3, h4⟩
    · rcases h2 with h5 | ⟨h5, h6⟩
      · exact Or.inl (h3.tail h5)
      · subst h5; subst h6
        exact Or.inr ⟨h3.to_reflTransGen, Relation.ReflTransGen.refl⟩
    · rcases h2 with h5 | ⟨h5, h6⟩
      · exact Or.inr ⟨h3, h4.tail h5⟩
      · subst h5; subst h6
        exact Or.inr ⟨h3, Relation.ReflTransGen.refl⟩

theorem linkNodesMap_acyclic (m : NodeMap) (src tgt : String) (hst : src ≠ tgt)
    (hkeys : ∀ p ∈ m, p.2.id = p.1) (hnd : (m.map Prod.fst).Nodup)
    (hac : Acyclic m) (hnp : ¬ Relation.TransGen (childEdge m) tgt src) :
    Acyclic (linkNodesMap m src tgt) := by
  intro a ha
  have hmono : Relation.TransGen
      (fun u v => childEdge m u v ∨ (u = src ∧ v = tgt)) a a :=
    Relation.TransGen.mono (fun u v h => childEdge_linkNodesMap m src tgt u v hkeys hnd h) ha
  rcases transGen_union_single hmono with h1 | ⟨h1, h2⟩
  · exact hac a h1
  · have h3 : Relation.ReflTransGen (childEdge m) tgt src := h2.trans h1
    rcases Relation.reflTransGen_iff_eq_or_transGen.mp h3 with h4 | h4
    · exact hst h4
    · exact hnp h4

theorem linkNodes_acyclic (s : EngineState) (a b : String)
    (hkeys : ∀ p ∈ s.nodes, p.2.id = p.1) (hnd : (s.nodes.map Prod.fst).Nodup)
    (hac : Acyclic s.nodes) :
    Acyclic (linkNodes s a b).nodes := by
  unfold linkNodes
  split
  · exact hac
  · split
    · exact hac
    · split
      · exact hac
      · rename_i h1 _ h3
        simp only []
        show Acyclic (linkNodesMap s.nodes a b)
        exact linkNodesMap_acyclic s.nodes a b h1 hkeys hnd hac
          (fun htg => h3 (isDescendant_of_transGen s.nodes b a htg))

theorem linkNodes_inv (s : EngineState) (a b : String)
    (hkeys : ∀ p ∈ s.nodes, p.2.id = p.1) (hnd : (s.nodes.map Prod.fst).Nodup) :
    (∀ p ∈ (linkNodes s a b).nodes, p.2.id = p.1) ∧
    (((linkNodes s a b).nodes.map Prod.fst).Nodup) := by
  unfold linkNodes
  split
  · exact ⟨hkeys, hnd⟩
  · split
    · exact ⟨hkeys, hnd⟩
    · split
      · exact ⟨hkeys, hnd⟩
      · show (∀ p ∈ linkNodesMap s.nodes a b, p.2.id = p.1) ∧
          ((linkNodesMap s.nodes a b).map Prod.fst).Nodup
        unfold linkNodesMap
        cases hs : mapGet s.nodes a with
        | none => exact ⟨hkeys, hnd⟩
        | some node =>
          obtain ⟨hk1, he1⟩ := removeFromParent_inv s.nodes b hkeys hnd
          refine ⟨mapSet_hkeys _ a _ hk1 ?_,
            mapSet_keys_nodup _ a _ (by rw [he1]; exact hnd)⟩
          show node.id = a
          exact mapGet_id s.nodes hkeys a node hs

/-- An adjacency is acyclic as soon as the fueled self-reachability check
fails on every key. -/
theorem acyclic_of_isDescendant_false (m : NodeMap)
    (hm : ∀ k ∈ m.map Prod.fst, isDescendant m m.length k k = false) : Acyclic m := by
  intro a h
  obtain ⟨cs, hp⟩ := (transGen_iff_path m a a).mp h
  have h1 : ∃ c, childEdge m a c := by
    cases cs with
    | nil => exact ⟨a, hp⟩
    | cons d cs => exact ⟨d, hp.1⟩
  obtain ⟨c, n, hn, _⟩ := h1
  have hk : a ∈ m.map Prod.fst := by
    by_contra hk
    rw [(mapGet_eq_none_iff m a).mpr hk] at hn
    exact absurd hn (by simp)
  have hd := isDescendant_of_transGen m a a h
  rw [hm a hk] at hd
  exact absurd hd (by simp)

/-- **C3 counterexample.** A state holding a record whose `id` field
differs from its map key (installable through `importFromJson`): the
`removeFromParent` pass of a *successful* `linkNodes("s","t")` executes
`map.set('y', …)`, inserting a copy of the record under `'y'` while the
entry at `'k'` keeps its children — creating the cycle `q → y → q` in an
adjacency that was acyclic before the call. -/
theorem claim_C3_counterexample :
    Acyclic misalignedLinkState.nodes ∧
    ¬ Acyclic (linkNodes misalignedLinkState "s" "t").nodes := by
  constructor
  · exact acyclic_of_isDescendant_false misalignedLinkState.nodes (by decide)
  · intro hac
    have h1 : childEdge (linkNodes misalignedLinkState "s" "t").nodes "q" "y" :=
      ⟨{ defaultNode "q" NodeType.manager with children := some ["y"] }, by decide, by decide⟩
    have h2 : childEdge (linkNodes misalignedLinkState "s" "t").nodes "y" "q" :=
      ⟨{ defaultNode "y" NodeType.manager with children := some ["q"] }, by decide, by decide⟩
    exact hac "q" (Relation.TransGen.head h1 (Relation.TransGen.single h2))

/-- **C3 (amended).** From an acyclic adjacency whose records are stored
under their own ids with duplicate-free keys — the invariant every engine
constructor maintains, broken only by importing misaligned data — any
sequence of `linkNodes` calls (successful or not) keeps the adjacency
acyclic: no node ever reaches itself through `children`; and a link whose
prospective parent is already a descendant of the prospective child leaves
the state unchanged (this second half needs no invariant). -/
theorem claim_C3_amended :
    (∀ (calls : List (String × String)) (s : EngineState),
      (∀ p ∈ s.nodes, p.2.id = p.1) → ((s.nodes.map Prod.fst).Nodup) → Acyclic s.nodes →
      Acyclic (calls.foldl (fun st pq => linkNodes st pq.1 pq.2) s).nodes) ∧
    (∀ (s : EngineState) (sourceId targetId : String),
      Relation.TransGen (childEdge s.nodes) targetId sourceId →
      linkNodes s sourceId targetId = s) := by
  constructor
  · intro calls
    induction calls with
    | nil => intro s _ _ hac; exact hac
    | cons pq calls ih =>
      intro s hkeys hnd hac
      obtain ⟨hk1, hnd1⟩ := linkNodes_inv s pq.1 pq.2 hkeys hnd
      exact ih (linkNodes s pq.1 pq.2) hk1 hnd1
        (linkNodes_acyclic s pq.1 pq.2 hkeys hnd hac)
  · intro s sourceId targetId h
    unfold linkNodes
    split
    · rfl
    · split
      · rfl
      · split
        · rfl
        · rename_i h3
          exact absurd (isDescendant_of_transGen s.nodes targetId sourceId h) h3

theorem childEdge_none (m : NodeMap) (hm : ∀ p ∈ m, p.2.children.getD [] = [])
    (x y : String) : ¬ childEdge m x y := by
  rintro ⟨n, hn, hy⟩
  obtain ⟨pr, hfind, _, h2⟩ := (mapGet_eq_some_iff _ _ _).mp hn
  rw [← h2, hm pr (List.mem_of_find?_eq_some hfind)] at hy
  exact absurd hy (List.not_mem_nil y)

theorem acyclic_of_no_edges (m : NodeMap) (hm : ∀ p ∈ m, p.2.children.getD [] = []) :
    Acyclic m := by
  intro a h
  cases h with
  | single h1 => exact childEdge_none m hm a a h1
  | tail _ h1 => exact childEdge_none m hm _ a h1

/-- Witness for the amended C3: two successful links keep the aligned start
acyclic, and the cycle-forming link "a" → "b" is rejected unchanged. -/
theorem claim_C3_witness :
    (Acyclic linkWitnessStart.nodes ∧
      Acyclic (([("a", "b"), ("b", "c")] : List (String × String)).foldl
        (fun st pq => linkNodes st pq.1 pq.2) linkWitnessStart).nodes) ∧
    (Relation.TransGen (childEdge cycleWitnessState.nodes) "b" "a" ∧
      linkNodes cycleWitnessState "a" "b" = cycleWitnessState) := by
  have hac : Acyclic linkWitnessStart.nodes :=
    acyclic_of_no_edges linkWitnessStart.nodes (by decide)
  have htg : Relation.TransGen (childEdge cycleWitnessState.nodes) "b" "a" :=
    Relation.TransGen.single
      ⟨{ defaultNode "b" NodeType.manager with children := some ["a"] }, rfl, by decide⟩
  exact ⟨⟨hac, claim_C3_amended.1 [("a", "b"), ("b", "c")] linkWitnessStart
          (by decide) (by decide) hac⟩,
         ⟨htg, claim_C3_amended.2 cycleWitnessState "a" "b" htg⟩⟩

theorem jsOr_ne_zero (v : Option Rat) (d : Rat) (hd : d ≠ 0) : jsOr v d ≠ 0 := by
  unfold jsOr
  cases v with
  | none => exact hd
  | some x =>
    show (if x = 0 then d else x) ≠ 0
    by_cases h : x = 0
    · rw [if_pos h]; exact hd
    · rw [if_neg h]; exact h

theorem jsOr_stable (v : Option Rat) (d : Rat) (hd : d ≠ 0) :
    jsOr (some (jsOr v d)) d = jsOr v d := by
  show (if jsOr v d = 0 then d else jsOr v d) = jsOr v d
  rw [if_neg (jsOr_ne_zero v d hd)]

theorem mapSet_keys (m : List (String × α)) (k : String) (v : α) :
    (mapSet m k v).map Prod.fst = m.map Prod.fst ∨
    (mapSet m k v).map Prod.fst = m.map Prod.fst ++ [k] := by
  unfold mapSet
  split
  · left
    rw [List.map_map]
    refine List.map_congr_left ?_
    intro p _
    by_cases h : p.1 = k
    · show ((if p.1 = k then (k, v) else p)).1 = p.1
      rw [if_pos h]; exact h.symm
    · show ((if p.1 = k then (k, v) else p)).1 = p.1
      rw [if_neg h]
  · right
    rw [List.map_append]
    rfl

/-- In a key-consistent, duplicate-free map, values are determined by their
id. -/
theorem value_unique (m : NodeMap) (hkeys : ∀ p ∈ m, p.2.id = p.1)
    (hnd : (m.map Prod.fst).Nodup) (n1 n2 : ChartNode)
    (h1 : n1 ∈ m.map Prod.snd) (h2 : n2 ∈ m.map Prod.snd) (he : n1.id = n2.id) :
    n1 = n2 := by
  obtain ⟨p1, hp1, hv1⟩ := List.mem_map.mp h1
  obtain ⟨p2, hp2, hv2⟩ := List.mem_map.mp h2
  have hk1 : n1.id = p1.1 := by rw [← hv1]; exact hkeys p1 hp1
  have hk2 : n2.id = p2.1 := by rw [← hv2]; exact hkeys p2 hp2
  have hpp : p1 = p2 := map_nodup_inj_mem hnd hp1 hp2 (by rw [← hk1, ← hk2, he])
  rw [← hv1, ← hv2, hpp]

/-- A value found by `mapGet` is a value of the map. -/
theorem mapGet_mem_values (m : NodeMap) (k : String) (n : ChartNode)
    (h : mapGet m k = some n) : n ∈ m.map Prod.snd := by
  obtain ⟨pr, hfind, _, h2⟩ := (mapGet_eq_some_iff _ _ _).mp h
  rw [← h2]
  exact List.mem_map_of_mem Prod.snd (List.mem_of_find?_eq_some hfind)

/-- In a key-consistent duplicate-free map, the value of a map entry is
recovered by `mapGet` at its id. -/
theorem mapGet_value (m : NodeMap) (hkeys : ∀ p ∈ m, p.2.id = p.1)
    (hnd : (m.map Prod.fst).Nodup) (n : ChartNode) (h : n ∈ m.map Prod.snd) :
    mapGet m n.id = some n := by
  obtain ⟨p, hp, hv⟩ := List.mem_map.mp h
  have hk : n.id = p.1 := by rw [← hv]; exact hkeys p hp
  cases hg : mapGet m n.id with
  | none =>
    rw [mapGet_eq_none_iff] at hg
    exact absurd (hk ▸ List.mem_map_of_mem Prod.fst hp) hg
  | some n' =>
    have hmem' : n' ∈ m.map Prod.snd := mapGet_mem_values m n.id n' hg
    obtain ⟨pr, hfind, hfst, hsnd⟩ := (mapGet_eq_some_iff _ _ _).mp hg
    have hid' : n'.id = n.id := by
      rw [← hsnd, hkeys pr (List.mem_of_find?_eq_some hfind), hfst]
    rw [value_unique m hkeys hnd n' n hmem' h hid']

theorem agreeOn_mapSet (S : String → Prop) (a1 a2 : PosMap) (h : agreeOn S a1 a2)
    (k : String) (v1 v2 : NodePosition) (hv : S k → v1 = v2) :
    agreeOn S (mapSet a1 k v1) (mapSet a2 k v2) := by
  constructor
  · intro id hSid
    rw [mapGet_mapSet, mapGet_mapSet]
    by_cases hk : id = k
    · rw [if_pos hk, if_pos hk, hv (hk ▸ hSid)]
    · rw [if_neg hk, if_neg hk]; exact h.1 id hSid
  · intro id
    rw [isSome_mapGet_mapSet, isSome_mapGet_mapSet]
    by_cases hk : id = k
    · rw [if_pos hk, if_pos hk]
    · rw [if_neg hk, if_neg hk]; exact h.2 id

/-- `executeLayout` runs in lockstep under two current-position maps whose
width/height reads agree on `S`: the outputs agree on `S` and have the same
keys everywhere (the cursor arithmetic depends only on the node map). -/
theorem exec_agree (m : NodeMap) (cur1 cur2 : PosMap) (S : String → Prop)
    (hS : ∀ id, S id → whOf cur1 id = whOf cur2 id) :
    ∀ (fuel : Nat) (nid : String) (x : Rat) (d : Nat) (a1 a2 : PosMap),
      agreeOn S a1 a2 →
      agreeOn S (executeLayout m cur1 fuel nid x d a1)
        (executeLayout m cur2 fuel nid x d a2) := by
  intro fuel
  induction fuel with
  | zero => intro nid x d a1 a2 h; exact h
  | succ f ih =>
    have hinner : ∀ (d : Nat) (cs : List String) (t1 t2 : Bool × Rat × PosMap),
        t1.1 = t2.1 → t1.2.1 = t2.2.1 → agreeOn S t1.2.2 t2.2.2 →
        (cs.foldl (fun (st2 : Bool × Rat × PosMap) childId =>
            let cx := if st2.1 then st2.2.1 + NODE_MARGIN else st2.2.1
            let childW := measureSubtree m f childId
            let acc2 := executeLayout m cur1 f childId cx (d + 1) st2.2.2
            (true, (cx + childW, acc2))) t1).1
          = (cs.foldl (fun (st2 : Bool × Rat × PosMap) childId =>
            let cx := if st2.1 then st2.2.1 + NODE_MARGIN else st2.2.1
            let childW := measureSubtree m f childId
            let acc2 := executeLayout m cur2 f childId cx (d + 1) st2.2.2
            (true, (cx + childW, acc2))) t2).1 ∧
        (cs.foldl (fun (st2 : Bool × Rat × PosMap) childId =>
            let cx := if st2.1 then st2.2.1 + NODE_MARGIN else st2.2.1
            let childW := measureSubtree m f childId
            let acc2 := executeLayout m cur1 f childId cx (d + 1) st2.2.2
            (true, (cx + childW, acc2))) t1).2.1
          = (cs.foldl (fun (st2 : Bool × Rat × PosMap) childId =>
            let cx := if st2.1 then st2.2.1 + NODE_MARGIN else st2.2.1
            let childW := measureSubtree m f childId
            let acc2 := executeLayout m cur2 f childId cx (d + 1) st2.2.2
            (true, (cx + childW, acc2))) t2).2.1 ∧
        agreeOn S
          (cs.foldl (fun (st2 : Bool × Rat × PosMap) childId =>
            let cx := if st2.1 then st2.2.1 + NODE_MARGIN else st2.2.1
            let childW := measureSubtree m f childId
            let acc2 := executeLayout m cur1 f childId cx (d + 1) st2.2.2
            (true, (cx + childW, acc2))) t1).2.2
          (cs.foldl (fun (st2 : Bool × Rat × PosMap) childId =>
            let cx := if st2.1 then st2.2.1 + NODE_MARGIN else st2.2.1
            let childW := measureSubtree m f childId
            let acc2 := executeLayout m cur2 f childId cx (d + 1) st2.2.2
            (true, (cx + childW, acc2))) t2).2.2 := by
      intro d cs
      induction cs with
      | nil => intro t1 t2 h1 h2 h3; exact ⟨h1, h2, h3⟩
      | cons c cs ihc =>
        intro t1 t2 h1 h2 h3
        rw [List.foldl_cons, List.foldl_cons]
        refine ihc _ _ rfl ?_ ?_
        · show ((if t1.1 then t1.2.1 + NODE_MARGIN else t1.2.1) + measureSubtree m f c)
            = ((if t2.1 then t2.2.1 + NODE_MARGIN else t2.2.1) + measureSubtree m f c)
          rw [h1, h2]
        · show agreeOn S
            (executeLayout m cur1 f c (if t1.1 then t1.2.1 + NODE_MARGIN else t1.2.1)
              (d + 1) t1.2.2)
            (executeLayout m cur2 f c (if t2.1 then t2.2.1 + NODE_MARGIN else t2.2.1)
              (d + 1) t2.2.2)
          rw [h1, h2]
          exact ih c _ (d + 1) t1.2.2 t2.2.2 h3
    have houter : ∀ (d : Nat) (rs : List (String × List String)) (st1 st2 : Rat × PosMap),
        st1.1 = st2.1 → agreeOn S st1.2 st2.2 →
        (rs.foldl (fun (st : Rat × PosMap) r =>
            let cx0 := if strTruthy r.1 then st.1 + GROUP_PADDING else st.1
            let inner := r.2.foldl (fun (st2 : Bool × Rat × PosMap) childId =>
                let cx := if st2.1 then st2.2.1 + NODE_MARGIN else st2.2.1
                let childW := measureSubtree m f childId
                let acc2 := executeLayout m cur1 f childId cx (d + 1) st2.2.2
                (true, (cx + childW, acc2))) (false, (cx0, st.2))
            let cx1 := if strTruthy r.1 then inner.2.1 + GROUP_PADDING else inner.2.1
            (cx1 + GROUP_MARGIN, inner.2.2)) st1).1
          = (rs.foldl (fun (st : Rat × PosMap) r =>
            let cx0 := if strTruthy r.1 then st.1 + GROUP_PADDING else st.1
            let inner := r.2.foldl (fun (st2 : Bool × Rat × PosMap) childId =>
                let cx := if st2.1 then st2.2.1 + NODE_MARGIN else st2.2.1
                let childW := measureSubtree m f childId
                let acc2 := executeLayout m cur2 f childId cx (d + 1) st2.2.2
                (true, (cx + childW, acc2))) (false, (cx0, st.2))
            let cx1 := if strTruthy r.1 then inner.2.1 + GROUP_PADDING else inner.2.1
            (cx1 + GROUP_MARGIN, inner.2.2)) st2).1 ∧
        agreeOn S
          (rs.foldl (fun (st : Rat × PosMap) r =>
            let cx0 := if strTruthy r.1 then st.1 + GROUP_PADDING else st.1
            let inner := r.2.foldl (fun (st2 : Bool × Rat × PosMap) childId =>
                let cx := if st2.1 then st2.2.1 + NODE_MARGIN else st2.2.1
                let childW := measureSubtree m f childId
                let acc2 := executeLayout m cur1 f childId cx (d + 1) st2.2.2
                (true, (cx + childW, acc2))) (false, (cx0, st.2))
            let cx1 := if strTruthy r.1 then inner.2.1 + GROUP_PADDING else inner.2.1
            (cx1 + GROUP_MARGIN, inner.2.2)) st1).2
          (rs.foldl (fun (st : Rat × PosMap) r =>
            let cx0 := if strTruthy r.1 then st.1 + GROUP_PADDING else st.1
            let inner := r.2.foldl (fun (st2 : Bool × Rat × PosMap) childId =>
                let cx := if st2.1 then st2.2.1 + NODE_MARGIN else st2.2.1
                let childW := measureSubtree m f childId
                let acc2 := executeLayout m cur2 f childId cx (d + 1) st2.2.2
                (true, (cx + childW, acc2))) (false, (cx0, st.2))
            let cx1 := if strTruthy r.1 then inner.2.1 + GROUP_PADDING else inner.2.1
            (cx1 + GROUP_MARGIN, inner.2.2)) st2).2 := by
      intro d rs
      induction rs with
      | nil => intro st1 st2 h1 h2; exact ⟨h1, h2⟩
      | cons r rs ihr =>
        intro st1 st2 h1 h2
        rw [List.foldl_cons, List.foldl_cons]
        have hcx0 : (if strTruthy r.1 then st1.1 + GROUP_PADDING else st1.1)
            = (if strTruthy r.1 then st2.1 + GROUP_PADDING else st2.1) := by rw [h1]
        obtain ⟨_, hcx, hacc⟩ := hinner d r.2
          (false, ((if strTruthy r.1 then st1.1 + GROUP_PADDING else st1.1), st1.2))
          (false, ((if strTruthy r.1 then st2.1 + GROUP_PADDING else st2.1), st2.2))
          rfl hcx0 h2
        refine ihr _ _ ?_ ?_
        · show ((if strTruthy r.1 then _ + GROUP_PADDING else _) + GROUP_MARGIN)
            = ((if strTruthy r.1 then _ + GROUP_PADDING else _) + GROUP_MARGIN)
          rw [hcx]
        · exact hacc
    intro nid x d a1 a2 h
    unfold executeLayout
    cases hm : mapGet m nid with
    | none => exact h
    | some node =>
      simp only []
      have hset : agreeOn S
          (mapSet a1 nid
            { x := x + measureSubtree m (f + 1) nid / 2 - (whOf cur1 nid).1 / 2
              y := (d : Rat) * LEVEL_HEIGHT + 50
              width := some (whOf cur1 nid).1, height := some (whOf cur1 nid).2 })
          (mapSet a2 nid
            { x := x + measureSubtree m (f + 1) nid / 2 - (whOf cur2 nid).1 / 2
              y := (d : Rat) * LEVEL_HEIGHT + 50
              width := some (whOf cur2 nid).1, height := some (whOf cur2 nid).2 }) :=
        agreeOn_mapSet S a1 a2 h nid _ _ (fun hSnid => by rw [hS nid hSnid])
      by_cases hch : (node.children.getD []).isEmpty = true
      · rw [if_pos hch, if_pos hch]
        exact hset
      · rw [if_neg hch, if_neg hch]
        exact (houter d (deptRuns m (node.children.getD []))
          (x, mapSet a1 nid
            { x := x + measureSubtree m (f + 1) nid / 2 - (whOf cur1 nid).1 / 2
              y := (d : Rat) * LEVEL_HEIGHT + 50
              width := some (whOf cur1 nid).1, height := some (whOf cur1 nid).2 })
          (x, mapSet a2 nid
            { x := x + measureSubtree m (f + 1) nid / 2 - (whOf cur2 nid).1 / 2
              y := (d : Rat) * LEVEL_HEIGHT + 50
              width := some (whOf cur2 nid).1, height := some (whOf cur2 nid).2 })
          rfl hset).2

theorem roots_agree (m : NodeMap) (cur1 cur2 : PosMap) (S : String → Prop)
    (hS : ∀ id, S id → whOf cur1 id = whOf cur2 id) (fuel : Nat) :
    ∀ (roots : List ChartNode) (st1 st2 : Rat × PosMap),
      st1.1 = st2.1 → agreeOn S st1.2 st2.2 →
      (roots.foldl (alpRootStep m cur1 fuel) st1).1
        = (roots.foldl (alpRootStep m cur2 fuel) st2).1 ∧
      agreeOn S (roots.foldl (alpRootStep m cur1 fuel) st1).2
        (roots.foldl (alpRootStep m cur2 fuel) st2).2 := by
  intro roots
  induction roots with
  | nil => intro st1 st2 h1 h2; exact ⟨h1, h2⟩
  | cons root roots ih =>
    intro st1 st2 h1 h2
    rw [List.foldl_cons, List.foldl_cons]
    refine ih _ _ ?_ ?_
    · show st1.1 + measureSubtree m fuel root.id + GROUP_MARGIN + 200
        = st2.1 + measureSubtree m fuel root.id + GROUP_MARGIN + 200
      rw [h1]
    · show agreeOn S (executeLayout m cur1 fuel root.id st1.1 0 st1.2)
        (executeLayout m cur2 fuel root.id st2.1 0 st2.2)
      rw [h1]
      exact exec_agree m cur1 cur2 S hS fuel root.id st2.1 0 st1.2 st2.2 h2

theorem layoutInv_mapSet (cur acc : PosMap) (h : layoutInv cur acc) (k : String)
    (v : NodePosition) (hv : v.width = some (whOf cur k).1 ∧ v.height = some (whOf cur k).2) :
    layoutInv cur (mapSet acc k v) := by
  constructor
  · intro id u hu
    rw [mapGet_mapSet] at hu
    by_cases hk : id = k
    · rw [if_pos hk] at hu
      injection hu with hu
      rw [← hu, hk]
      exact hv
    · rw [if_neg hk] at hu
      exact h.1 id u hu
  · exact mapSet_keys_nodup acc k v h.2

/-- Every write of `executeLayout` stores the width/height read from `cur`
for the written id, and keeps keys duplicate-free. -/
theorem exec_inv (m : NodeMap) (cur : PosMap) :
    ∀ (fuel : Nat) (nid : String) (x : Rat) (d : Nat) (acc : PosMap),
      layoutInv cur acc → layoutInv cur (executeLayout m cur fuel nid x d acc) := by
  intro fuel
  induction fuel with
  | zero => intro nid x d acc h; exact h
  | succ f ih =>
    have hinner : ∀ (d : Nat) (cs : List String) (t : Bool × Rat × PosMap),
        layoutInv cur t.2.2 →
        layoutInv cur ((cs.foldl (fun (st2 : Bool × Rat × PosMap) childId =>
            let cx := if st2.1 then st2.2.1 + NODE_MARGIN else st2.2.1
            let childW := measureSubtree m f childId
            let acc2 := executeLayout m cur f childId cx (d + 1) st2.2.2
            (true, (cx + childW, acc2))) t)).2.2 := by
      intro d cs
      induction cs with
      | nil => intro t h; exact h
      | cons c cs ihc =>
        intro t h
        rw [List.foldl_cons]
        exact ihc _ (ih c _ (d + 1) t.2.2 h)
    have houter : ∀ (d : Nat) (rs : List (String × List String)) (st : Rat × PosMap),
        layoutInv cur st.2 →
        layoutInv cur ((rs.foldl (fun (st : Rat × PosMap) r =>
            let cx0 := if strTruthy r.1 then st.1 + GROUP_PADDING else st.1
            let inner := r.2.foldl (fun (st2 : Bool × Rat × PosMap) childId =>
                let cx := if st2.1 then st2.2.1 + NODE_MARGIN else st2.2.1
                let childW := measureSubtree m f childId
                let acc2 := executeLayout m cur f childId cx (d + 1) st2.2.2
                (true, (cx + childW, acc2))) (false, (cx0, st.2))
            let cx1 := if strTruthy r.1 then inner.2.1 + GROUP_PADDING else inner.2.1
            (cx1 + GROUP_MARGIN, inner.2.2)) st)).2 := by
      intro d rs
      induction rs with
      | nil => intro st h; exact h
      | cons r rs ihr =>
        intro st h
        rw [List.foldl_cons]
        exact ihr _ (hinner d r.2 _ h)
    intro nid x d acc h
    unfold executeLayout
    cases hm : mapGet m nid with
    | none => exact h
    | some node =>
      simp only []
      have hset : layoutInv cur (mapSet acc nid
          { x := x + measureSubtree m (f + 1) nid / 2 - (whOf cur nid).1 / 2
            y := (d : Rat) * LEVEL_HEIGHT + 50
            width := some (whOf cur nid).1, height := some (whOf cur nid).2 }) :=
        layoutInv_mapSet cur acc h nid _ ⟨rfl, rfl⟩
      by_cases hch : (node.children.getD []).isEmpty = true
      · rw [if_pos hch]
        exact hset
      · rw [if_neg hch]
        exact houter d (deptRuns m (node.children.getD [])) _ hset

theorem roots_inv (m : NodeMap) (cur : PosMap) (fuel : Nat) :
    ∀ (roots : List ChartNode) (st : Rat × PosMap),
      layoutInv cur st.2 →
      layoutInv cur ((roots.foldl (alpRootStep m cur fuel) st)).2 := by
  intro roots
  induction roots with
  | nil => intro st h; exact h
  | cons root roots ih =>
    intro st h
    rw [List.foldl_cons]
    exact ih _ (exec_inv m cur fuel root.id st.1 0 st.2 h)

theorem foldl_preserve_nodup {β : Type} (step : PosMap → β → PosMap)
    (hstep : ∀ acc b, step acc b = acc ∨ ∃ k v, step acc b = mapSet acc k v) :
    ∀ (l : List β) (acc : PosMap), ((acc.map Prod.fst).Nodup) →
      (((l.foldl step acc).map Prod.fst)).Nodup := by
  intro l
  induction l with
  | nil => intro acc h; exact h
  | cons b l ih =>
    intro acc h
    rw [List.foldl_cons]
    refine ih _ ?_
    rcases hstep acc b with h1 | ⟨k, v, h1⟩
    · rw [h1]; exact h
    · rw [h1]; exact mapSet_keys_nodup acc k v h

theorem alpTransferStep_cases (m : NodeMap) (acc : PosMap) (p : String × NodePosition) :
    alpTransferStep m acc p = acc ∨
      ∃ k v, alpTransferStep m acc p = mapSet acc k v := by
  unfold alpTransferStep
  cases mapGet m p.1 with
  | none => exact Or.inl rfl
  | some node =>
    show (if ¬ functionalTypes.contains node.type = true then mapSet acc p.1 p.2 else acc)
        = acc ∨
      ∃ k v, (if ¬ functionalTypes.contains node.type = true then mapSet acc p.1 p.2 else acc)
        = mapSet acc k v
    by_cases h : ¬ functionalTypes.contains node.type = true
    · rw [if_pos h]; exact Or.inr ⟨p.1, p.2, rfl⟩
    · rw [if_neg h]; exact Or.inl rfl

theorem alpGroupStep_cases (m : NodeMap) (acc : PosMap) (gr : ChartNode) :
    alpGroupStep m acc gr = acc ∨ ∃ k v, alpGroupStep m acc gr = mapSet acc k v := by
  unfold alpGroupStep
  by_cases h : (alpMembers m gr).isEmpty = true
  · rw [if_pos h]; exact Or.inl rfl
  · rw [if_neg h]
    simp only []
    cases (alpMembers m gr).foldl (alpBoundsStep acc) none with
    | none => exact Or.inl rfl
    | some b =>
      obtain ⟨mnX, mnY, mxX, mxY⟩ := b
      exact Or.inr ⟨gr.id, _, rfl⟩

theorem alpAnchorStep_cases (acc : PosMap) (p : String × Anchor) :
    alpAnchorStep acc p = acc ∨ ∃ k v, alpAnchorStep acc p = mapSet acc k v := by
  unfold alpAnchorStep
  cases mapGet acc p.2.groupId with
  | none => exact Or.inl rfl
  | some g =>
    cases mapGet acc p.1 with
    | none => exact Or.inl rfl
    | some cn => exact Or.inr ⟨p.1, _, rfl⟩

/-- Step-2 characterization: with duplicate-free keys in `cur`, the
transfer fold rewrites exactly the non-functional ids present in `cur`. -/
theorem transferFold_get (m : NodeMap) :
    ∀ (cur : PosMap), (cur.map Prod.fst).Nodup →
      ∀ (acc : PosMap) (id : String),
      mapGet (cur.foldl (alpTransferStep m) acc) id =
        (match mapGet cur id, mapGet m id with
        | some pos, some node =>
          if functionalTypes.contains node.type = true then mapGet acc id else some pos
        | _, _ => mapGet acc id) := by
  intro cur
  induction cur with
  | nil => intro _ acc id; rfl
  | cons p rest ih =>
    intro hnd acc id
    rw [List.map_cons, List.nodup_cons] at hnd
    rw [List.foldl_cons, ih hnd.2, mapGet_cons]
    by_cases hp : p.1 = id
    · have hrest : mapGet rest id = none := by
        rw [mapGet_eq_none_iff, ← hp]
        exact hnd.1
      rw [hrest, if_pos hp]
      cases hm2 : mapGet m id with
      | none =>
        show mapGet (alpTransferStep m acc p) id = mapGet acc id
        unfold alpTransferStep
        rw [hp, hm2]
      | some node =>
        show mapGet (alpTransferStep m acc p) id
          = (if functionalTypes.contains node.type = true then mapGet acc id else some p.2)
        unfold alpTransferStep
        rw [hp, hm2]
        show mapGet (if ¬ functionalTypes.contains node.type = true
            then mapSet acc id p.2 else acc) id
          = (if functionalTypes.contains node.type = true then mapGet acc id else some p.2)
        by_cases hf : functionalTypes.contains node.type = true
        · rw [if_neg (not_not_intro hf), if_pos hf]
        · rw [if_pos hf, if_neg hf, mapGet_mapSet, if_pos rfl]
    · rw [if_neg hp]
      have hstep : mapGet (alpTransferStep m acc p) id = mapGet acc id := by
        unfold alpTransferStep
        cases mapGet m p.1 with
        | none => rfl
        | some node =>
          show mapGet (if ¬ functionalTypes.contains node.type = true
              then mapSet acc p.1 p.2 else acc) id = mapGet acc id
          by_cases hf : ¬ functionalTypes.contains node.type = true
          · rw [if_pos hf, mapGet_mapSet, if_neg (fun he => hp he.symm)]
          · rw [if_neg hf]
      cases hc : mapGet rest id with
      | none =>
        cases hm2 : mapGet m id with
        | none => exact hstep
        | some node => exact hstep
      | some pos =>
        cases hm2 : mapGet m id with
        | none => exact hstep
        | some node =>
          show (if functionalTypes.contains node.type = true
              then mapGet (alpTransferStep m acc p) id else some pos)
            = (if functionalTypes.contains node.type = true then mapGet acc id else some pos)
          rw [hstep]

theorem alpGroupStep_get_other (m : NodeMap) (acc : PosMap) (gr : ChartNode)
    (id : String) (h : gr.id ≠ id) :
    mapGet (alpGroupStep m acc gr) id = mapGet acc id := by
  unfold alpGroupStep
  by_cases he : (alpMembers m gr).isEmpty = true
  · rw [if_pos he]
  · rw [if_neg he]
    simp only []
    cases (alpMembers m gr).foldl (alpBoundsStep acc) none with
    | none => rfl
    | some b =>
      obtain ⟨mnX, mnY, mxX, mxY⟩ := b
      show mapGet (mapSet acc gr.id _) id = mapGet acc id
      rw [mapGet_mapSet, if_neg (fun he2 => h he2.symm)]

theorem groupFold_frame (m : NodeMap) :
    ∀ (groups : List ChartNode) (acc : PosMap) (id : String),
      (∀ g ∈ groups, g.id ≠ id) →
      mapGet (groups.foldl (alpGroupStep m) acc) id = mapGet acc id := by
  intro groups
  induction groups with
  | nil => intro acc id _; rfl
  | cons g groups ih =>
    intro acc id h
    rw [List.foldl_cons, ih _ id (fun g2 hg2 => h g2 (List.mem_cons_of_mem g hg2)),
      alpGroupStep_get_other m acc g id (h g (List.mem_cons_self g groups))]

theorem boundsFold_congr (acc1 acc2 : PosMap) :
    ∀ (members : List ChartNode),
      (∀ n ∈ members, mapGet acc1 n.id = mapGet acc2 n.id) →
      ∀ b0, members.foldl (alpBoundsStep acc1) b0 = members.foldl (alpBoundsStep acc2) b0 := by
  intro members
  induction members with
  | nil => intro _ b0; rfl
  | cons n members ih =>
    intro h b0
    rw [List.foldl_cons, List.foldl_cons,
      show alpBoundsStep acc1 b0 n = alpBoundsStep acc2 b0 n from by
        unfold alpBoundsStep
        rw [h n (List.mem_cons_self n members)]]
    exact ih (fun q hq => h q (List.mem_cons_of_mem n hq)) _

theorem alpGroupStep_get_self (m : NodeMap) (acc : PosMap) (g : ChartNode) :
    mapGet (alpGroupStep m acc g) g.id
      = (if (alpMembers m g).isEmpty = true then mapGet acc g.id
         else match (alpMembers m g).foldl (alpBoundsStep acc) none with
           | none => mapGet acc g.id
           | some (mnX, mnY, mxX, mxY) =>
             some { x := mnX - 100, y := mnY - 100
                    width := some ((mxX - mnX) + 200)
                    height := some ((mxY - mnY) + 240) }) := by
  unfold alpGroupStep
  by_cases he : (alpMembers m g).isEmpty = true
  · rw [if_pos he, if_pos he]
  · rw [if_neg he, if_neg he]
    simp only []
    cases (alpMembers m g).foldl (alpBoundsStep acc) none with
    | none => rfl
    | some b =>
      obtain ⟨mnX, mnY, mxX, mxY⟩ := b
      show mapGet (mapSet acc g.id _) g.id = some _
      rw [mapGet_mapSet, if_pos rfl]

/-- Step-3 characterization at a group id occurring once among the groups,
whose members collide with no group id. -/
theorem groupFold_get_group (m : NodeMap) (l1 : List ChartNode) (g : ChartNode)
    (l2 : List ChartNode) (acc : PosMap)
    (hl1 : ∀ g1 ∈ l1, g1.id ≠ g.id) (hl2 : ∀ g2 ∈ l2, g2.id ≠ g.id)
    (hmem : ∀ g1 ∈ l1, ∀ n ∈ alpMembers m g, n.id ≠ g1.id) :
    mapGet ((l1 ++ g :: l2).foldl (alpGroupStep m) acc) g.id
      = (if (alpMembers m g).isEmpty = true then mapGet acc g.id
         else match (alpMembers m g).foldl (alpBoundsStep acc) none with
           | none => mapGet acc g.id
           | some (mnX, mnY, mxX, mxY) =>
             some { x := mnX - 100, y := mnY - 100
                    width := some ((mxX - mnX) + 200)
                    height := some ((mxY - mnY) + 240) }) := by
  rw [List.foldl_append, List.foldl_cons, groupFold_frame m l2 _ g.id hl2,
    alpGroupStep_get_self]
  by_cases he : (alpMembers m g).isEmpty = true
  · rw [if_pos he, if_pos he]
    exact groupFold_frame m l1 acc g.id hl1
  · rw [if_neg he, if_neg he]
    rw [show (alpMembers m g).foldl (alpBoundsStep (l1.foldl (alpGroupStep m) acc)) none
        = (alpMembers m g).foldl (alpBoundsStep acc) none from
      boundsFold_congr _ _ _ (fun n hn =>
        groupFold_frame m l1 acc n.id (fun g1 hg1 => (hmem g1 hg1 n hn).symm)) none]
    cases (alpMembers m g).foldl (alpBoundsStep acc) none with
    | none => exact groupFold_frame m l1 acc g.id hl1
    | some b =>
      obtain ⟨mnX, mnY, mxX, mxY⟩ := b
      rfl

theorem alpAnchorStep_get_other (acc : PosMap) (p : String × Anchor) (id : String)
    (h : p.1 ≠ id) : mapGet (alpAnchorStep acc p) id = mapGet acc id := by
  unfold alpAnchorStep
  cases mapGet acc p.2.groupId with
  | none => rfl
  | some g =>
    cases mapGet acc p.1 with
    | none => rfl
    | some cn =>
      show mapGet (mapSet acc p.1 _) id = mapGet acc id
      rw [mapGet_mapSet, if_neg (fun he => h he.symm)]

theorem anchorFold_frame :
    ∀ (anchored : List (String × Anchor)) (acc : PosMap) (id : String),
      (∀ q ∈ anchored, q.1 ≠ id) →
      mapGet (anchored.foldl alpAnchorStep acc) id = mapGet acc id := by
  intro anchored
  induction anchored with
  | nil => intro acc id _; rfl
  | cons q anchored ih =>
    intro acc id h
    rw [List.foldl_cons, ih _ id (fun q2 hq2 => h q2 (List.mem_cons_of_mem q hq2)),
      alpAnchorStep_get_other acc q id (h q (List.mem_cons_self q anchored))]

/-- Step-4 characterization at an anchor key occurring once, whose group id
collides with no earlier anchor key. -/
theorem anchorFold_get_anchor (l1 : List (String × Anchor)) (t : String) (a : Anchor)
    (l2 : List (String × Anchor)) (acc : PosMap)
    (hl1 : ∀ q ∈ l1, q.1 ≠ t) (hl2 : ∀ q ∈ l2, q.1 ≠ t)
    (hg : ∀ q ∈ l1, q.1 ≠ a.groupId) :
    mapGet ((l1 ++ (t, a) :: l2).foldl alpAnchorStep acc) t
      = (match mapGet acc a.groupId, mapGet acc t with
        | some g, some cn => some { cn with x := g.x + a.offsetX, y := g.y + a.offsetY }
        | _, _ => mapGet acc t) := by
  have hstep : ∀ (acc0 : PosMap),
      mapGet (alpAnchorStep acc0 (t, a)) t
        = (match mapGet acc0 a.groupId, mapGet acc0 t with
          | some g, some cn => some { cn with x := g.x + a.offsetX, y := g.y + a.offsetY }
          | _, _ => mapGet acc0 t) := by
    intro acc0
    show mapGet (match mapGet acc0 a.groupId, mapGet acc0 t with
      | some g, some cn => mapSet acc0 t { cn with x := g.x + a.offsetX, y := g.y + a.offsetY }
      | _, _ => acc0) t = _
    cases h1 : mapGet acc0 a.groupId with
    | none => rfl
    | some g =>
      cases h2 : mapGet acc0 t with
      | none => exact h2
      | some cn =>
        show mapGet (mapSet acc0 t _) t = some _
        rw [mapGet_mapSet, if_pos rfl]
  rw [List.foldl_append, List.foldl_cons, anchorFold_frame l2 _ t hl2, hstep,
    anchorFold_frame l1 acc a.groupId hg, anchorFold_frame l1 acc t hl1]

theorem foldl_keys_nodup {α β : Type} (step : List (String × α) → β → List (String × α))
    (hstep : ∀ acc b, ((acc.map Prod.fst).Nodup) → (((step acc b).map Prod.fst).Nodup)) :
    ∀ (l : List β) (acc : List (String × α)), ((acc.map Prod.fst).Nodup) →
      (((l.foldl step acc).map Prod.fst).Nodup) := by
  intro l
  induction l with
  | nil => intro acc h; exact h
  | cons b l ih =>
    intro acc h
    rw [List.foldl_cons]
    exact ih _ (hstep acc b h)

theorem foldl_entry_inv {α β : Type} (P : String × α → Prop) :
    ∀ (l : List β) (step : List (String × α) → β → List (String × α)),
      (∀ acc b, b ∈ l → (∀ q ∈ acc, P q) → ∀ q ∈ step acc b, P q) →
      ∀ (acc : List (String × α)), (∀ q ∈ acc, P q) → ∀ q ∈ l.foldl step acc, P q := by
  intro l
  induction l with
  | nil => intro step _ acc h q hq; exact h q hq
  | cons b l ih =>
    intro step hstep acc h
    rw [List.foldl_cons]
    exact ih step (fun acc2 b2 hb2 => hstep acc2 b2 (List.mem_cons_of_mem b hb2)) _
      (hstep acc b (List.mem_cons_self b l) h)

theorem mapSet_entry {α : Type} (acc : List (String × α)) (k : String) (v : α)
    (P : String × α → Prop) (hacc : ∀ q ∈ acc, P q) (hkv : P (k, v)) :
    ∀ q ∈ mapSet acc k v, P q := by
  intro q hq
  unfold mapSet at hq
  split at hq
  · obtain ⟨q0, hq0, hfq⟩ := List.mem_map.mp hq
    by_cases h : q0.1 = k
    · rw [if_pos h] at hfq
      rw [← hfq]
      exact hkv
    · rw [if_neg h] at hfq
      rw [← hfq]
      exact hacc q0 hq0
  · rcases List.mem_append.mp hq with h1 | h1
    · exact hacc q h1
    · rw [List.mem_singleton.mp h1]
      exact hkv

theorem foldl_isSome_mono {β : Type} (step : PosMap → β → PosMap)
    (hstep : ∀ acc b, step acc b = acc ∨ ∃ k v, step acc b = mapSet acc k v) :
    ∀ (l : List β) (acc : PosMap) (id : String),
      (mapGet acc id).isSome = true → (mapGet (l.foldl step acc) id).isSome = true := by
  intro l
  induction l with
  | nil => intro acc id h; exact h
  | cons b l ih =>
    intro acc id h
    rw [List.foldl_cons]
    refine ih _ id ?_
    rcases hstep acc b with h1 | ⟨k, v, h1⟩
    · rw [h1]; exact h
    · rw [h1, isSome_mapGet_mapSet]
      by_cases hk : id = k
      · rw [if_pos hk]
      · rw [if_neg hk]; exact h

theorem captureAnchors_ok (m : NodeMap) (cur : PosMap)
    (hkeys : ∀ p ∈ m, p.2.id = p.1) (hnd : (m.map Prod.fst).Nodup) :
    ∀ q ∈ captureAnchors m cur, anchorOk m cur q := by
  unfold captureAnchors
  refine foldl_entry_inv (anchorOk m cur) m _ ?_ [] (by intro q hq; exact absurd hq (List.not_mem_nil q))
  intro acc p hp hacc
  by_cases ht : p.2.type = NodeType.text ∨ p.2.type = NodeType.note ∨ p.2.type = NodeType.shape
  · rw [if_pos ht]
    cases hcp : mapGet cur p.2.id with
    | none => exact hacc
    | some nodePos =>
      refine foldl_entry_inv (anchorOk m cur) m _ ?_ acc hacc
      intro acc2 q hq hacc2
      by_cases hg : q.2.type = NodeType.group
      · rw [if_pos hg]
        cases hcq : mapGet cur q.2.id with
        | none => exact hacc2
        | some groupPos =>
          simp only []
          split
          · refine mapSet_entry acc2 p.2.id _ (anchorOk m cur) hacc2 ?_
            refine ⟨nodePos, groupPos, hcp, hcq, rfl, rfl, ⟨p.2, ?_, ht⟩, ⟨q.2, ?_, hg⟩⟩
            · exact mapGet_value m hkeys hnd p.2 (List.mem_map_of_mem Prod.snd hp)
            · exact mapGet_value m hkeys hnd q.2 (List.mem_map_of_mem Prod.snd hq)
          · exact hacc2
      · rw [if_neg hg]
        exact hacc2
  · rw [if_neg ht]
    exact hacc

theorem captureAnchors_nodup (m : NodeMap) (cur : PosMap) :
    ((captureAnchors m cur).map Prod.fst).Nodup := by
  unfold captureAnchors
  refine foldl_keys_nodup _ ?_ m [] (by simp)
  intro acc p hacc
  by_cases ht : p.2.type = NodeType.text ∨ p.2.type = NodeType.note ∨ p.2.type = NodeType.shape
  · rw [if_pos ht]
    cases hcp : mapGet cur p.2.id with
    | none => exact hacc
    | some nodePos =>
      refine foldl_keys_nodup _ ?_ m acc hacc
      intro acc2 q hacc2
      by_cases hg : q.2.type = NodeType.group
      · rw [if_pos hg]
        cases hcq : mapGet cur q.2.id with
        | none => exact hacc2
        | some groupPos =>
          simp only []
          split
          · exact mapSet_keys_nodup acc2 p.2.id _ hacc2
          · exact hacc2
      · rw [if_neg hg]
        exact hacc2
  · rw [if_neg ht]
    exact hacc

theorem insertionSort_congr {α : Type} (r s : α → α → Prop)
    [DecidableRel r] [DecidableRel s] (h : ∀ a b, r a b ↔ s a b) :
    ∀ l : List α, l.insertionSort r = l.insertionSort s := by
  have horder : ∀ (a : α) (l : List α),
      List.orderedInsert r a l = List.orderedInsert s a l := by
    intro a l
    induction l with
    | nil => rfl
    | cons b l ih =>
      show (if r a b then a :: b :: l else b :: List.orderedInsert r a l)
        = (if s a b then a :: b :: l else b :: List.orderedInsert s a l)
      by_cases hr : r a b
      · rw [if_pos hr, if_pos ((h a b).mp hr)]
      · rw [if_neg hr, if_neg (fun hs => hr ((h a b).mpr hs)), ih]
  intro l
  induction l with
  | nil => rfl
  | cons a l ih =>
    show List.orderedInsert r a (l.insertionSort r) = List.orderedInsert s a (l.insertionSort s)
    rw [ih, horder]

theorem sortNodeChildren_department (m : NodeMap) (n : ChartNode) :
    (sortNodeChildren m n).department = n.department := by
  unfold sortNodeChildren
  split
  · split
    · rfl
    · rfl
  · rfl

theorem sortNodeChildren_id (m : NodeMap) (n : ChartNode) :
    (sortNodeChildren m n).id = n.id := by
  unfold sortNodeChildren
  split
  · split
    · rfl
    · rfl
  · rfl

theorem sortChildren_get (m : NodeMap) (id : String) :
    mapGet (sortChildrenByDepartment m) id = (mapGet m id).map (sortNodeChildren m) := by
  unfold sortChildrenByDepartment
  exact mapGet_map_val (fun p => (p.1, sortNodeChildren m p.2)) (fun p => rfl)
    (sortNodeChildren m) (fun p => rfl) m id

theorem deptKey_sorted (m : NodeMap) (id : String) :
    deptKey (sortChildrenByDepartment m) id = deptKey m id := by
  unfold deptKey
  rw [sortChildren_get]
  cases mapGet m id with
  | none => rfl
  | some n =>
    show ((some (sortNodeChildren m n)).bind (fun n => n.department)).getD ""
      = ((some n).bind (fun n => n.department)).getD ""
    rw [show (some (sortNodeChildren m n)).bind (fun n => n.department)
        = (sortNodeChildren m n).department from rfl,
      show (some n).bind (fun n => n.department) = n.department from rfl,
      sortNodeChildren_department]

theorem sortChildren_keys (m : NodeMap) :
    (sortChildrenByDepartment m).map Prod.fst = m.map Prod.fst := by
  unfold sortChildrenByDepartment
  rw [List.map_map]
  exact List.map_congr_left (fun p _ => rfl)

theorem sortChildren_hkeys (m : NodeMap) (hkeys : ∀ p ∈ m, p.2.id = p.1) :
    ∀ p ∈ sortChildrenByDepartment m, p.2.id = p.1 := by
  intro p hp
  unfold sortChildrenByDepartment at hp
  obtain ⟨p0, hp0, hfp⟩ := List.mem_map.mp hp
  rw [← hfp]
  show (sortNodeChildren m p0.2).id = p0.1
  rw [sortNodeChildren_id]
  exact hkeys p0 hp0

theorem sortNodeChildren_sorted_eq (m : NodeMap) (x : ChartNode) :
    sortNodeChildren (sortChildrenByDepartment m) x = sortNodeChildren m x := by
  unfold sortNodeChildren
  cases x.children with
  | none => rfl
  | some cs =>
    simp only []
    by_cases hl : 1 < cs.length
    · rw [if_pos hl, if_pos hl,
        insertionSort_congr _ _ (fun a b => by rw [deptKey_sorted, deptKey_sorted]) cs]
    · rw [if_neg hl, if_neg hl]

theorem sortNodeChildren_eq (m : NodeMap) (n : ChartNode) :
    sortNodeChildren m n = { n with children := n.children.map (fun cs =>
      if 1 < cs.length then cs.insertionSort (fun a b => deptKey m a ≤ deptKey m b)
      else cs) } := by
  unfold sortNodeChildren
  split
  · rename_i cs heq
    rw [heq, Option.map_some']
    by_cases hl : 1 < cs.length
    · rw [if_pos hl, if_pos hl]
    · rw [if_neg hl, if_neg hl, ← heq]
  · rename_i heq
    rw [heq, Option.map_none', ← heq]

theorem sortNodeChildren_idem (m : NodeMap) (n : ChartNode) :
    sortNodeChildren m (sortNodeChildren m n) = sortNodeChildren m n := by
  have : IsTotal String (fun a b : String => deptKey m a ≤ deptKey m b) :=
    ⟨fun a b => le_total _ _⟩
  have : IsTrans String (fun a b : String => deptKey m a ≤ deptKey m b) :=
    ⟨fun a b c h1 h2 => le_trans h1 h2⟩
  have hFF : ∀ cs : List String,
      (if 1 < (if 1 < cs.length then
          cs.insertionSort (fun a b => deptKey m a ≤ deptKey m b) else cs).length then
        (if 1 < cs.length then
          cs.insertionSort (fun a b => deptKey m a ≤ deptKey m b) else cs).insertionSort
            (fun a b => deptKey m a ≤ deptKey m b)
       else (if 1 < cs.length then
          cs.insertionSort (fun a b => deptKey m a ≤ deptKey m b) else cs))
      = (if 1 < cs.length then
          cs.insertionSort (fun a b => deptKey m a ≤ deptKey m b) else cs) := by
    intro cs
    by_cases hl : 1 < cs.length
    · rw [if_pos hl,
        if_pos (by
          rw [(List.perm_insertionSort (fun a b : String => deptKey m a ≤ deptKey m b)
            cs).length_eq]
          exact hl),
        List.Sorted.insertionSort_eq (List.sorted_insertionSort _ cs)]
    · rw [if_neg hl, if_neg hl]
  rw [sortNodeChildren_eq m n, sortNodeChildren_eq]
  show ({ n with children := (n.children.map _).map _ } : ChartNode) = _
  rw [Option.map_map]
  cases hc : n.children with
  | none => rfl
  | some cs =>
    have hch : Option.map
        ((fun cs => if 1 < cs.length then
            cs.insertionSort (fun a b => deptKey m a ≤ deptKey m b) else cs) ∘
          (fun cs => if 1 < cs.length then
            cs.insertionSort (fun a b => deptKey m a ≤ deptKey m b) else cs)) (some cs)
        = Option.map (fun cs => if 1 < cs.length then
            cs.insertionSort (fun a b => deptKey m a ≤ deptKey m b) else cs) (some cs) := by
      rw [Option.map_some', Option.map_some']
      show some _ = some _
      rw [show ((fun cs => if 1 < cs.length then
          cs.insertionSort (fun a b => deptKey m a ≤ deptKey m b) else cs) ∘
        (fun cs => if 1 < cs.length then
          cs.insertionSort (fun a b => deptKey m a ≤ deptKey m b) else cs)) cs
          = _ from hFF cs]
    rw [hch]

theorem sortChildren_idem (m : NodeMap) :
    sortChildrenByDepartment (sortChildrenByDepartment m) = sortChildrenByDepartment m := by
  show (sortChildrenByDepartment m).map
      (fun p => (p.1, sortNodeChildren (sortChildrenByDepartment m) p.2))
    = sortChildrenByDepartment m
  have h1 : ∀ p ∈ sortChildrenByDepartment m,
      (p.1, sortNodeChildren (sortChildrenByDepartment m) p.2) = p := by
    intro p hp
    unfold sortChildrenByDepartment at hp
    obtain ⟨p0, hp0, hfp⟩ := List.mem_map.mp hp
    rw [← hfp]
    show (p0.1, sortNodeChildren (sortChildrenByDepartment m) (sortNodeChildren m p0.2))
      = (p0.1, sortNodeChildren m p0.2)
    rw [sortNodeChildren_sorted_eq, sortNodeChildren_idem]
  rw [List.map_congr_left h1]
  exact List.map_id _

theorem layoutInv_empty (cur : PosMap) : layoutInv cur [] := by
  constructor
  · intro id v h
    exact absurd h (by simp [mapGet])
  · simp

theorem alp_acc1_inv (fuel : Nat) (m : NodeMap) (cur : PosMap) :
    layoutInv cur (alpAcc1 fuel m cur) := by
  unfold alpAcc1
  exact roots_inv m cur fuel (alpRoots m) ((0 : Rat), []) (layoutInv_empty cur)

theorem alp_acc1_agree (fuel : Nat) (m : NodeMap) (P0 : PosMap) :
    agreeOn (fun id => whOf (autoLayoutPositions fuel m P0) id = whOf P0 id)
      (alpAcc1 fuel m (autoLayoutPositions fuel m P0)) (alpAcc1 fuel m P0) := by
  unfold alpAcc1
  exact (roots_agree m (autoLayoutPositions fuel m P0) P0 _ (fun id hid => hid) fuel
    (alpRoots m) ((0 : Rat), []) ((0 : Rat), []) rfl
    ⟨fun id _ => rfl, fun id => rfl⟩).2

theorem alp_keys_nodup (fuel : Nat) (m : NodeMap) (cur : PosMap) :
    ((autoLayoutPositions fuel m cur).map Prod.fst).Nodup := by
  unfold autoLayoutPositions alpAcc3 alpAcc2
  refine foldl_keys_nodup alpAnchorStep (fun acc b h => ?_) (captureAnchors m cur) _
    (foldl_keys_nodup (alpGroupStep m) (fun acc b h => ?_) (alpGroups m) _
      (foldl_keys_nodup (alpTransferStep m) (fun acc b h => ?_) cur _
        (alp_acc1_inv fuel m cur).2))
  · rcases alpAnchorStep_cases acc b with h1 | ⟨k, v, h1⟩
    · rw [h1]; exact h
    · rw [h1]; exact mapSet_keys_nodup acc k v h
  · rcases alpGroupStep_cases m acc b with h1 | ⟨k, v, h1⟩
    · rw [h1]; exact h
    · rw [h1]; exact mapSet_keys_nodup acc k v h
  · rcases alpTransferStep_cases m acc b with h1 | ⟨k, v, h1⟩
    · rw [h1]; exact h
    · rw [h1]; exact mapSet_keys_nodup acc k v h

theorem alp_isSome_mono (fuel : Nat) (m : NodeMap) (cur : PosMap) (id : String)
    (h : (mapGet (alpAcc1 fuel m cur) id).isSome = true) :
    (mapGet (autoLayoutPositions fuel m cur) id).isSome = true := by
  unfold autoLayoutPositions alpAcc3 alpAcc2
  exact foldl_isSome_mono alpAnchorStep alpAnchorStep_cases _ _ id
    (foldl_isSome_mono (alpGroupStep m) (alpGroupStep_cases m) _ _ id
      (foldl_isSome_mono (alpTransferStep m) (alpTransferStep_cases m) _ _ id h))

theorem agree_none (b1 b2 : PosMap) (id : String)
    (h2 : (mapGet b1 id).isSome = (mapGet b2 id).isSome)
    (hn : mapGet b2 id = none) : mapGet b1 id = none := by
  cases hh : mapGet b1 id with
  | none => rfl
  | some v =>
    rw [hh, hn] at h2
    exact absurd h2 (by simp)

theorem whOf_stable_of_inv (cur acc P : PosMap) (hinv : layoutInv cur acc) (id : String)
    (hPid : mapGet P id = mapGet acc id) (v : NodePosition) (hv : mapGet acc id = some v) :
    whOf P id = whOf cur id := by
  obtain ⟨hw, hh⟩ := hinv.1 id v hv
  unfold whOf
  rw [hPid, hv]
  show (jsOr v.width 208, jsOr v.height 100) = _
  rw [hw, hh]
  show (jsOr (some (jsOr ((mapGet cur id).bind (fun p => p.width)) 208)) 208,
        jsOr (some (jsOr ((mapGet cur id).bind (fun p => p.height)) 100)) 100) = _
  rw [jsOr_stable _ _ (by norm_num), jsOr_stable _ _ (by norm_num)]

/-- Text, note and shape nodes are not functional. -/
theorem textish_not_functional (n : ChartNode)
    (h : n.type = NodeType.text ∨ n.type = NodeType.note ∨ n.type = NodeType.shape) :
    functionalTypes.contains n.type = false := by
  rcases h with h | h | h <;> rw [h] <;> decide

/-- Group nodes are not functional. -/
theorem group_not_functional (n : ChartNode) (h : n.type = NodeType.group) :
    functionalTypes.contains n.type = false := by
  rw [h]; decide

/-- Captured anchor keys never collide with an id of a different type
class. -/
theorem anchor_key_ne (m : NodeMap) (cur : PosMap)
    (hkeys : ∀ p ∈ m, p.2.id = p.1) (hndm : (m.map Prod.fst).Nodup)
    (id : String) (n : ChartNode) (hn : mapGet m id = some n)
    (hf : functionalTypes.contains n.type = true ∨ n.type = NodeType.group) :
    ∀ q ∈ captureAnchors m cur, q.1 ≠ id := by
  intro q hq he
  obtain ⟨_, _, _, _, _, _, ⟨tq, hq1, htype⟩, _⟩ := captureAnchors_ok m cur hkeys hndm q hq
  rw [he, hn] at hq1
  injection hq1 with hq1
  rw [← hq1] at htype
  rcases hf with hf | hf
  · rw [textish_not_functional n htype] at hf
    exact absurd hf (by simp)
  · rw [hf] at htype
    rcases htype with h1 | h1 | h1 <;> exact absurd h1 (by decide)

/-- Group ids never collide with an id of a non-group node. -/
theorem group_id_ne (m : NodeMap)
    (hkeys : ∀ p ∈ m, p.2.id = p.1) (hndm : (m.map Prod.fst).Nodup)
    (id : String) (n : ChartNode) (hn : mapGet m id = some n)
    (hng : n.type ≠ NodeType.group) :
    ∀ g ∈ alpGroups m, g.id ≠ id := by
  intro g hg he
  obtain ⟨hgv, hgt⟩ := List.mem_filter.mp hg
  have hv := mapGet_value m hkeys hndm g hgv
  rw [he, hn] at hv
  injection hv with hv
  exact hng (by rw [hv]; exact of_decide_eq_true hgt)

theorem anchor_key_ne_nonm (m : NodeMap) (cur : PosMap)
    (hkeys : ∀ p ∈ m, p.2.id = p.1) (hndm : (m.map Prod.fst).Nodup)
    (id : String) (hn : mapGet m id = none) :
    ∀ q ∈ captureAnchors m cur, q.1 ≠ id := by
  intro q hq he
  obtain ⟨_, _, _, _, _, _, ⟨tq, hq1, _⟩, _⟩ := captureAnchors_ok m cur hkeys hndm q hq
  rw [he, hn] at hq1
  exact absurd hq1 (by simp)

theorem group_id_ne_nonm (m : NodeMap)
    (hkeys : ∀ p ∈ m, p.2.id = p.1) (hndm : (m.map Prod.fst).Nodup)
    (id : String) (hn : mapGet m id = none) :
    ∀ g ∈ alpGroups m, g.id ≠ id := by
  intro g hg he
  obtain ⟨hgv, _⟩ := List.mem_filter.mp hg
  have hv := mapGet_value m hkeys hndm g hgv
  rw [he, hn] at hv
  exact absurd hv (by simp)

theorem acc2_get_func (fuel : Nat) (m : NodeMap) (cur : PosMap)
    (hndc : (cur.map Prod.fst).Nodup) (id : String) (n : ChartNode)
    (hn : mapGet m id = some n) (hf : functionalTypes.contains n.type = true) :
    mapGet (alpAcc2 fuel m cur) id = mapGet (alpAcc1 fuel m cur) id := by
  unfold alpAcc2
  rw [transferFold_get m cur hndc _ id, hn]
  cases hp : mapGet cur id with
  | none => rfl
  | some pos =>
    show (if functionalTypes.contains n.type = true
        then mapGet (alpAcc1 fuel m cur) id else some pos) = _
    rw [if_pos hf]

theorem acc2_get_nonf_some (fuel : Nat) (m : NodeMap) (cur : PosMap)
    (hndc : (cur.map Prod.fst).Nodup) (id : String) (n : ChartNode)
    (hn : mapGet m id = some n) (hnf : functionalTypes.contains n.type = false)
    (pos : NodePosition) (hp : mapGet cur id = some pos) :
    mapGet (alpAcc2 fuel m cur) id = some pos := by
  unfold alpAcc2
  rw [transferFold_get m cur hndc _ id, hn, hp]
  show (if functionalTypes.contains n.type = true
      then mapGet (alpAcc1 fuel m cur) id else some pos) = _
  rw [if_neg (by rw [hnf]; simp)]

theorem acc2_get_nonf_none (fuel : Nat) (m : NodeMap) (cur : PosMap)
    (hndc : (cur.map Prod.fst).Nodup) (id : String)
    (hp : mapGet cur id = none) :
    mapGet (alpAcc2 fuel m cur) id = mapGet (alpAcc1 fuel m cur) id := by
  unfold alpAcc2
  rw [transferFold_get m cur hndc _ id, hp]

theorem acc2_get_nonm (fuel : Nat) (m : NodeMap) (cur : PosMap)
    (hndc : (cur.map Prod.fst).Nodup) (id : String) (hn : mapGet m id = none) :
    mapGet (alpAcc2 fuel m cur) id = mapGet (alpAcc1 fuel m cur) id := by
  unfold alpAcc2
  rw [transferFold_get m cur hndc _ id, hn]
  cases mapGet cur id with
  | none => rfl
  | some pos => rfl

theorem alp_get_func (fuel : Nat) (m : NodeMap) (P0 : PosMap)
    (hkeys : ∀ p ∈ m, p.2.id = p.1) (hndm : (m.map Prod.fst).Nodup)
    (hnd0 : (P0.map Prod.fst).Nodup) (id : String) (n : ChartNode)
    (hn : mapGet m id = some n) (hf : functionalTypes.contains n.type = true) :
    mapGet (autoLayoutPositions fuel m P0) id = mapGet (alpAcc1 fuel m P0) id := by
  unfold autoLayoutPositions alpAcc3
  rw [anchorFold_frame _ _ id (anchor_key_ne m P0 hkeys hndm id n hn (Or.inl hf)),
    groupFold_frame m _ _ id (group_id_ne m hkeys hndm id n hn
      (fun hgg => by rw [hgg] at hf; exact absurd hf (by decide)))]
  exact acc2_get_func fuel m P0 hnd0 id n hn hf

theorem alp_get_nonm (fuel : Nat) (m : NodeMap) (P0 : PosMap)
    (hkeys : ∀ p ∈ m, p.2.id = p.1) (hndm : (m.map Prod.fst).Nodup)
    (hnd0 : (P0.map Prod.fst).Nodup) (id : String) (hn : mapGet m id = none) :
    mapGet (autoLayoutPositions fuel m P0) id = mapGet (alpAcc1 fuel m P0) id := by
  unfold autoLayoutPositions alpAcc3
  rw [anchorFold_frame _ _ id (anchor_key_ne_nonm m P0 hkeys hndm id hn),
    groupFold_frame m _ _ id (group_id_ne_nonm m hkeys hndm id hn)]
  exact acc2_get_nonm fuel m P0 hnd0 id hn

theorem acc1_agree_at (fuel : Nat) (m : NodeMap) (P0 : PosMap) (id : String)
    (hPid : mapGet (autoLayoutPositions fuel m P0) id = mapGet (alpAcc1 fuel m P0) id) :
    mapGet (alpAcc1 fuel m (autoLayoutPositions fuel m P0)) id
      = mapGet (alpAcc1 fuel m P0) id := by
  cases hv : mapGet (alpAcc1 fuel m P0) id with
  | none => exact agree_none _ _ id ((alp_acc1_agree fuel m P0).2 id) hv
  | some v =>
    rw [← hv]
    exact (alp_acc1_agree fuel m P0).1 id
      (whOf_stable_of_inv P0 _ _ (alp_acc1_inv fuel m P0) id hPid v hv)

theorem nodup_split_ne {α : Type} (f : α → String) (l1 : List α) (x : α) (l2 : List α)
    (h : ((l1 ++ x :: l2).map f).Nodup) :
    (∀ y ∈ l1, f y ≠ f x) ∧ (∀ y ∈ l2, f y ≠ f x) := by
  rw [List.map_append, List.map_cons] at h
  rcases List.nodup_append.mp h with ⟨h1, h2, hdisj⟩
  constructor
  · intro y hy he
    exact hdisj (List.mem_map_of_mem f hy) (by rw [he]; exact List.mem_cons_self _ _)
  · rcases List.nodup_cons.mp h2 with ⟨hx, _⟩
    intro y hy he
    exact hx (by rw [← he]; exact List.mem_map_of_mem f hy)

theorem alpGroups_ids_nodup (m : NodeMap)
    (hkeys : ∀ p ∈ m, p.2.id = p.1) (hndm : (m.map Prod.fst).Nodup) :
    ((alpGroups m).map (fun g => g.id)).Nodup := by
  have hvals : (m.map Prod.snd).map (fun n => n.id) = m.map Prod.fst := by
    rw [List.map_map]
    exact List.map_congr_left (fun p hp => hkeys p hp)
  have hnd : ((m.map Prod.snd).map (fun n => n.id)).Nodup := by rw [hvals]; exact hndm
  exact hnd.sublist (List.Sublist.map _ (List.filter_sublist _))

theorem alpMembers_mem (m : NodeMap) (gr : ChartNode) (n : ChartNode)
    (h : n ∈ alpMembers m gr) :
    n ∈ m.map Prod.snd ∧ functionalTypes.contains n.type = true := by
  obtain ⟨hv, hp⟩ := List.mem_filter.mp h
  have hp' := of_decide_eq_true hp
  exact ⟨hv, hp'.2.2⟩

/-- Core stability of the fitted group boxes: the second run's step-3
output at a group id equals the first run's final value there. -/
theorem alp_group_stable (fuel : Nat) (m : NodeMap) (P0 : PosMap)
    (hkeys : ∀ p ∈ m, p.2.id = p.1) (hndm : (m.map Prod.fst).Nodup)
    (hnd0 : (P0.map Prod.fst).Nodup) (gid : String) (gnode : ChartNode)
    (hg : mapGet m gid = some gnode) (hgt : gnode.type = NodeType.group) :
    mapGet (alpAcc3 fuel m (autoLayoutPositions fuel m P0)) gid
      = mapGet (autoLayoutPositions fuel m P0) gid := by
  have hndP := alp_keys_nodup fuel m P0
  have hgid : gnode.id = gid := mapGet_id m hkeys gid gnode hg
  have hgmem : gnode ∈ alpGroups m :=
    List.mem_filter.mpr ⟨mapGet_mem_values m gid gnode hg, by rw [hgt]; rfl⟩
  obtain ⟨l1, l2, hsplit⟩ := List.append_of_mem hgmem
  have hids := alpGroups_ids_nodup m hkeys hndm
  rw [hsplit] at hids
  obtain ⟨hl1, hl2⟩ := nodup_split_ne (fun g => g.id) l1 gnode l2 hids
  have hmemdisj : ∀ g1 ∈ l1, ∀ n ∈ alpMembers m gnode, n.id ≠ g1.id := by
    intro g1 hg1 n hn
    obtain ⟨hnv, hnf⟩ := alpMembers_mem m gnode n hn
    have hgn : mapGet m n.id = some n := mapGet_value m hkeys hndm n hnv
    intro he
    exact group_id_ne m hkeys hndm n.id n hgn
      (fun hgg => by rw [hgg] at hnf; exact absurd hnf (by decide))
      g1 (by rw [hsplit]; exact List.mem_append_left _ hg1) he.symm
  -- members read the same values in both runs
  have hmemeq : ∀ n ∈ alpMembers m gnode,
      mapGet (alpAcc2 fuel m (autoLayoutPositions fuel m P0)) n.id
        = mapGet (alpAcc2 fuel m P0) n.id := by
    intro n hn
    obtain ⟨hnv, hnf⟩ := alpMembers_mem m gnode n hn
    have hgn : mapGet m n.id = some n := mapGet_value m hkeys hndm n hnv
    rw [acc2_get_func fuel m _ hndP n.id n hgn hnf,
      acc2_get_func fuel m P0 hnd0 n.id n hgn hnf]
    exact acc1_agree_at fuel m P0 n.id (alp_get_func fuel m P0 hkeys hndm hnd0 n.id n hgn hnf)
  -- the first run's final value at the group id is its step-3 value
  have hP3 : mapGet (autoLayoutPositions fuel m P0) gid
      = mapGet (alpAcc3 fuel m P0) gid := by
    unfold autoLayoutPositions
    exact anchorFold_frame _ _ gid (anchor_key_ne m P0 hkeys hndm gid gnode hg (Or.inr hgt))
  have hchar1 := groupFold_get_group m l1 gnode l2 (alpAcc2 fuel m P0) hl1 hl2 hmemdisj
  have hchar2 := groupFold_get_group m l1 gnode l2
    (alpAcc2 fuel m (autoLayoutPositions fuel m P0)) hl1 hl2 hmemdisj
  have hbounds : (alpMembers m gnode).foldl
      (alpBoundsStep (alpAcc2 fuel m (autoLayoutPositions fuel m P0))) none
      = (alpMembers m gnode).foldl (alpBoundsStep (alpAcc2 fuel m P0)) none :=
    boundsFold_congr _ _ _ hmemeq none
  have hnonf : functionalTypes.contains gnode.type = false := group_not_functional gnode hgt
  -- fall-through equality of the step-2 accumulators at the group id
  have hfall : mapGet (autoLayoutPositions fuel m P0) gid = mapGet (alpAcc2 fuel m P0) gid →
      mapGet (alpAcc2 fuel m (autoLayoutPositions fuel m P0)) gid
        = mapGet (autoLayoutPositions fuel m P0) gid := by
    intro hPA2
    cases hp : mapGet (autoLayoutPositions fuel m P0) gid with
    | some pos => exact acc2_get_nonf_some fuel m _ hndP gid gnode hg hnonf pos hp
    | none =>
      rw [acc2_get_nonf_none fuel m _ hndP gid hp]
      refine agree_none _ _ gid ((alp_acc1_agree fuel m P0).2 gid) ?_
      rw [hp] at hPA2
      cases hp0 : mapGet P0 gid with
      | some pos0 =>
        rw [acc2_get_nonf_some fuel m P0 hnd0 gid gnode hg hnonf pos0 hp0] at hPA2
        exact absurd hPA2 (by simp)
      | none =>
        rw [acc2_get_nonf_none fuel m P0 hnd0 gid hp0] at hPA2
        exact hPA2.symm
  rw [hgid] at hchar1 hchar2
  have hP1 : mapGet (autoLayoutPositions fuel m P0) gid
      = if (alpMembers m gnode).isEmpty = true then mapGet (alpAcc2 fuel m P0) gid
        else match (alpMembers m gnode).foldl (alpBoundsStep (alpAcc2 fuel m P0)) none with
          | none => mapGet (alpAcc2 fuel m P0) gid
          | some (mnX, mnY, mxX, mxY) =>
            some { x := mnX - 100, y := mnY - 100,
                   width := some (mxX - mnX + 200), height := some (mxY - mnY + 240) } := by
    rw [hP3]
    unfold alpAcc3
    rw [hsplit]
    exact hchar1
  unfold alpAcc3
  rw [hsplit, hchar2, hbounds]
  by_cases he : (alpMembers m gnode).isEmpty = true
  · rw [if_pos he]
    exact hfall (by rw [hP1, if_pos he])
  · rw [if_neg he]
    cases hb : (alpMembers m gnode).foldl (alpBoundsStep (alpAcc2 fuel m P0)) none with
    | none =>
      exact hfall (by rw [hP1, if_neg he, hb])
    | some b =>
      obtain ⟨mnX, mnY, mxX, mxY⟩ := b
      rw [hP1, if_neg he, hb]

theorem mapGet_mem_pair {α : Type} (l : List (String × α)) (k : String) (v : α)
    (h : mapGet l k = some v) : (k, v) ∈ l := by
  unfold mapGet at h
  cases hf : l.find? (fun p => p.1 = k) with
  | none => rw [hf] at h; exact absurd h (by simp)
  | some p =>
    rw [hf] at h
    have hp := List.mem_of_find?_eq_some hf
    have hk := List.find?_some hf
    have hk' : p.1 = k := by simpa using hk
    have hv : p.2 = v := by simpa using h
    rw [← hk', ← hv]
    exact hp

/-- Running the whole position pipeline a second time on its own output,
with the same node map, changes no entry. -/
theorem autoLayoutPositions_stable (fuel : Nat) (m : NodeMap) (P0 : PosMap)
    (hkeys : ∀ p ∈ m, p.2.id = p.1) (hndm : (m.map Prod.fst).Nodup)
    (hnd0 : (P0.map Prod.fst).Nodup) (id : String) :
    mapGet (autoLayoutPositions fuel m (autoLayoutPositions fuel m P0)) id
      = mapGet (autoLayoutPositions fuel m P0) id := by
  have hndP := alp_keys_nodup fuel m P0
  cases hm : mapGet m id with
  | none =>
    rw [alp_get_nonm fuel m _ hkeys hndm hndP id hm,
      acc1_agree_at fuel m P0 id (alp_get_nonm fuel m P0 hkeys hndm hnd0 id hm),
      ← alp_get_nonm fuel m P0 hkeys hndm hnd0 id hm]
  | some n =>
    by_cases hf : functionalTypes.contains n.type = true
    · rw [alp_get_func fuel m _ hkeys hndm hndP id n hm hf,
        acc1_agree_at fuel m P0 id (alp_get_func fuel m P0 hkeys hndm hnd0 id n hm hf),
        ← alp_get_func fuel m P0 hkeys hndm hnd0 id n hm hf]
    · have hnf : functionalTypes.contains n.type = false := by
        cases hcc : functionalTypes.contains n.type
        · rfl
        · exact absurd hcc hf
      by_cases hgt : n.type = NodeType.group
      · calc mapGet (autoLayoutPositions fuel m (autoLayoutPositions fuel m P0)) id
            = mapGet (alpAcc3 fuel m (autoLayoutPositions fuel m P0)) id := by
              show mapGet ((captureAnchors m (autoLayoutPositions fuel m P0)).foldl
                  alpAnchorStep (alpAcc3 fuel m (autoLayoutPositions fuel m P0))) id = _
              exact anchorFold_frame _ _ id
                (anchor_key_ne m _ hkeys hndm id n hm (Or.inr hgt))
          _ = mapGet (autoLayoutPositions fuel m P0) id :=
              alp_group_stable fuel m P0 hkeys hndm hnd0 id n hm hgt
      · cases hA : mapGet (captureAnchors m (autoLayoutPositions fuel m P0)) id with
        | none =>
          have hframe : ∀ q ∈ captureAnchors m (autoLayoutPositions fuel m P0), q.1 ≠ id := by
            intro q hq he
            exact (mapGet_eq_none_iff _ id).mp hA (he ▸ List.mem_map_of_mem Prod.fst hq)
          rw [show mapGet (autoLayoutPositions fuel m (autoLayoutPositions fuel m P0)) id
              = mapGet (alpAcc2 fuel m (autoLayoutPositions fuel m P0)) id from by
            show mapGet ((captureAnchors m (autoLayoutPositions fuel m P0)).foldl
                alpAnchorStep (alpAcc3 fuel m (autoLayoutPositions fuel m P0))) id = _
            rw [anchorFold_frame _ _ id hframe]
            unfold alpAcc3
            exact groupFold_frame m _ _ id (group_id_ne m hkeys hndm id n hm hgt)]
          cases hp : mapGet (autoLayoutPositions fuel m P0) id with
          | some pos => exact acc2_get_nonf_some fuel m _ hndP id n hm hnf pos hp
          | none =>
            rw [acc2_get_nonf_none fuel m _ hndP id hp]
            have hA1 : mapGet (alpAcc1 fuel m P0) id = none := by
              cases hA1c : mapGet (alpAcc1 fuel m P0) id with
              | none => rfl
              | some v =>
                have hs := alp_isSome_mono fuel m P0 id (by rw [hA1c]; rfl)
                rw [hp] at hs
                exact absurd hs (by decide)
            exact agree_none _ _ id ((alp_acc1_agree fuel m P0).2 id) hA1
        | some a =>
          obtain ⟨np, gp, hnp0, hgp0, hoffX0, hoffY0, ⟨n', hn', htype'⟩,
            ⟨gnode, hgnode0, hgtype0⟩⟩ :=
            captureAnchors_ok m _ hkeys hndm (id, a)
              (mapGet_mem_pair _ id a hA)
          have hnp : mapGet (autoLayoutPositions fuel m P0) id = some np := hnp0
          have hgp : mapGet (autoLayoutPositions fuel m P0) a.groupId = some gp := hgp0
          have hoffX : a.offsetX = np.x - gp.x := hoffX0
          have hoffY : a.offsetY = np.y - gp.y := hoffY0
          have hgnode : mapGet m a.groupId = some gnode := hgnode0
          obtain ⟨l1, l2, hsplit⟩ := List.append_of_mem (mapGet_mem_pair _ id a hA)
          have hndA := captureAnchors_nodup m (autoLayoutPositions fuel m P0)
          rw [hsplit] at hndA
          obtain ⟨hl1, hl2⟩ := nodup_split_ne Prod.fst l1 (id, a) l2 hndA
          have hg1 : ∀ q ∈ l1, q.1 ≠ a.groupId := by
            intro q hq
            exact anchor_key_ne m _ hkeys hndm a.groupId gnode hgnode (Or.inr hgtype0) q
              (by rw [hsplit]; exact List.mem_append_left _ hq)
          have hacc3g : mapGet (alpAcc3 fuel m (autoLayoutPositions fuel m P0)) a.groupId
              = some gp := by
            rw [alp_group_stable fuel m P0 hkeys hndm hnd0 a.groupId gnode hgnode hgtype0]
            exact hgp
          have hacc3i : mapGet (alpAcc3 fuel m (autoLayoutPositions fuel m P0)) id
              = some np := by
            unfold alpAcc3
            rw [groupFold_frame m _ _ id (group_id_ne m hkeys hndm id n hm hgt)]
            exact acc2_get_nonf_some fuel m _ hndP id n hm hnf np hnp
          show mapGet ((captureAnchors m (autoLayoutPositions fuel m P0)).foldl
              alpAnchorStep (alpAcc3 fuel m (autoLayoutPositions fuel m P0))) id
            = mapGet (autoLayoutPositions fuel m P0) id
          rw [hsplit, anchorFold_get_anchor l1 id a l2 _ (fun q hq => hl1 q hq)
            (fun q hq => hl2 q hq) hg1, hacc3g, hacc3i, hnp]
          show some { np with x := gp.x + a.offsetX, y := gp.y + a.offsetY } = some np
          rw [hoffX, hoffY]
          have hx : gp.x + (np.x - gp.x) = np.x := by ring
          have hy : gp.y + (np.y - gp.y) = np.y := by ring
          rw [hx, hy]

/-- C7: running autoLayout twice in a row on a state not modified in
between produces identical geometry maps (and node maps) after the first
and second run.  Stated under the invariants that the source maintains for
every reachable state: each node record's id equals its map key, and the
node and geometry maps have duplicate-free key sets. -/
theorem claim_C7 (fuel : Nat) (b1 b2 : Bool) (s : EngineState)
    (hkeys : ∀ p ∈ s.nodes, p.2.id = p.1)
    (hndm : (s.nodes.map Prod.fst).Nodup)
    (hnd0 : (s.nodePositions.map Prod.fst).Nodup) :
    (autoLayout fuel b2 (autoLayout fuel b1 s)).nodes = (autoLayout fuel b1 s).nodes ∧
    ∀ id, mapGet (autoLayout fuel b2 (autoLayout fuel b1 s)).nodePositions id
      = mapGet (autoLayout fuel b1 s).nodePositions id := by
  have h1nodes : (autoLayout fuel b1 s).nodes = sortChildrenByDepartment s.nodes := by
    cases b1 <;> rfl
  have h1pos : (autoLayout fuel b1 s).nodePositions
      = autoLayoutPositions fuel (sortChildrenByDepartment s.nodes) s.nodePositions := by
    cases b1 <;> rfl
  have h2nodes : (autoLayout fuel b2 (autoLayout fuel b1 s)).nodes
      = sortChildrenByDepartment (autoLayout fuel b1 s).nodes := by
    cases b2 <;> rfl
  have h2pos : (autoLayout fuel b2 (autoLayout fuel b1 s)).nodePositions
      = autoLayoutPositions fuel (sortChildrenByDepartment (autoLayout fuel b1 s).nodes)
          (autoLayout fuel b1 s).nodePositions := by
    cases b2 <;> rfl
  constructor
  · rw [h2nodes, h1nodes, sortChildren_idem]
  · intro id
    rw [h2pos, h1pos, h1nodes, sortChildren_idem]
    exact autoLayoutPositions_stable fuel (sortChildrenByDepartment s.nodes) s.nodePositions
      (sortChildren_hkeys s.nodes hkeys)
      (by rw [sortChildren_keys]; exact hndm) hnd0 id

/-- Witness for C7 at a concrete tree. -/
theorem claim_C7_witness :
    (∀ p ∈ layoutWitnessState.nodes, p.2.id = p.1) ∧
    ((autoLayout 5 true (autoLayout 5 true layoutWitnessState)).nodes
        = (autoLayout 5 true layoutWitnessState).nodes ∧
      ∀ id, mapGet (autoLayout 5 true (autoLayout 5 true layoutWitnessState)).nodePositions id
        = mapGet (autoLayout 5 true layoutWitnessState).nodePositions id) :=
  ⟨by decide,
   claim_C7 5 true true layoutWitnessState (by decide) (by decide) (by decide)⟩

/-- Witness for C9 at concrete inputs. -/
theorem claim_C9_witness :
    (emptyState.undoStack.length + emptyState.redoStack.length ≤ maxHistorySize ∧
      (applyCmds [Cmd.saveHistory, Cmd.undo, Cmd.saveHistory]
        emptyState).undoStack.length ≤ maxHistorySize) ∧
    (fullStackState.undoStack.length = maxHistorySize ∧
      (saveHistory fullStackState).undoStack
        = fullStackState.undoStack.drop 1 ++ [stateSnapshot fullStackState]) ∧
    (saveHistory emptyState).redoStack = [] :=
  ⟨⟨by decide, claim_C9.1 [Cmd.saveHistory, Cmd.undo, Cmd.saveHistory] emptyState (by decide)⟩,
   ⟨by simp [fullStackState, emptyState],
    claim_C9.2.1 fullStackState (by simp [fullStackState, emptyState])⟩,
   claim_C9.2.2 emptyState⟩

end Chartflow
